import Mathlib

/-!
# Feed-forward network engine: forward pass, back-propagation, weight decay

A shallow embedding of `src/network/network.cpp`.

* `float` elements are rationals (`ℚ`).  The two float operations of weight decay, the
  difference `1.f - lambda` and the product `w *= decayCoeff`, are rounded to float32
  (`roundFloat32`, round to nearest, ties to even); everywhere else the arithmetic is exact
  and rounding is not modelled.  Infinities and NaN are outside the model.
* `std::vector` is `List`; `v[i]` is `List.getD` and `v[i] = x` is `List.set`.  An index
  outside the vector is undefined behaviour in the source; here a read yields the default
  value and a write does nothing, and the theorems carry the size hypotheses under which
  every index is in range.
* `size_t` indices are `Nat`; the one comparison of the source that relies on wrap-around
  (`data.size() - 1 < k`) is modelled modulo `2 ^ 64`.
* Member functions that mutate the network return the new network state.  `backProp` returns
  its outcome together with the state it leaves behind; `forwardPassParallel`, whose
  exceptions are thrown from inside the parallel region, returns either the exception or its
  result and the final state.
* The iterations of an OpenMP `parallel for` are run one after the other, in index order.
* A training run returns how it ended (`Exit`), the number of epochs executed in full and
  the state it leaves.  Every call of the batch loop is a step on that state which performs
  the call and appends it, with its arguments, to the record of calls of the run.  An
  integer division by zero has no defined result (`Exit.undefined`).
-/

namespace FFNN

/-! ## The dense-matrix primitive -/

/-- Modelled from the spec: the dense-matrix primitive `Matrix<float>` (its class is not part
of `network.cpp`).  A matrix is its column count together with its rows; the row count is the
number of rows stored. -/
structure Matrix where
  numCols : Nat
  rows : List (List ℚ)
deriving DecidableEq

namespace Matrix

/-- Modelled from the spec: the default-constructed matrix `Matrix()` (what `emplace_back()`
appends): no rows, no columns. -/
def empty : Matrix := ⟨0, []⟩

instance : Inhabited Matrix := ⟨empty⟩

/-- Modelled from the spec: the constructor `Matrix(numRows, numCols, value)`. -/
def filled (numRows numCols : Nat) (value : ℚ) : Matrix :=
  ⟨numCols, List.replicate numRows (List.replicate numCols value)⟩

/-- Modelled from the spec: `getNumRows()`. -/
def getNumRows (m : Matrix) : Nat := m.rows.length

/-- Modelled from the spec: `getNumCols()`. -/
def getNumCols (m : Matrix) : Nat := m.numCols

/-- Modelled from the spec: `getItem(i, j)`. -/
def getItem (m : Matrix) (i j : Nat) : ℚ := (m.rows.getD i []).getD j 0

/-- Modelled from the spec: `setItem(i, j, value)`. -/
def setItem (m : Matrix) (i j : Nat) (value : ℚ) : Matrix :=
  { m with rows := m.rows.set i ((m.rows.getD i []).set j value) }

/-- Column `j` of a matrix, as a vector. -/
def col (m : Matrix) (j : Nat) : List ℚ := m.rows.map (fun r => r.getD j 0)

/-- Inner product of two vectors. -/
def dot (x y : List ℚ) : ℚ := (List.zipWith (fun a b => a * b) x y).sum

/-- Modelled from the spec: matrix product `a.matmul(b)`: one output row per row of `a`, one
output column per column of `b`. -/
def matmul (a b : Matrix) : Matrix :=
  { numCols := b.numCols
    rows := a.rows.map (fun r => (List.range b.numCols).map (fun j => dot r (b.col j))) }

/-- Modelled from the spec: `m += bias`, the bias vector added to every row. -/
def addBias (m : Matrix) (bias : List ℚ) : Matrix :=
  { m with rows := m.rows.map (fun r => List.zipWith (fun a b => a + b) r bias) }

/-- Modelled from the spec: `a *= b` for two matrices, the element-wise (Hadamard) product. -/
def hadamard (a b : Matrix) : Matrix :=
  { a with rows := List.zipWith (fun r s => List.zipWith (fun x y => x * y) r s) a.rows b.rows }

/-- The exact product of a matrix with a scalar `c` (the product `m *= c` of the source,
which rounds, is `Matrix.scaleFloat`). -/
def scale (m : Matrix) (c : ℚ) : Matrix :=
  { m with rows := m.rows.map (fun r => r.map (fun x => x * c)) }

/-- Modelled from the spec: the transpose of a matrix. -/
def transpose (m : Matrix) : Matrix :=
  { numCols := m.rows.length, rows := (List.range m.numCols).map (fun j => m.col j) }

/-- Every stored row has exactly `numCols` entries. -/
def WellShaped (m : Matrix) : Prop := ∀ r ∈ m.rows, r.length = m.numCols

end Matrix

/-! ## Network configuration and state -/

/-- Modelled from the spec: the tag of an activation function.  The source only ever compares
it with `SoftMax`. -/
inductive ActivationFunction where
  | Identity
  | SoftMax
  | Other (tag : Nat)
deriving DecidableEq

/-- One layer descriptor: the activation, its derivative (both applied to a whole buffer),
and the tag of the activation. -/
structure LayerConfig where
  activationFunction : Matrix → Matrix
  activationDerivFunction : Matrix → Matrix
  activationFunctionType : ActivationFunction

instance : Inhabited LayerConfig := ⟨⟨id, id, ActivationFunction.Identity⟩⟩

structure NetworkConfig where
  layersConfig : List LayerConfig

/-- The exceptions raised by the engine. -/
inductive NetworkError where
  | WrongOutputActivationFunction
  | NegativeEtaException
  | StdException
deriving DecidableEq

/-- Result of the statistics collaborator. -/
structure Stats where
  accuracy : ℚ
  crossEntropy : ℚ
deriving DecidableEq

/-- The mutable state of a `Network` object. -/
structure Network where
  networkConfig : NetworkConfig
  weights : List Matrix
  weightsTransposed : List Matrix
  biases : List (List ℚ)
  activationResults : List Matrix
  activationDerivResults : List Matrix
  deltaWeights : List Matrix
  deltaBiases : List (List ℚ)
  parallelActivationResults : List (List Matrix)
  parallelActivationDerivResults : List (List Matrix)
  parallelDeltaWeights : List (List Matrix)
  parallelDeltaBiases : List (List (List ℚ))

/-- Layer descriptor `layersConfig[i]`. -/
def Network.layer (net : Network) (i : Nat) : LayerConfig :=
  net.networkConfig.layersConfig.getD i default

/-! ## Forward pass -/

/-- Loop state of `forwardPass`: the local `tmp` and the two result vectors. -/
structure ForwardState where
  tmp : Matrix
  activationResults : List Matrix
  activationDerivResults : List Matrix

/-- Body of the `for` loop of `forwardPass` (lines 31-45) at index `i`. -/
def forwardBody (net : Network) (st : ForwardState) (i : Nat) : ForwardState :=
  let tmp := ((st.tmp.matmul (net.weights.getD i default)).addBias (net.biases.getD i []))
  let tmp := (net.layer (i + 1)).activationFunction tmp
  let activationResults := st.activationResults ++ [tmp]
  if i = net.weights.length - 1 then
    ⟨tmp, activationResults, st.activationDerivResults ++ [Matrix.empty]⟩
  else
    let tmpCopy := (net.layer (i + 1)).activationDerivFunction tmp
    ⟨tmp, activationResults, st.activationDerivResults ++ [tmpCopy]⟩

/-- The statements of `forwardPass` before its loop (lines 10-28). -/
def forwardInit (net : Network) (data : Matrix) : ForwardState :=
  let activationResults := [data]
  let tmp := (data.matmul (net.weights.getD 0 default)).addBias (net.biases.getD 0 [])
  let tmp := (net.layer 1).activationFunction tmp
  let activationResults := activationResults ++ [tmp]
  if net.weights.length = 1 then
    ⟨tmp, activationResults, [Matrix.empty]⟩
  else
    let tmpCopy := (net.layer 1).activationDerivFunction tmp
    ⟨tmp, activationResults, [tmpCopy]⟩

/-- The whole computation of `forwardPass`: initial statements, then the loop over
`i = 1 .. weights.size() - 1`. -/
def forwardRun (net : Network) (data : Matrix) : ForwardState :=
  (List.range' 1 (net.weights.length - 1)).foldl (forwardBody net) (forwardInit net data)

/-- `Network::forwardPass`: returns the statistics of the final activation and the network
with its two result vectors rebuilt.  `getStats` is the statistics collaborator. -/
def forwardPass (getStats : Matrix → List Nat → Stats) (net : Network) (data : Matrix)
    (labels : List Nat) : Stats × Network :=
  let st := forwardRun net data
  (getStats st.tmp labels,
    { net with activationResults := st.activationResults
               activationDerivResults := st.activationDerivResults })

/-- The recurrence of the specification: `A 0` is the input and
`A (i+1) = activation_(i+1) (A i * W i + b i)`. -/
def layerOutput (net : Network) (data : Matrix) : Nat → Matrix
  | 0 => data
  | i + 1 =>
    (net.layer (i + 1)).activationFunction
      (((layerOutput net data i).matmul (net.weights.getD i default)).addBias
        (net.biases.getD i []))

/-- The derivative buffer of the specification for layer `i + 1`: absent (empty) for the
final layer, otherwise the derivative function applied to the activation output. -/
def layerDeriv (net : Network) (data : Matrix) (i : Nat) : Matrix :=
  if i = net.weights.length - 1 then Matrix.empty
  else (net.layer (i + 1)).activationDerivFunction (layerOutput net data (i + 1))

/-! ## Back-propagation -/

/-- Modelled from the spec: `CrossentropyFunction::costDelta(activation, labels)` (not part of
`network.cpp`): row by row, the activation minus the one-hot encoding of the row's label. -/
def CrossentropyFunction.costDelta (activation : Matrix) (labels : List Nat) : Matrix :=
  { numCols := activation.numCols
    rows := List.zipWith
      (fun row label =>
        (List.range row.length).map (fun j => row.getD j 0 - if j = label then 1 else 0))
      activation.rows labels }

/-- Loop state of the gradient loop of `backProp`: the vector `deltaWeights` and the index of
the element the pointer `lastDelta` refers to. -/
structure BackState where
  deltaWeights : List Matrix
  lastDelta : Nat

/-- Body of the gradient loop of `backProp` (lines 63-66) at index `i`. -/
def backBody (net : Network) (activationDerivResults : List Matrix) (st : BackState) (i : Nat) :
    BackState :=
  let matmuls := (st.deltaWeights.getD st.lastDelta default).matmul
    (net.weightsTransposed.getD i default)
  let matmuls := matmuls.hadamard (activationDerivResults.getD (i - 1) default)
  ⟨st.deltaWeights.set (i - 1) matmuls, i - 1⟩

/-- The statement `deltaBiases[i][k] += v`. -/
def addAt (deltaBiases : List (List ℚ)) (i k : Nat) (v : ℚ) : List (List ℚ) :=
  deltaBiases.set i ((deltaBiases.getD i []).set k ((deltaBiases.getD i []).getD k 0 + v))

/-- Body of the bias loop of `backProp` (lines 70-75) for layer `i`: zero the vector, then add
every entry of the gradient matrix, divided by its row count, to the entry of its column. -/
def biasBody (deltaWeights : List Matrix) (deltaBiases : List (List ℚ)) (i : Nat) :
    List (List ℚ) :=
  let zeroed := deltaBiases.set i (List.replicate (deltaBiases.getD i []).length 0)
  let dW := deltaWeights.getD i default
  (List.range dW.getNumRows).foldl
    (fun db j =>
      (List.range dW.getNumCols).foldl
        (fun db k => addAt db i k (dW.getItem j k / (dW.getNumRows : ℚ))) db)
    zeroed

/-- The gradient part of `backProp` (lines 57-67), run on given buffers. -/
def backGradients (net : Network) (activationResults activationDerivResults : List Matrix)
    (deltaWeights : List Matrix) (labels : List Nat) : BackState :=
  let numLayers := net.networkConfig.layersConfig.length
  let st0 : BackState :=
    ⟨deltaWeights.set (numLayers - 2)
        (CrossentropyFunction.costDelta (activationResults.getD (numLayers - 1) default) labels),
      numLayers - 2⟩
  (List.range' 1 (numLayers - 2)).reverse.foldl (backBody net activationDerivResults) st0

/-- `Network::backProp`: the outcome (normal return or the exception thrown) and the network
state left behind. -/
def backProp (net : Network) (labels : List Nat) : Except NetworkError Unit × Network :=
  let layersConfig := net.networkConfig.layersConfig
  let lastLayerConf := layersConfig.getD (layersConfig.length - 1) default
  if lastLayerConf.activationFunctionType ≠ ActivationFunction.SoftMax then
    (Except.error NetworkError.WrongOutputActivationFunction, net)
  else
    let numLayers := layersConfig.length
    let st := backGradients net net.activationResults net.activationDerivResults
      net.deltaWeights labels
    let deltaBiases :=
      (List.range (numLayers - 1)).foldl (biasBody st.deltaWeights) net.deltaBiases
    (Except.ok (), { net with deltaWeights := st.deltaWeights, deltaBiases := deltaBiases })

/-! ## Weight decay -/

/-- The floor of the binary logarithm of `n ≥ 1`, by halving; the first argument bounds the
number of halvings. -/
def log2Floor : Nat → Nat → Nat
  | 0, _ => 0
  | fuel + 1, n => if n < 2 then 0 else log2Floor fuel (n / 2) + 1

/-- The integer nearest to `x`, the even one of the two when `x` is halfway. -/
def roundHalfEven (x : ℚ) : ℤ :=
  let f := Rat.floor x
  if x - f < 1 / 2 then f
  else if 1 / 2 < x - f then f + 1
  else if f % 2 = 0 then f else f + 1

/-- The binary exponent of `x ≠ 0`: the integer `e` with `2 ^ e ≤ |x| < 2 ^ (e + 1)`. -/
def binaryExponent (x : ℚ) : ℤ :=
  let e0 : ℤ := (log2Floor x.num.natAbs x.num.natAbs : ℤ) - (log2Floor x.den x.den : ℤ)
  if (2 : ℚ) ^ e0 ≤ |x| then e0 else e0 - 1

/-- The value of type `float` (IEEE 754 binary32, round to nearest, ties to even) that a
float operation with the exact result `x` yields: `x` rounded to a multiple of
`2 ^ (e - 23)`, where `e` is the binary exponent of `x` and at least `-126` (below
`2 ^ (-126)` the values are subnormal).  Results beyond the largest finite `float`, which
the source turns into an infinity, are outside the model. -/
def roundFloat32 (x : ℚ) : ℚ :=
  if x = 0 then 0
  else
    let e := max (binaryExponent x) (-126)
    let q : ℚ := 2 ^ (e - 23)
    (roundHalfEven (x / q) : ℚ) * q

/-- Modelled from the spec: `m *= c` for a scalar `c` on a `Matrix<float>`: every entry is
replaced by its float product with `c`. -/
def Matrix.scaleFloat (m : Matrix) (c : ℚ) : Matrix :=
  { m with rows := m.rows.map (fun r => r.map (fun x => roundFloat32 (x * c))) }

/-- `Network::weightDecay`: `decayCoeff = 1.f - lambda` is a float difference and
`singleWeights *= decayCoeff` a float product in every entry. -/
def weightDecay (net : Network) (eta lambda : ℚ) (batchSize epoch : Nat) : Network :=
  if lambda = 0 then net
  else
    let decayCoeff := roundFloat32 (1 - lambda)
    { net with
      weights := net.weights.map (fun singleWeights => singleWeights.scaleFloat decayCoeff) }

/-- `Network::weightDecayParallel`; the iterations of its parallel loop write distinct
elements of `weights` and are run here in index order.  The arithmetic is that of
`weightDecay`. -/
def weightDecayParallel (net : Network) (lambda : ℚ) : Network :=
  if lambda = 0 then net
  else
    let decayCoeff := roundFloat32 (1 - lambda)
    { net with
      weights := (List.range net.weights.length).foldl
        (fun ws i => ws.set i ((ws.getD i default).scaleFloat decayCoeff)) net.weights }

/-- The weight matrices `ws2` have the shapes of `ws1` and every entry of `ws2` is the float
product of the entry of `ws1` at the same place with `c`. -/
def EntriesScaledFloat (ws1 ws2 : List Matrix) (c : ℚ) : Prop :=
  ws2.length = ws1.length ∧
    ∀ i, (ws2.getD i default).numCols = (ws1.getD i default).numCols ∧
      (ws2.getD i default).getNumRows = (ws1.getD i default).getNumRows ∧
      ∀ r k, (ws2.getD i default).getItem r k =
        roundFloat32 ((ws1.getD i default).getItem r k * c)

/-- The weight matrices `ws2` have the shapes of `ws1` and every entry of `ws2` is the entry of
`ws1` at the same place multiplied by `c`. -/
def EntriesScaled (ws1 ws2 : List Matrix) (c : ℚ) : Prop :=
  ws2.length = ws1.length ∧
    ∀ i, (ws2.getD i default).numCols = (ws1.getD i default).numCols ∧
      (ws2.getD i default).getNumRows = (ws1.getD i default).getNumRows ∧
      ∀ r k, (ws2.getD i default).getItem r k = (ws1.getD i default).getItem r k * c

/-- The element `deltaBiases[i][k]`. -/
def biasAt (deltaBiases : List (List ℚ)) (i k : Nat) : ℚ := (deltaBiases.getD i []).getD k 0

/-- Two vectors of bias vectors have the same sizes throughout. -/
def SameShape (db1 db2 : List (List ℚ)) : Prop :=
  db2.length = db1.length ∧ ∀ i, (db2.getD i []).length = (db1.getD i []).length

/-! ## The parallel forward and backward pass -/

/-- A loop whose body may throw: the loop stops at the first exception. -/
def foldExcept {σ α : Type} (f : σ → α → Except NetworkError σ) :
    σ → List α → Except NetworkError σ
  | s, [] => Except.ok s
  | s, a :: as =>
    match f s a with
    | Except.error e => Except.error e
    | Except.ok s2 => foldExcept f s2 as

/-- The two loops of the lambda `copyPart` (lines 238-242): row `i - startRow` of `part` is
written, entry by entry, into row `i` of `res`. -/
def copyPartLoop (res part : Matrix) (startRow : Nat) : Matrix :=
  (List.range' startRow part.getNumRows).foldl
    (fun res i =>
      (List.range part.getNumCols).foldl
        (fun res j => res.setItem i j (part.getItem (i - startRow) j)) res)
    res

/-- The lambda `copyPart` of `forwardPassParallel`: throws when the column counts differ. -/
def copyPart (res part : Matrix) (startRow : Nat) : Except NetworkError Matrix :=
  if res.getNumCols ≠ part.getNumCols then Except.error NetworkError.StdException
  else Except.ok (copyPartLoop res part startRow)

/-- The call `copyPart(buf[i], part, startRow)` on element `i` of a vector of matrices. -/
def copyPartAt (buf : List Matrix) (i : Nat) (part : Matrix) (startRow : Nat) :
    Except NetworkError (List Matrix) :=
  (copyPart (buf.getD i default) part startRow).map (fun res => buf.set i res)

/-- The local `batchSize` of `forwardPassParallel` (line 230). -/
def batchSizeOf (data : List Matrix) : Nat :=
  data.foldl (fun batchSize subBatch => batchSize + subBatch.getNumRows) 0

/-- The local `startRows` of `forwardPassParallel` (lines 248-253): the pair is
`(currentStartRows, startRows)`. -/
def startRowsOf (data : List Matrix) : List Nat :=
  (data.foldl (fun (p : Nat × List Nat) d => (p.1 + d.getNumRows, p.2 ++ [p.1])) (0, [])).2

/-- Body of the allocation loop over the weights (lines 262-269): one zero buffer per
weight matrix is appended to each shared vector, then a weight matrix without columns makes
the call throw. -/
def allocBody (batchSize : Nat) (net : Network) (weight : Matrix) : Except NetworkError Network :=
  let net1 : Network :=
    { net with
      activationResults := net.activationResults ++ [Matrix.filled batchSize weight.getNumCols 0]
      activationDerivResults :=
        net.activationDerivResults ++ [Matrix.filled batchSize weight.getNumCols 0]
      deltaWeights := net.deltaWeights ++ [Matrix.filled batchSize weight.getNumCols 0]
      deltaBiases := net.deltaBiases ++ [List.replicate weight.getNumCols 0] }
  if weight.getNumCols = 0 then Except.error NetworkError.StdException else Except.ok net1

/-- The statements of `forwardPassParallel` before its parallel loop (lines 255-274): the
shared vectors are cleared and refilled with zero buffers sized for the whole batch. -/
def parallelInit (net : Network) (batchSize : Nat) : Except NetworkError Network :=
  let net0 : Network :=
    { net with
      activationResults := [Matrix.filled batchSize (net.weights.getD 0 default).getNumRows 0]
      activationDerivResults := []
      deltaWeights := []
      deltaBiases := [] }
  (foldExcept (allocBody batchSize) net0 net.weights).map
    (fun net1 =>
      { net1 with
        deltaBiases := net1.deltaBiases.map (fun deltaBias => List.replicate deltaBias.length 0) })

/-- State of the forward part of one worker iteration: the local `tmp`, the worker's own
vectors `parallelActivationResults[k]` and `parallelActivationDerivResults[k]`, and the
shared vectors `activationResults` and `activationDerivResults`. -/
structure WorkerForward where
  tmp : Matrix
  parallelActivationResults : List Matrix
  parallelActivationDerivResults : List Matrix
  activationResults : List Matrix
  activationDerivResults : List Matrix

/-- The forward statements of a worker before its layer loop (lines 283-308). -/
def workerForwardInit (net : Network) (dataK : Matrix) (startRow : Nat)
    (activationResults activationDerivResults : List Matrix) :
    Except NetworkError WorkerForward :=
  let pAR := [dataK]
  (copyPartAt activationResults 0 dataK startRow).bind fun activationResults =>
    let tmp := (dataK.matmul (net.weights.getD 0 default)).addBias (net.biases.getD 0 [])
    let tmp := (net.layer 1).activationFunction tmp
    let pAR := pAR ++ [tmp]
    (copyPartAt activationResults 1 tmp startRow).bind fun activationResults =>
      if net.weights.length = 1 then
        Except.ok ⟨tmp, pAR, [Matrix.empty], activationResults, activationDerivResults⟩
      else
        let tmpCopy := (net.layer 1).activationDerivFunction tmp
        (copyPartAt activationDerivResults 0 tmpCopy startRow).map fun activationDerivResults =>
          ⟨tmp, pAR, [tmpCopy], activationResults, activationDerivResults⟩

/-- Body of the layer loop of a worker (lines 311-329) at index `i`. -/
def workerForwardBody (net : Network) (startRow : Nat) (st : WorkerForward) (i : Nat) :
    Except NetworkError WorkerForward :=
  let tmp := (st.tmp.matmul (net.weights.getD i default)).addBias (net.biases.getD i [])
  let tmp := (net.layer (i + 1)).activationFunction tmp
  let pAR := st.parallelActivationResults ++ [tmp]
  (copyPartAt st.activationResults (i + 1) tmp startRow).bind fun activationResults =>
    if i = net.weights.length - 1 then
      Except.ok ⟨tmp, pAR, st.parallelActivationDerivResults ++ [Matrix.empty],
        activationResults, st.activationDerivResults⟩
    else
      let tmpCopy := (net.layer (i + 1)).activationDerivFunction tmp
      (copyPartAt st.activationDerivResults i tmpCopy startRow).map
        fun activationDerivResults =>
          ⟨tmp, pAR, st.parallelActivationDerivResults ++ [tmpCopy], activationResults,
            activationDerivResults⟩

/-- State of the gradient part of one worker iteration: the worker's own vector
`parallelDeltaWeights[k]`, the index the pointer `lastDelta` refers to in it, and the shared
vector `deltaWeights`. -/
structure WorkerBack where
  parallelDeltaWeights : List Matrix
  lastDelta : Nat
  deltaWeights : List Matrix

/-- Body of the gradient loop of a worker (lines 355-360) at index `i`. -/
def workerBackBody (net : Network) (pADR : List Matrix) (startRow : Nat) (st : WorkerBack)
    (i : Nat) : Except NetworkError WorkerBack :=
  let matmuls := (st.parallelDeltaWeights.getD st.lastDelta default).matmul
    (net.weightsTransposed.getD i default)
  let matmuls := matmuls.hadamard (pADR.getD (i - 1) default)
  let pDW := st.parallelDeltaWeights.set (i - 1) matmuls
  (copyPartAt st.deltaWeights (i - 1) (pDW.getD (i - 1) default) startRow).map
    fun deltaWeights => ⟨pDW, i - 1, deltaWeights⟩

/-- Body of the bias loop of a worker (lines 364-378) for layer `i`, on the pair of the
worker's own `parallelDeltaBiases[k]` and the shared `deltaBiases`: the worker's vector
becomes the column sums of its gradient matrix, and each of its entries, divided by the
row count of the sub-batch, is added to the shared vector. -/
def workerBiasBody (pDW : List Matrix) (rowsK : Nat)
    (st : List (List ℚ) × List (List ℚ)) (i : Nat) : List (List ℚ) × List (List ℚ) :=
  let zeroed := st.1.set i (List.replicate (st.1.getD i []).length 0)
  let dW := pDW.getD i default
  let pDB := (List.range dW.getNumRows).foldl
    (fun db j =>
      (List.range dW.getNumCols).foldl (fun db l => addAt db i l (dW.getItem j l)) db)
    zeroed
  let deltaBiases := (List.range (st.2.getD i []).length).foldl
    (fun db j => addAt db i j ((pDB.getD i []).getD j 0 / (rowsK : ℚ))) st.2
  (pDB, deltaBiases)

/-- State of the parallel loop: the network and the two shared accumulators. -/
structure ParallelState where
  net : Network
  acc : ℚ
  ce : ℚ

/-- The forward part of a worker iteration (lines 283-330). -/
def workerForward (net : Network) (dataK : Matrix) (startRow : Nat)
    (activationResults activationDerivResults : List Matrix) :
    Except NetworkError WorkerForward :=
  (workerForwardInit net dataK startRow activationResults activationDerivResults).bind
    fun fwd0 =>
      foldExcept (workerForwardBody net startRow) fwd0
        (List.range' 1 (net.weights.length - 1))

/-- The gradient part of a worker iteration (lines 342-361): the softmax check, the gradient
of the output layer with its copy into the shared vector, and the descending loop.  `pAR`
and `pADR` are the worker's activation and derivative vectors, `pDW0` its gradient vector
before the call. -/
def workerGradients (net : Network) (pAR pADR : List Matrix) (labelsK : List Nat)
    (startRow : Nat) (pDW0 deltaWeights : List Matrix) : Except NetworkError WorkerBack :=
  let layersConfig := net.networkConfig.layersConfig
  let lastLayerConf := layersConfig.getD (layersConfig.length - 1) default
  if lastLayerConf.activationFunctionType ≠ ActivationFunction.SoftMax then
    Except.error NetworkError.WrongOutputActivationFunction
  else
    let numLayers := layersConfig.length
    let pDW := pDW0.set (numLayers - 2)
      (CrossentropyFunction.costDelta (pAR.getD (numLayers - 1) default) labelsK)
    (copyPartAt deltaWeights (numLayers - 2) (pDW.getD (numLayers - 2) default)
        startRow).bind fun deltaWeights =>
      foldExcept (workerBackBody net pADR startRow) ⟨pDW, numLayers - 2, deltaWeights⟩
        (List.range' 1 (numLayers - 2)).reverse

/-- Body of the parallel loop of `forwardPassParallel` (lines 279-379) for worker `k`: a
worker without a sub-batch does nothing; otherwise the forward part, the accumulation of the
statistics, the gradient part and the bias part follow each other. -/
def workerBody (getStats : Matrix → List Nat → Stats) (data : List Matrix)
    (labels : List (List Nat)) (startRows : List Nat) (st : ParallelState) (k : Nat) :
    Except NetworkError ParallelState :=
  if (data.length + 2 ^ 64 - 1) % 2 ^ 64 < k then Except.ok st
  else
    let net := st.net
    let dataK := data.getD k default
    let startRow := startRows.getD k 0
    (workerForward net dataK startRow net.activationResults
        net.activationDerivResults).bind fun fwd =>
    let stats := getStats fwd.tmp (labels.getD k [])
    let acc := st.acc + stats.accuracy
    let ce := st.ce + stats.crossEntropy
    (workerGradients net fwd.parallelActivationResults fwd.parallelActivationDerivResults
        (labels.getD k []) startRow (net.parallelDeltaWeights.getD k [])
        net.deltaWeights).map fun back =>
    let biases := (List.range (net.networkConfig.layersConfig.length - 1)).foldl
      (workerBiasBody back.parallelDeltaWeights dataK.getNumRows)
      (net.parallelDeltaBiases.getD k [], net.deltaBiases)
    { net :=
        { net with
          activationResults := fwd.activationResults
          activationDerivResults := fwd.activationDerivResults
          deltaWeights := back.deltaWeights
          deltaBiases := biases.2
          parallelActivationResults :=
            net.parallelActivationResults.set k fwd.parallelActivationResults
          parallelActivationDerivResults :=
            net.parallelActivationDerivResults.set k fwd.parallelActivationDerivResults
          parallelDeltaWeights := net.parallelDeltaWeights.set k back.parallelDeltaWeights
          parallelDeltaBiases := net.parallelDeltaBiases.set k biases.1 }
      acc := acc
      ce := ce }

/-- `Network::forwardPassParallel`.  The iterations of the parallel loop are run in index
order; `numThreads` is the configured worker count.  The result is the exception thrown, or
the averaged statistics and the network state. -/
def forwardPassParallel (getStats : Matrix → List Nat → Stats) (numThreads : Nat)
    (net : Network) (data : List Matrix) (labels : List (List Nat)) :
    Except NetworkError (Stats × Network) :=
  let batchSize := batchSizeOf data
  let startRows := startRowsOf data
  (parallelInit net batchSize).bind fun net1 =>
    (foldExcept (workerBody getStats data labels startRows) ⟨net1, 0, 0⟩
        (List.range numThreads)).map fun st =>
      (⟨st.acc / (numThreads : ℚ), st.ce / (numThreads : ℚ)⟩, st.net)

/-- An activation (or derivative) function works row by row: it keeps the column count and
maps every row, by the same function, to a row of the same length. -/
def RowWise (act : Matrix → Matrix) : Prop :=
  ∃ f : List ℚ → List ℚ, (∀ r, (f r).length = r.length) ∧
    ∀ m : Matrix, act m = ⟨m.numCols, m.rows.map f⟩

/-- The whole mini-batch of which `data` is the split: the rows of the sub-batches, in
order, with `numCols` columns. -/
def wholeBatch (numCols : Nat) (data : List Matrix) : Matrix :=
  ⟨numCols, (data.map (fun d => d.rows)).flatten⟩

/-- The inner loop of `copyPart` on one row: entry `j` of `row` is overwritten by `v j`, for
the first `c` indices. -/
def fillRow (row : List ℚ) (v : Nat → ℚ) (c : Nat) : List ℚ :=
  (List.range c).foldl (fun r j => r.set j (v j)) row

/-- The result of `copyPart` when the shapes fit: the rows of `part` replace the rows of
`res` from `startRow` on. -/
def pasteRows (res part : Matrix) (startRow : Nat) : Matrix :=
  ⟨res.numCols,
    res.rows.take startRow ++ part.rows ++ res.rows.drop (startRow + part.rows.length)⟩

/-- Column count of activation buffer `i`: the row count of the first weight matrix for the
input, the column count of `weights[i-1]` for layer `i`. -/
def Network.width (net : Network) : Nat → Nat
  | 0 => (net.weights.getD 0 default).getNumRows
  | i + 1 => (net.weights.getD i default).getNumCols

/-- The shape conditions of a softmax-terminated network with row-wise activation functions:
`L ≥ 2` layers and `L - 1` weight matrices, no layer of width zero, bias vectors as long as
their layer is wide, the column count of each transposed weight matrix used by the backward
pass equal to the width of the layer below, activations and (for the non-final layers)
derivatives that work row by row, and softmax as the last activation. -/
def Network.WellFormed (net : Network) : Prop :=
  2 ≤ net.networkConfig.layersConfig.length ∧
    net.weights.length = net.networkConfig.layersConfig.length - 1 ∧
    (∀ i, i < net.networkConfig.layersConfig.length - 1 →
      (net.weights.getD i default).getNumCols ≠ 0) ∧
    (∀ i, i < net.networkConfig.layersConfig.length - 1 →
      (net.biases.getD i []).length = (net.weights.getD i default).getNumCols) ∧
    (∀ i, 1 ≤ i → i ≤ net.networkConfig.layersConfig.length - 2 →
      (net.weightsTransposed.getD i default).getNumCols =
        (net.weights.getD (i - 1) default).getNumCols) ∧
    (∀ i, 1 ≤ i → i ≤ net.networkConfig.layersConfig.length - 1 →
      RowWise (net.layer i).activationFunction) ∧
    (∀ i, 1 ≤ i → i ≤ net.networkConfig.layersConfig.length - 2 →
      RowWise (net.layer i).activationDerivFunction) ∧
    (net.layer (net.networkConfig.layersConfig.length - 1)).activationFunctionType =
      ActivationFunction.SoftMax

/-- Two network states have the same configuration and parameters (they may differ in their
buffers). -/
def SameParams (net1 net2 : Network) : Prop :=
  net2.networkConfig = net1.networkConfig ∧ net2.weights = net1.weights ∧
    net2.biases = net1.biases ∧ net2.weightsTransposed = net1.weightsTransposed

/-- The activation buffers of the forward pass on the batch `d`. -/
def activationsOf (net : Network) (d : Matrix) : List Matrix :=
  (List.range (net.weights.length + 1)).map (layerOutput net d)

/-- The derivative buffers of the forward pass on the batch `d`. -/
def derivativesOf (net : Network) (d : Matrix) : List Matrix :=
  (List.range net.weights.length).map (layerDeriv net d)

/-- The gradient matrix of layer `i` that back-propagation computes from the forward pass on
the batch `d` with the labels `lab`. -/
def gradOf (net : Network) (d : Matrix) (lab : List Nat) (i : Nat) : Matrix :=
  ((backGradients net (activationsOf net d) (derivativesOf net d)
    (List.replicate (net.networkConfig.layersConfig.length - 1) default) lab).deltaWeights.getD
      i default)

/-- The effect of the calls `copyPart(buf[i], parts i, startRow)` for `i < m`. -/
def pasteLoop (buf : List Matrix) (parts : Nat → Matrix) (startRow m : Nat) : List Matrix :=
  (List.range m).foldl
    (fun b i => b.set i (copyPartLoop (b.getD i default) (parts i) startRow)) buf

/-- The number of rows of the first `k` sub-batches. -/
def rowsBefore (data : List Matrix) (k : Nat) : Nat :=
  ((data.take k).map Matrix.getNumRows).sum

/-- The shared gradient buffer of layer `i` once the first `k` workers have run: the rows
of their gradient matrices, in order, followed by the zero rows of the sub-batches still to
come. -/
def assembled (net : Network) (data : List Matrix) (labels : List (List Nat)) (i k : Nat) :
    Matrix :=
  ⟨net.width (i + 1),
    ((List.range k).map
      (fun k2 => (gradOf net (data.getD k2 default) (labels.getD k2 []) i).rows)).flatten ++
      List.replicate (rowsBefore data data.length - rowsBefore data k)
        (List.replicate (net.width (i + 1)) 0)⟩

/-- The invariant of the parallel loop after the first `k` workers: the parameters are
those of `net`, the shared activation and derivative buffers have the layer widths, every
worker's gradient vector has one entry per weight matrix, and the shared gradient buffers
are assembled from the first `k` sub-batches. -/
def ParallelInv (net : Network) (data : List Matrix) (labels : List (List Nat)) (k : Nat)
    (st : ParallelState) : Prop :=
  SameParams net st.net ∧
    (∀ i, i ≤ net.weights.length →
      (st.net.activationResults.getD i default).numCols = net.width i) ∧
    (∀ i, i + 1 < net.weights.length →
      (st.net.activationDerivResults.getD i default).numCols = net.width (i + 1)) ∧
    (∀ k2, k2 < data.length →
      net.networkConfig.layersConfig.length - 2 <
        (st.net.parallelDeltaWeights.getD k2 []).length) ∧
    st.net.deltaWeights.length = net.networkConfig.layersConfig.length - 1 ∧
    ∀ i, i < net.networkConfig.layersConfig.length - 1 →
      st.net.deltaWeights.getD i default = assembled net data labels i k

/-- The state that worker `k` leaves behind when none of its `copyPart` calls throws, written
with the parameters of `net` (which the loop never changes): the forward results of the
sub-batch and its gradients are stored in the worker's vectors and copied into the shared
buffers at the row offset of the sub-batch, the bias sums are accumulated, and the
statistics of the sub-batch are added to the accumulators. -/
def workerNext (getStats : Matrix → List Nat → Stats) (net : Network) (data : List Matrix)
    (labels : List (List Nat)) (st : ParallelState) (k : Nat) : ParallelState :=
  { net :=
      { st.net with
        activationResults := pasteLoop st.net.activationResults
          (layerOutput net (data.getD k default)) (rowsBefore data k) (net.weights.length + 1)
        activationDerivResults := pasteLoop st.net.activationDerivResults
          (layerDeriv net (data.getD k default)) (rowsBefore data k) (net.weights.length - 1)
        deltaWeights := pasteLoop st.net.deltaWeights
          (fun j => (backGradients net (activationsOf net (data.getD k default))
            (derivativesOf net (data.getD k default)) (st.net.parallelDeltaWeights.getD k [])
            (labels.getD k [])).deltaWeights.getD j default)
          (rowsBefore data k) (net.networkConfig.layersConfig.length - 1)
        deltaBiases :=
          ((List.range (net.networkConfig.layersConfig.length - 1)).foldl
            (workerBiasBody
              (backGradients net (activationsOf net (data.getD k default))
                (derivativesOf net (data.getD k default))
                (st.net.parallelDeltaWeights.getD k []) (labels.getD k [])).deltaWeights
              (data.getD k default).getNumRows)
            (st.net.parallelDeltaBiases.getD k [], st.net.deltaBiases)).2
        parallelActivationResults :=
          st.net.parallelActivationResults.set k (activationsOf net (data.getD k default))
        parallelActivationDerivResults :=
          st.net.parallelActivationDerivResults.set k
            (derivativesOf net (data.getD k default))
        parallelDeltaWeights :=
          st.net.parallelDeltaWeights.set k
            (backGradients net (activationsOf net (data.getD k default))
              (derivativesOf net (data.getD k default))
              (st.net.parallelDeltaWeights.getD k []) (labels.getD k [])).deltaWeights
        parallelDeltaBiases :=
          st.net.parallelDeltaBiases.set k
            ((List.range (net.networkConfig.layersConfig.length - 1)).foldl
              (workerBiasBody
                (backGradients net (activationsOf net (data.getD k default))
                  (derivativesOf net (data.getD k default))
                  (st.net.parallelDeltaWeights.getD k []) (labels.getD k [])).deltaWeights
                (data.getD k default).getNumRows)
              (st.net.parallelDeltaBiases.getD k [], st.net.deltaBiases)).1 }
    acc := st.acc +
      (getStats (layerOutput net (data.getD k default) net.weights.length)
        (labels.getD k [])).accuracy
    ce := st.ce +
      (getStats (layerOutput net (data.getD k default) net.weights.length)
        (labels.getD k [])).crossEntropy }

/-- A shared buffer with `w` columns once the first `k` workers have copied their parts
into it: the rows of the parts, in order, followed by the zero rows of the sub-batches still
to come. -/
def assembledFrom (w : Nat) (parts : Nat → Matrix) (data : List Matrix) (k : Nat) : Matrix :=
  ⟨w, ((List.range k).map (fun k2 => (parts k2).rows)).flatten ++
    List.replicate (rowsBefore data data.length - rowsBefore data k) (List.replicate w 0)⟩

/-- The contribution of sub-batch `k` to the shared bias gradient of layer `i` at column
`c`: the sum of column `c` of the sub-batch's gradient matrix divided by the row count of
the sub-batch. -/
def colMean (net : Network) (data : List Matrix) (labels : List (List Nat)) (k i c : Nat) : ℚ :=
  (∑ j ∈ Finset.range (gradOf net (data.getD k default) (labels.getD k []) i).getNumRows,
    (gradOf net (data.getD k default) (labels.getD k []) i).getItem j c) /
    ((data.getD k default).getNumRows : ℚ)

/-- The invariant of the parallel loop after the first `k` workers, in full: besides
`ParallelInv`, the shared activation buffers are assembled from the forward results of the
first `k` sub-batches, the vectors of those workers hold their forward results and gradient
matrices, the bias vectors of the workers still to come are untouched, every entry of the
shared bias gradients is the sum of the contributions `colMean` of the first `k` sub-batches,
and the accumulators hold the sums of their statistics. -/
def ParallelFull (getStats : Matrix → List Nat → Stats) (net : Network) (data : List Matrix)
    (labels : List (List Nat)) (k : Nat) (st : ParallelState) : Prop :=
  ParallelInv net data labels k st ∧
    st.net.activationResults.length = net.weights.length + 1 ∧
    (∀ i, i ≤ net.weights.length →
      st.net.activationResults.getD i default =
        assembledFrom (net.width i) (fun k2 => layerOutput net (data.getD k2 default) i)
          data k) ∧
    st.net.parallelActivationResults.length = net.parallelActivationResults.length ∧
    (∀ k2, k2 < k →
      st.net.parallelActivationResults.getD k2 [] = activationsOf net (data.getD k2 default)) ∧
    (∀ k2, k2 < k → ∀ i, i < net.networkConfig.layersConfig.length - 1 →
      (st.net.parallelDeltaWeights.getD k2 []).getD i default =
        gradOf net (data.getD k2 default) (labels.getD k2 []) i) ∧
    (∀ k2, k ≤ k2 →
      st.net.parallelDeltaBiases.getD k2 [] = net.parallelDeltaBiases.getD k2 []) ∧
    st.net.deltaBiases.length = net.weights.length ∧
    (∀ i, i < net.weights.length →
      (st.net.deltaBiases.getD i []).length = net.width (i + 1)) ∧
    (∀ i c, i < net.weights.length → c < net.width (i + 1) →
      biasAt st.net.deltaBiases i c =
        ∑ k2 ∈ Finset.range k, colMean net data labels k2 i c) ∧
    st.acc = ∑ k2 ∈ Finset.range k,
      (getStats (layerOutput net (data.getD k2 default) net.weights.length)
        (labels.getD k2 [])).accuracy ∧
    st.ce = ∑ k2 ∈ Finset.range k,
      (getStats (layerOutput net (data.getD k2 default) net.weights.length)
        (labels.getD k2 [])).crossEntropy

/-- The preconditions of the parallel pass on the split `data` with the labels `labels`: a
well-formed network, at least one sub-batch and fewer than `2 ^ 64`, sub-batches as wide as
the input layer with rows of that length, one label per row, and worker vectors allocated
for every sub-batch with the sizes of the layers. -/
def ParallelReady (net : Network) (data : List Matrix) (labels : List (List Nat)) : Prop :=
  net.WellFormed ∧ data ≠ [] ∧ data.length < 2 ^ 64 ∧
    (∀ k, k < data.length →
      (net.parallelDeltaWeights.getD k []).length =
        net.networkConfig.layersConfig.length - 1) ∧
    (∀ k, k < data.length → (data.getD k default).numCols = net.width 0) ∧
    (∀ k, k < data.length → ∀ r ∈ (data.getD k default).rows, r.length = net.width 0) ∧
    (∀ k, k < data.length →
      (labels.getD k []).length = (data.getD k default).getNumRows) ∧
    data.length ≤ net.parallelActivationResults.length ∧
    ∀ k, k < data.length → ∀ i, i < net.networkConfig.layersConfig.length - 1 →
      i < (net.parallelDeltaBiases.getD k []).length ∧
        ((net.parallelDeltaBiases.getD k []).getD i []).length = net.width (i + 1)

/-! ## Prediction -/

/-- `Network::predict` (lines 203-218): the forward pass without the buffers. -/
def predict (net : Network) (data : Matrix) : Matrix :=
  let tmp := (data.matmul (net.weights.getD 0 default)).addBias (net.biases.getD 0 [])
  let tmp := (net.layer 1).activationFunction tmp
  (List.range' 1 (net.weights.length - 1)).foldl
    (fun tmp i =>
      (net.layer (i + 1)).activationFunction
        ((tmp.matmul (net.weights.getD i default)).addBias (net.biases.getD i [])))
    tmp

/-- Body of the parallel loop of `predictParallel` (lines 395-417) for worker `k` on the
accumulators `(acc, ce)`.  The loop has no test on `k`: reading `dataBatches[k]` past the end
of the vector has no defined result and is a failure here. -/
def predictWorker (getStats : Matrix → List Nat → Stats) (net : Network)
    (dataBatches : List Matrix) (labels : List (List Nat)) (st : ℚ × ℚ) (k : Nat) :
    Except NetworkError (ℚ × ℚ) :=
  match dataBatches[k]? with
  | none => Except.error NetworkError.StdException
  | some data =>
    let stats := getStats (predict net data) (labels.getD k [])
    Except.ok (st.1 + stats.accuracy, st.2 + stats.crossEntropy)

/-- `Network::predictParallel` (lines 390-423), the workers run in index order. -/
def predictParallel (getStats : Matrix → List Nat → Stats) (numThreads : Nat) (net : Network)
    (dataBatches : List Matrix) (labels : List (List Nat)) : Except NetworkError Stats :=
  (foldExcept (predictWorker getStats net dataBatches labels) (0, 0)
      (List.range numThreads)).map fun st =>
    ⟨st.1 / (numThreads : ℚ), st.2 / (numThreads : ℚ)⟩

/-! ## The training loop -/

/-- The training and validation data of a call of `fit` (`TrainValSplit_t`). -/
structure TrainValSplit where
  trainData : Matrix
  trainLabels : List Nat
  validationData : Matrix
  validationLabels : List Nat

/-- Modelled from the spec: the learning-rate scheduler `LRScheduler`, absent from the
sources.  `setEta(initial)` stores the initial rate and `exponential(globalStep)` is a pure
function of the stored rate and the step counter. -/
structure LRScheduler where
  eta : ℚ

/-- The collaborators of the training loop that are outside `network.cpp`, taken as
parameters: the statistics, the shuffle (which may differ from epoch to epoch), the batch
partitioning of matrices and of label vectors, the optimizer, the rate function of the
scheduler, and the clock, read as the milliseconds elapsed since the call began when epoch
`i` ends. -/
structure Collaborators where
  getStats : Matrix → List Nat → Stats
  randomShuffle : Nat → Matrix → List Nat → Matrix × List Nat
  generateBatches : Matrix → Nat → List Matrix
  generateVectorBatches : List Nat → Nat → List (List Nat)
  update : Network → Nat → ℚ → Network
  exponential : LRScheduler → Nat → ℚ
  elapsedMs : Nat → Int

/-- The calls that a training run makes, recorded in the order in which it makes them.  A
call with scalar arguments carries the arguments it is made with: `exponential(t)`,
`weightDecay(eta, lambda, batchSize, epoch)`, `updateWeights(batchSize, eta)`,
`weightDecayParallel(lambda)`, `setEta(eta)`.  A call on data carries the epoch, and for a
batch the index of the batch, whose data it is made with. -/
inductive Event where
  | setEta (eta : ℚ)
  | randomShuffle (epoch : Nat)
  | exponential (t : Nat)
  | forwardPass (epoch batch : Nat)
  | backProp (epoch batch : Nat)
  | weightDecay (eta lambda : ℚ) (batchSize epoch : Nat)
  | updateWeights (batchSize : Nat) (eta : ℚ)
  | forwardPassParallel (epoch batch : Nat)
  | weightDecayParallel (lambda : ℚ)
  | predict (epoch : Nat)
  | predictParallel (epoch : Nat)
  deriving DecidableEq

/-- The state of a training run: the network, the scheduler, the locals `shuffledTrain_X`,
`shuffledTrain_y`, `eta`, `accSum`, `ceSum` and `t` of `fit`, and the record of the calls
made so far. -/
structure TrainState where
  net : Network
  sched : LRScheduler
  shuffledTrain_X : Matrix
  shuffledTrain_y : List Nat
  eta : ℚ
  accSum : ℚ
  ceSum : ℚ
  t : Nat
  trace : List Event

/-- The locals `currentBestCE` and `epochOfBestCE` of `fit`. -/
structure EarlyStop where
  currentBestCE : ℚ
  epochOfBestCE : Nat
  deriving DecidableEq

/-- How a training run ends: the epoch loop ran to its end, one of the two `break`s was
taken, an exception left the function, or the run has no defined result (an integer
division by zero). -/
inductive Exit where
  | completed
  | earlyStop
  | timeBudget
  | exception (e : NetworkError)
  | undefined
  deriving DecidableEq

/-- The outcome of a training run: how it ended, the number of epochs executed in full, and
the state left behind. -/
structure FitResult (σ : Type) where
  exit : Exit
  epochs : Nat
  state : σ
  best : EarlyStop

/-- A loop whose body may throw, keeping the state reached when it does. -/
def foldStop {σ α : Type} (f : σ → α → Except (NetworkError × σ) σ) :
    σ → List α → Except (NetworkError × σ) σ
  | s, [] => Except.ok s
  | s, a :: as =>
    match f s a with
    | Except.error e => Except.error e
    | Except.ok s2 => foldStop f s2 as

/-- `Network::updateWeights` (lines 79-81).  Modelled from the spec: the optimizer, absent
from the sources, mutates the parameter store (weights, their transposed cache and biases)
and nothing else of the network. -/
def updateWeights (c : Collaborators) (net : Network) (batchSize : Nat) (eta : ℚ) : Network :=
  { net with
    weights := (c.update net batchSize eta).weights
    weightsTransposed := (c.update net batchSize eta).weightsTransposed
    biases := (c.update net batchSize eta).biases }

/-- The statement `eta = sched->exponential(t)` (lines 136 and 491): the scheduler is
queried with the counter `t` and the local `eta` takes the result. -/
def TrainState.schedule (c : Collaborators) (st : TrainState) : TrainState :=
  { st with
    eta := c.exponential st.sched st.t
    trace := st.trace ++ [Event.exponential st.t] }

/-- The call `forwardPass(trainBatches_X[j], trainBatches_y[j])` on the network of the
state, and the two running sums (lines 138-140). -/
def TrainState.forward (c : Collaborators) (trainBatches_X : List Matrix)
    (trainBatches_y : List (List Nat)) (i j : Nat) (st : TrainState) : TrainState :=
  let stats := forwardPass c.getStats st.net (trainBatches_X.getD j default)
    (trainBatches_y.getD j [])
  { st with
    net := stats.2
    accSum := st.accSum + stats.1.accuracy
    ceSum := st.ceSum + stats.1.crossEntropy
    trace := st.trace ++ [Event.forwardPass i j] }

/-- The call `backProp(trainBatches_y[j])` on the network of the state (line 142); its
exception leaves the batch loop. -/
def TrainState.backward (trainBatches_y : List (List Nat)) (i j : Nat) (st : TrainState) :
    Except (NetworkError × TrainState) TrainState :=
  let back := backProp st.net (trainBatches_y.getD j [])
  let st1 : TrainState := { st with net := back.2, trace := st.trace ++ [Event.backProp i j] }
  match back.1 with
  | Except.error e => Except.error (e, st1)
  | Except.ok _ => Except.ok st1

/-- The call `weightDecay(eta, lambda, batchSize, i + 1)` on the network of the state, with
the local `eta` (line 143); `epoch` is the fourth argument. -/
def TrainState.decay (lambda : ℚ) (batchSize epoch : Nat) (st : TrainState) : TrainState :=
  { st with
    net := weightDecay st.net st.eta lambda batchSize epoch
    trace := st.trace ++ [Event.weightDecay st.eta lambda batchSize epoch] }

/-- The call `updateWeights(batchSize, eta)` on the network of the state, with the local
`eta` (lines 144 and 501). -/
def TrainState.update (c : Collaborators) (batchSize : Nat) (st : TrainState) : TrainState :=
  { st with
    net := updateWeights c st.net batchSize st.eta
    trace := st.trace ++ [Event.updateWeights batchSize st.eta] }

/-- The statement `t += batchSize` (lines 146 and 503).  The counter `t` is a `size_t`. -/
def TrainState.advance (batchSize : Nat) (st : TrainState) : TrainState :=
  { st with t := (st.t + batchSize) % 2 ^ 64 }

/-- Body of the batch loop of `fit` (lines 135-148) for batch `j` of epoch `i`: its
statements in the order of the source. -/
def fitBatch (c : Collaborators) (trainBatches_X : List Matrix)
    (trainBatches_y : List (List Nat)) (lambda : ℚ) (batchSize i : Nat) (st : TrainState)
    (j : Nat) : Except (NetworkError × TrainState) TrainState :=
  let st1 := st.schedule c
  let st2 := st1.forward c trainBatches_X trainBatches_y i j
  match st2.backward trainBatches_y i j with
  | Except.error e => Except.error e
  | Except.ok st3 =>
    let st4 := st3.decay lambda batchSize (i + 1)
    let st5 := st4.update c batchSize
    Except.ok (st5.advance batchSize)

/-- Body of the epoch loop of `fit` up to the validation and the progress line
(lines 125-172) for epoch `i`: the new state and the validation cross-entropy. -/
def fitEpoch (c : Collaborators) (split : TrainValSplit) (numBatches batchSize : Nat)
    (lambda : ℚ) (verboseLevel : Nat) (i : Nat) (st : TrainState) :
    Except (NetworkError × TrainState) (TrainState × ℚ) :=
  let shuffledData := c.randomShuffle i st.shuffledTrain_X st.shuffledTrain_y
  let st1 : TrainState :=
    { st with
      shuffledTrain_X := shuffledData.1
      shuffledTrain_y := shuffledData.2
      trace := st.trace ++ [Event.randomShuffle i] }
  let trainBatches_X := c.generateBatches shuffledData.1 batchSize
  let trainBatches_y := c.generateVectorBatches shuffledData.2 batchSize
  (foldStop (fitBatch c trainBatches_X trainBatches_y lambda batchSize i) st1
      (List.range numBatches)).map fun st2 =>
    let predicted := predict st2.net split.validationData
    let valStats := c.getStats predicted split.validationLabels
    let st3 : TrainState := { st2 with trace := st2.trace ++ [Event.predict i] }
    let st4 : TrainState :=
      if 1 ≤ verboseLevel then { st3 with accSum := 0, ceSum := 0 } else st3
    (st4, valStats.crossEntropy)

/-- The early-stopping and time-budget checks at the end of epoch `i` (lines 182-199): the
new values of `currentBestCE` and `epochOfBestCE`, and the `break` taken, if any.  The
difference `i - epochOfBestCE` is one of `size_t` values. -/
def checkStop (earlyStopping : Nat) (maxTimeMs currentDuration : Int) (valCE : ℚ) (i : Nat)
    (best : EarlyStop) : EarlyStop × Option Exit :=
  let best1 : EarlyStop :=
    if earlyStopping ≠ 0 ∧ valCE < best.currentBestCE then ⟨valCE, i⟩ else best
  if earlyStopping ≠ 0 ∧ (i + 2 ^ 64 - best1.epochOfBestCE) % 2 ^ 64 = earlyStopping then
    (best1, some Exit.earlyStop)
  else if maxTimeMs ≠ 0 ∧ maxTimeMs ≤ currentDuration then (best1, some Exit.timeBudget)
  else (best1, none)

/-- The epoch loop of `fit` and of `parallelFit` (`for (size_t i = 0; i < numEpochs; ++i)`
with its two `break`s), on the epoch body `body`: the first argument counts the epochs still
to run, the second is `i`. -/
def epochLoop {σ : Type} (body : Nat → σ → Except (NetworkError × σ) (σ × ℚ))
    (earlyStopping : Nat) (maxTimeMs : Int) (elapsedMs : Nat → Int) :
    Nat → Nat → σ → EarlyStop → FitResult σ
  | 0, i, st, best => ⟨Exit.completed, i, st, best⟩
  | n + 1, i, st, best =>
    match body i st with
    | Except.error (e, st1) => ⟨Exit.exception e, i, st1, best⟩
    | Except.ok (st1, valCE) =>
      match checkStop earlyStopping maxTimeMs (elapsedMs i) valCE i best with
      | (best1, some exit) => ⟨exit, i + 1, st1, best1⟩
      | (best1, none) =>
        epochLoop body earlyStopping maxTimeMs elapsedMs n (i + 1) st1 best1

/-- `Network::fit` (lines 95-201) on the network `net` and the scheduler `sched`. -/
def fit (c : Collaborators) (net : Network) (split : TrainValSplit)
    (numEpochs batchSize : Nat) (eta lambda : ℚ) (verboseLevel : Nat) (sched : LRScheduler)
    (earlyStopping : Nat) (maxTimeMs : Int) : FitResult TrainState :=
  if eta < 0 then
    ⟨Exit.exception NetworkError.NegativeEtaException, 0,
      ⟨net, sched, split.trainData, split.trainLabels, eta, 0, 0, 0, []⟩, ⟨10000, 0⟩⟩
  else
    let trainBatches_X := c.generateBatches split.trainData batchSize
    let numBatches := trainBatches_X.length
    let st0 : TrainState :=
      ⟨net, { sched with eta := eta }, split.trainData, split.trainLabels, eta, 0, 0, 0,
        [Event.setEta eta]⟩
    epochLoop (fitEpoch c split numBatches batchSize lambda verboseLevel) earlyStopping
      maxTimeMs c.elapsedMs numEpochs 0 st0 ⟨10000, 0⟩

/-- The call `forwardPassParallel(parallelBatches_X[j], parallelBatches_y[j])` on the
network of the state, and the two running sums (lines 495-497); its exception leaves the
batch loop, and what the call had written to the buffers is then not kept. -/
def TrainState.forwardParallel (c : Collaborators) (numThreads : Nat)
    (parallelBatches_X : List (List Matrix)) (parallelBatches_y : List (List (List Nat)))
    (i j : Nat) (st : TrainState) : Except (NetworkError × TrainState) TrainState :=
  let st1 : TrainState := { st with trace := st.trace ++ [Event.forwardPassParallel i j] }
  match forwardPassParallel c.getStats numThreads st.net (parallelBatches_X.getD j [])
      (parallelBatches_y.getD j []) with
  | Except.error e => Except.error (e, st1)
  | Except.ok (stats, net1) =>
    Except.ok
      { st1 with
        net := net1
        accSum := st.accSum + stats.accuracy
        ceSum := st.ceSum + stats.crossEntropy }

/-- The call `weightDecayParallel(lambda)` on the network of the state (line 500). -/
def TrainState.decayParallel (lambda : ℚ) (st : TrainState) : TrainState :=
  { st with
    net := weightDecayParallel st.net lambda
    trace := st.trace ++ [Event.weightDecayParallel lambda] }

/-- Body of the batch loop of `parallelFit` (lines 490-504) for batch `j` of epoch `i`: its
statements in the order of the source. -/
def parallelFitBatch (c : Collaborators) (numThreads : Nat)
    (parallelBatches_X : List (List Matrix)) (parallelBatches_y : List (List (List Nat)))
    (lambda : ℚ) (batchSize i : Nat) (st : TrainState) (j : Nat) :
    Except (NetworkError × TrainState) TrainState :=
  let st1 := st.schedule c
  match st1.forwardParallel c numThreads parallelBatches_X parallelBatches_y i j with
  | Except.error e => Except.error e
  | Except.ok st2 =>
    let st3 := st2.decayParallel lambda
    let st4 := st3.update c batchSize
    Except.ok (st4.advance batchSize)

/-- Body of the epoch loop of `parallelFit` up to the validation and the progress line
(lines 472-529) for epoch `i`. -/
def parallelFitEpoch (c : Collaborators) (numThreads : Nat)
    (validationBatches_X : List Matrix) (validationBatches_y : List (List Nat))
    (numBatches batchSize : Nat) (lambda : ℚ) (verboseLevel : Nat) (i : Nat)
    (st : TrainState) : Except (NetworkError × TrainState) (TrainState × ℚ) :=
  let shuffledData := c.randomShuffle i st.shuffledTrain_X st.shuffledTrain_y
  let st1 : TrainState :=
    { st with
      shuffledTrain_X := shuffledData.1
      shuffledTrain_y := shuffledData.2
      trace := st.trace ++ [Event.randomShuffle i] }
  let trainBatches_X := c.generateBatches shuffledData.1 batchSize
  let trainBatches_y := c.generateVectorBatches shuffledData.2 batchSize
  let parallelBatches_X :=
    trainBatches_X.map (fun batch => c.generateBatches batch (batchSize / numThreads))
  let parallelBatches_y :=
    trainBatches_y.map (fun batch => c.generateVectorBatches batch (batchSize / numThreads))
  match foldStop (parallelFitBatch c numThreads parallelBatches_X parallelBatches_y lambda
      batchSize i) st1 (List.range numBatches) with
  | Except.error e => Except.error e
  | Except.ok st2 =>
    let st3 : TrainState := { st2 with trace := st2.trace ++ [Event.predictParallel i] }
    match predictParallel c.getStats numThreads st2.net validationBatches_X
        validationBatches_y with
    | Except.error e => Except.error (e, st3)
    | Except.ok valStats =>
      let st4 : TrainState :=
        if 1 ≤ verboseLevel then { st3 with accSum := 0, ceSum := 0 } else st3
      Except.ok (st4, valStats.crossEntropy)

/-- `Network::parallelFit` (lines 438-561) on the network `net` with `numThreads` workers
and the scheduler `sched`.  The sizes of the validation sub-batches are integer quotients by
`numThreads` (lines 450, 451), computed after the test of `eta` and before anything else:
with no worker the division is by zero and the run has no defined result. -/
def parallelFit (c : Collaborators) (numThreads : Nat) (net : Network) (split : TrainValSplit)
    (numEpochs batchSize : Nat) (eta lambda : ℚ) (verboseLevel : Nat) (sched : LRScheduler)
    (earlyStopping : Nat) (maxTimeMs : Int) : FitResult TrainState :=
  if eta < 0 then
    ⟨Exit.exception NetworkError.NegativeEtaException, 0,
      ⟨net, sched, split.trainData, split.trainLabels, eta, 0, 0, 0, []⟩, ⟨10000, 0⟩⟩
  else if numThreads = 0 then
    ⟨Exit.undefined, 0,
      ⟨net, sched, split.trainData, split.trainLabels, eta, 0, 0, 0, []⟩, ⟨10000, 0⟩⟩
  else
    let validationBatches_X := c.generateBatches split.validationData
      (split.validationData.getNumRows / numThreads)
    let validationBatches_y := c.generateVectorBatches split.validationLabels
      (split.validationLabels.length / numThreads)
    let trainBatches_X := c.generateBatches split.trainData batchSize
    let numBatches := trainBatches_X.length
    let st0 : TrainState :=
      ⟨net, { sched with eta := eta }, split.trainData, split.trainLabels, eta, 0, 0, 0,
        [Event.setEta eta]⟩
    epochLoop (parallelFitEpoch c numThreads validationBatches_X validationBatches_y
      numBatches batchSize lambda verboseLevel) earlyStopping maxTimeMs c.elapsedMs
      numEpochs 0 st0 ⟨10000, 0⟩

/-- The update of `currentBestCE` and `epochOfBestCE` at the end of epoch `i` when early
stopping is enabled (lines 183-186). -/
def EarlyStop.record (best : EarlyStop) (valCE : ℚ) (i : Nat) : EarlyStop :=
  if valCE < best.currentBestCE then ⟨valCE, i⟩ else best

/-- The calls of batch `j` of epoch `i` of `fit` in the order of the specification:
schedule (with the step counter `t`), forward, backward, decay, update, the last two with
the rate `rate t` that the scheduler answers for `t`. -/
def serialBatchEvents (rate : Nat → ℚ) (lambda : ℚ) (batchSize i j t : Nat) : List Event :=
  [Event.exponential t, Event.forwardPass i j, Event.backProp i j,
    Event.weightDecay (rate t) lambda batchSize (i + 1), Event.updateWeights batchSize (rate t)]

/-- The calls of batch `j` of epoch `i` of `parallelFit` in the order of the specification:
schedule (with the step counter `t`), the fused forward and backward pass, decay, update
with the rate `rate t` that the scheduler answers for `t`. -/
def parallelBatchEvents (rate : Nat → ℚ) (lambda : ℚ) (batchSize i j t : Nat) : List Event :=
  [Event.exponential t, Event.forwardPassParallel i j, Event.weightDecayParallel lambda,
    Event.updateWeights batchSize (rate t)]

/-- The calls of epoch `i` as the specification orders them: the shuffle, then for every
batch `j` its calls, the scheduler being queried with the counter
`(i * numBatches + j) * batchSize` (a `size_t`), then the validation. -/
def epochEvents (batchEvents : Nat → Nat → Nat → List Event) (validate : Nat → Event)
    (numBatches batchSize i : Nat) : List Event :=
  Event.randomShuffle i ::
    (((List.range numBatches).map
      (fun j => batchEvents i j (((i * numBatches + j) * batchSize) % 2 ^ 64))).flatten ++
      [validate i])

/-- The calls of a run of `epochs` epochs as the specification orders them: `setEta`, then
the epochs in order. -/
def runEvents (batchEvents : Nat → Nat → Nat → List Event) (validate : Nat → Event)
    (numBatches batchSize : Nat) (eta : ℚ) (epochs : Nat) : List Event :=
  Event.setEta eta ::
    ((List.range epochs).map (epochEvents batchEvents validate numBatches batchSize)).flatten

/-- The last layer of the network carries the softmax tag. -/
def Network.SoftmaxLast (net : Network) : Prop :=
  (net.layer (net.networkConfig.layersConfig.length - 1)).activationFunctionType =
    ActivationFunction.SoftMax

/-- Body of the loop of `predict` (lines 209-215) at index `i`, as a step on the pair of the
local `tmp` and the network state: the step reads the members of the current state and
writes only `tmp`. -/
def predictBody (st : Matrix × Network) (i : Nat) : Matrix × Network :=
  let tmp := (st.1.matmul (st.2.weights.getD i default)).addBias (st.2.biases.getD i [])
  ((st.2.layer (i + 1)).activationFunction tmp, st.2)

/-- `Network::predict` as a call on the network state `net`: the matrix returned and the
state left behind. -/
def predictCall (net : Network) (data : Matrix) : Matrix × Network :=
  let tmp := (data.matmul (net.weights.getD 0 default)).addBias (net.biases.getD 0 [])
  let tmp := (net.layer 1).activationFunction tmp
  (List.range' 1 (net.weights.length - 1)).foldl predictBody (tmp, net)

/-- What the end of an executed epoch leaves behind for the early stopping: the loop index
`i`, the validation cross-entropy of the epoch, and `currentBestCE` and `epochOfBestCE` as
they are when the test `i - epochOfBestCE == earlyStopping` is made. -/
structure EpochRecord where
  epoch : Nat
  valCE : ℚ
  best : EarlyStop
  deriving DecidableEq

/-- The epoch loop `epochLoop` with a history: the same loop, which besides its result
lists the record of every epoch whose checks were reached, in order. -/
def epochLoopLog {σ : Type} (body : Nat → σ → Except (NetworkError × σ) (σ × ℚ))
    (earlyStopping : Nat) (maxTimeMs : Int) (elapsedMs : Nat → Int) :
    Nat → Nat → σ → EarlyStop → List EpochRecord → FitResult σ × List EpochRecord
  | 0, i, st, best, log => (⟨Exit.completed, i, st, best⟩, log)
  | n + 1, i, st, best, log =>
    match body i st with
    | Except.error (e, st1) => (⟨Exit.exception e, i, st1, best⟩, log)
    | Except.ok (st1, valCE) =>
      match checkStop earlyStopping maxTimeMs (elapsedMs i) valCE i best with
      | (best1, some exit) => (⟨exit, i + 1, st1, best1⟩, log ++ [⟨i, valCE, best1⟩])
      | (best1, none) =>
        epochLoopLog body earlyStopping maxTimeMs elapsedMs n (i + 1) st1 best1
          (log ++ [⟨i, valCE, best1⟩])

/-- The early-stopping invariant for the record `r` of epoch `k` in the history `log`, with
patience `p`: the record is that of epoch `k`, the recorded best epoch is not after `k`, the
`size_t` difference `k - epochOfBestCE` does not wrap and is at most `p`, and `currentBestCE`
is the minimum of 10000 and the validation cross-entropies of the epochs `0 .. k`. -/
def EarlyStopInvariant (p : Nat) (log : List EpochRecord) (k : Nat) (r : EpochRecord) : Prop :=
  r.epoch = k ∧ r.best.epochOfBestCE ≤ k ∧
    (k + 2 ^ 64 - r.best.epochOfBestCE) % 2 ^ 64 = k - r.best.epochOfBestCE ∧
    k - r.best.epochOfBestCE ≤ p ∧
    r.best.currentBestCE = ((log.take (k + 1)).map (fun x => x.valCE)).foldl min 10000

/-! ## Activation functions and example networks -/

/-- Modelled from the spec: the softmax activation, applied row by row: every entry `x` of a
row becomes `exp x` divided by the sum of `exp` over the row.  The exponential is the
parameter `expF`. -/
def softMax (expF : ℚ → ℚ) (m : Matrix) : Matrix :=
  { m with rows := m.rows.map (fun r => r.map (fun x => expF x / (r.map expF).sum)) }

/-- Modelled from the spec: the rectifier activation, entry by entry. -/
def relu (m : Matrix) : Matrix :=
  { m with rows := m.rows.map (fun r => r.map (fun x => max 0 x)) }

/-- Modelled from the spec: the derivative of the rectifier, expressed in its own output. -/
def reluDeriv (m : Matrix) : Matrix :=
  { m with rows := m.rows.map (fun r => r.map (fun x => if 0 < x then 1 else 0)) }

/-- A rational stand-in for the exponential: its Taylor polynomial of degree two, which is
positive everywhere. -/
def expTaylor (x : ℚ) : ℚ := 1 + x + x * x / 2

/-- A network has the shape of the end-to-end scenario: two layers, the second one softmax,
a zero weight matrix with `d` rows and three columns, a zero bias vector, and gradient
buffers of the matching sizes (with any content). -/
def IsZeroSoftmaxNet (expF : ℚ → ℚ) (d : Nat) (net : Network) : Prop :=
  net.networkConfig.layersConfig.length = 2 ∧
    (net.layer 1).activationFunction = softMax expF ∧
    (net.layer 1).activationFunctionType = ActivationFunction.SoftMax ∧
    net.weights = [Matrix.filled d 3 0] ∧
    net.biases = [[0, 0, 0]] ∧
    net.deltaWeights.length = 1 ∧
    net.deltaBiases.length = 1 ∧
    (net.deltaBiases.getD 0 []).length = 3

/-- A statistics collaborator for the examples. -/
def exampleStats (_ : Matrix) (_ : List Nat) : Stats := ⟨0, 0⟩

/-- Example: identity input layer, softmax output layer, two input features, three classes,
zero weights and biases, stale content in the gradient buffers. -/
def exampleZeroNet : Network :=
  { networkConfig := ⟨[⟨id, id, ActivationFunction.Identity⟩,
      ⟨softMax expTaylor, id, ActivationFunction.SoftMax⟩]⟩
    weights := [Matrix.filled 2 3 0]
    weightsTransposed := [Matrix.filled 3 2 0]
    biases := [[0, 0, 0]]
    activationResults := []
    activationDerivResults := []
    deltaWeights := [Matrix.empty]
    deltaBiases := [[7, 8, 9]]
    parallelActivationResults := []
    parallelActivationDerivResults := []
    parallelDeltaWeights := []
    parallelDeltaBiases := [] }

/-- Example: a batch of four samples with two features. -/
def exampleBatch : Matrix := ⟨2, [[1, 2], [3, 4], [5, 6], [7, 8]]⟩

/-- Example: the labels of `exampleBatch`. -/
def exampleLabels : List Nat := [0, 1, 2, 0]

/-- Example: three layers (identity, rectifier, softmax) of widths 2, 2 and 3. -/
def exampleNet : Network :=
  { networkConfig := ⟨[⟨id, id, ActivationFunction.Identity⟩,
      ⟨relu, reluDeriv, ActivationFunction.Other 0⟩,
      ⟨softMax expTaylor, id, ActivationFunction.SoftMax⟩]⟩
    weights := [⟨2, [[1, -1], [0, 1]]⟩, ⟨3, [[1, 0, -1], [0, 1, 0]]⟩]
    weightsTransposed := [⟨2, [[1, 0], [-1, 1]]⟩, ⟨2, [[1, 0], [0, 1], [-1, 0]]⟩]
    biases := [[0, 1], [0, 0, 0]]
    activationResults := []
    activationDerivResults := []
    deltaWeights := [Matrix.empty, Matrix.empty]
    deltaBiases := [[5, 5], [7, 8, 9]]
    parallelActivationResults := []
    parallelActivationDerivResults := []
    parallelDeltaWeights := []
    parallelDeltaBiases := [] }

/-- Example: the same three layers with a rectifier as the last activation, which `backProp`
rejects. -/
def exampleReluNet : Network :=
  { exampleNet with
    networkConfig := ⟨[⟨id, id, ActivationFunction.Identity⟩,
      ⟨relu, reluDeriv, ActivationFunction.Other 0⟩,
      ⟨relu, reluDeriv, ActivationFunction.Other 0⟩]⟩ }

/-- Example: `exampleNet` with worker buffers for three threads. -/
def exampleParallelNet : Network :=
  { exampleNet with
    parallelActivationResults := [[], [], []]
    parallelActivationDerivResults := [[], [], []]
    parallelDeltaWeights := [[Matrix.empty, Matrix.empty], [Matrix.empty, Matrix.empty],
      [Matrix.empty, Matrix.empty]]
    parallelDeltaBiases := [[[0, 0], [0, 0, 0]], [[0, 0], [0, 0, 0]], [[0, 0], [0, 0, 0]]] }

/-- Example: `exampleBatch` split into a sub-batch of three rows and one of one row. -/
def exampleSplit : List Matrix := [⟨2, [[1, 2], [3, 4], [5, 6]]⟩, ⟨2, [[7, 8]]⟩]

/-- Example: the labels of `exampleSplit`. -/
def exampleSplitLabels : List (List Nat) := [[0, 1, 2], [0]]

/-- A statistics collaborator for the examples that tells sub-batches apart: the row count
of the output as accuracy and the sum of the labels as cross-entropy. -/
def exampleRowStats (m : Matrix) (labels : List Nat) : Stats :=
  ⟨(m.getNumRows : ℚ), (labels.sum : ℚ)⟩

/-- The statistics returned by a call of `forwardPassParallel`, when it returns. -/
def returnedStats (r : Except NetworkError (Stats × Network)) : Option (ℚ × ℚ) :=
  match r with
  | Except.ok (stats, _) => some (stats.accuracy, stats.crossEntropy)
  | Except.error _ => none

/-- The shared bias gradients left by a call of `forwardPassParallel`, when it returns. -/
def returnedBiases (r : Except NetworkError (Stats × Network)) : Option (List (List ℚ)) :=
  match r with
  | Except.ok (_, net) => some net.deltaBiases
  | Except.error _ => none

/-- Example: `exampleZeroNet` with worker buffers for two threads. -/
def exampleZeroParallelNet : Network :=
  { exampleZeroNet with
    parallelActivationResults := [[], []]
    parallelActivationDerivResults := [[], []]
    parallelDeltaWeights := [[Matrix.empty], [Matrix.empty]]
    parallelDeltaBiases := [[[0, 0, 0]], [[0, 0, 0]]] }

/-- Example: a batch of two rows split into two sub-batches of one row. -/
def exampleRows : List Matrix := [⟨2, [[1, 2]]⟩, ⟨2, [[3, 4]]⟩]

/-- Example: the labels of `exampleRows`. -/
def exampleRowLabels : List (List Nat) := [[0], [0]]

/-- The shared activation buffers left by a call of `forwardPassParallel`, when it
returns. -/
def returnedActivations (r : Except NetworkError (Stats × Network)) : Option (List Matrix) :=
  match r with
  | Except.ok (_, net) => some net.activationResults
  | Except.error _ => none

/-- Example: a network of one input and one output whose output layer carries the softmax
tag and applies the identity, so that with its zero weight the output is the bias; worker
buffers for one thread. -/
def exampleFitNet : Network :=
  { networkConfig := ⟨[⟨id, id, ActivationFunction.Identity⟩,
      ⟨id, id, ActivationFunction.SoftMax⟩]⟩
    weights := [Matrix.filled 1 1 0]
    weightsTransposed := [Matrix.filled 1 1 0]
    biases := [[0]]
    activationResults := []
    activationDerivResults := []
    deltaWeights := [Matrix.empty]
    deltaBiases := [[0]]
    parallelActivationResults := [[]]
    parallelActivationDerivResults := [[]]
    parallelDeltaWeights := [[Matrix.empty]]
    parallelDeltaBiases := [[[0]]] }

/-- Example: one training row and one validation row. -/
def exampleFitSplit : TrainValSplit := ⟨⟨1, [[0]]⟩, [0], ⟨1, [[0]]⟩, [0]⟩

/-- Example collaborators that make the validation cross-entropy of the epoch with loop
index `i` the entry `i` of the list `cs`: every batch is the whole data, the optimizer adds
one to every bias, so that the output of `exampleFitNet` after `i + 1` updates is `i + 1`,
and the statistics read the cross-entropy from the list at the output minus one. -/
def exampleCollaborators (cs : List ℚ) : Collaborators :=
  { getStats := fun out _ => ⟨0, cs.getD ((out.getItem 0 0).num.toNat - 1) 0⟩
    randomShuffle := fun _ X y => (X, y)
    generateBatches := fun m _ => [m]
    generateVectorBatches := fun l _ => [l]
    update := fun net _ _ =>
      { net with biases := net.biases.map (fun b => b.map (fun x => x + 1)) }
    exponential := fun sched _ => sched.eta
    elapsedMs := fun _ => 0 }

/-- Example: the cross-entropies 4, 1, 0, 1, 4, 9, 16, with their minimum at the third
epoch. -/
def exampleCEs : List ℚ := [4, 1, 0, 1, 4, 9, 16]

/-- Example: the epoch body of `fit` on `exampleFitNet` with one batch per epoch. -/
def exampleEpoch : Nat → TrainState → Except (NetworkError × TrainState) (TrainState × ℚ) :=
  fitEpoch (exampleCollaborators exampleCEs) exampleFitSplit 1 1 0 0

/-- Example: the states in which the epochs of `fit` start on `exampleFitNet` with the
initial rate `1 / 10`. -/
def exampleFitStates : Nat → TrainState
  | 0 => ⟨exampleFitNet, ⟨1 / 10⟩, ⟨1, [[0]]⟩, [0], 1 / 10, 0, 0, 0, [Event.setEta (1 / 10)]⟩
  | i + 1 =>
    match exampleEpoch i (exampleFitStates i) with
    | Except.ok (st, _) => st
    | Except.error (_, st) => st

/-- Example: the validation cross-entropies of the epochs of `fit` on `exampleFitNet`. -/
def exampleFitCEs (i : Nat) : ℚ :=
  match exampleEpoch i (exampleFitStates i) with
  | Except.ok (_, valCE) => valCE
  | Except.error _ => 0

/-- Example: `exampleNet` with worker buffers for two threads. -/
def exampleTwoWorkerNet : Network :=
  { exampleNet with
    parallelActivationResults := [[], []]
    parallelActivationDerivResults := [[], []]
    parallelDeltaWeights := [[Matrix.empty, Matrix.empty], [Matrix.empty, Matrix.empty]]
    parallelDeltaBiases := [[[0, 0], [0, 0, 0]], [[0, 0], [0, 0, 0]]] }

/-- Example: a mini-batch of five rows cut into sub-batches of `5 / 2 = 2` rows, as
`parallelFit` cuts it for two threads (line 485): two rows, two rows, one row. -/
def exampleFiveRows : List Matrix :=
  [⟨2, [[1, 2], [3, 4]]⟩, ⟨2, [[5, 6], [7, 8]]⟩, ⟨2, [[9, 10]]⟩]

/-- Example: the labels of `exampleFiveRows`. -/
def exampleFiveRowLabels : List (List Nat) := [[0, 1], [2, 0], [1]]

/-- Example collaborators as `exampleCollaborators exampleCEs`, with a scheduler that
answers `eta / (t + 1)` to the counter `t`. -/
def exampleScheduleCollaborators : Collaborators :=
  { exampleCollaborators exampleCEs with
    exponential := fun sched t => sched.eta / ((t : ℚ) + 1) }

/-- Example: the state in which the second epoch of a run on `exampleFitNet` with batch size
3 and initial rate `1 / 10` starts: the counter is 3. -/
def exampleBatchState : TrainState :=
  ⟨exampleFitNet, ⟨1 / 10⟩, ⟨1, [[0]]⟩, [0], 1 / 10, 0, 0, 3,
    [Event.setEta (1 / 10)]⟩

/-- Example: the state after the batch of `fit` run from `exampleBatchState`. -/
def exampleBatchResult : TrainState :=
  match fitBatch exampleScheduleCollaborators [⟨1, [[0]]⟩] [[0]] (1 / 2) 3 1
      exampleBatchState 0 with
  | Except.ok st => st
  | Except.error (_, st) => st

/-- Example: the state after the batch of `parallelFit` run from `exampleBatchState`. -/
def exampleParallelBatchResult : TrainState :=
  match parallelFitBatch exampleScheduleCollaborators 1 [[⟨1, [[0]]⟩]] [[[0]]] (1 / 2) 3 1
      exampleBatchState 0 with
  | Except.ok st => st
  | Except.error (_, st) => st

/-- Example: the epoch body of `parallelFit` on `exampleFitNet` with one worker and one
batch per epoch. -/
def exampleParallelEpoch :
    Nat → TrainState → Except (NetworkError × TrainState) (TrainState × ℚ) :=
  parallelFitEpoch (exampleCollaborators exampleCEs) 1
    ((exampleCollaborators exampleCEs).generateBatches exampleFitSplit.validationData
      (exampleFitSplit.validationData.getNumRows / 1))
    ((exampleCollaborators exampleCEs).generateVectorBatches exampleFitSplit.validationLabels
      (exampleFitSplit.validationLabels.length / 1))
    ((exampleCollaborators exampleCEs).generateBatches exampleFitSplit.trainData 1).length
    1 0 0

/-- Example: the states in which the epochs of `parallelFit` start on `exampleFitNet` with
one worker and the initial rate `1 / 10`. -/
def exampleParallelStates : Nat → TrainState
  | 0 =>
    ⟨exampleFitNet, { (⟨0⟩ : LRScheduler) with eta := 1 / 10 }, exampleFitSplit.trainData,
      exampleFitSplit.trainLabels, 1 / 10, 0, 0, 0, [Event.setEta (1 / 10)]⟩
  | i + 1 =>
    match exampleParallelEpoch i (exampleParallelStates i) with
    | Except.ok (st, _) => st
    | Except.error (_, st) => st

/-- Example: the validation cross-entropies of the epochs of `parallelFit` on
`exampleFitNet` with one worker. -/
def exampleParallelCEs (i : Nat) : ℚ :=
  match exampleParallelEpoch i (exampleParallelStates i) with
  | Except.ok (_, valCE) => valCE
  | Except.error _ => 0

/-! ### Loop invariant of the forward pass -/

theorem forwardInit_eq (net : Network) (data : Matrix) (hw : 1 ≤ net.weights.length) :
    forwardInit net data =
      ⟨layerOutput net data 1, [layerOutput net data 0, layerOutput net data 1],
        [layerDeriv net data 0]⟩ := by
  unfold forwardInit layerDeriv
  by_cases h : net.weights.length = 1
  · simp [h, layerOutput]
  · have h2 : ¬ (0 = net.weights.length - 1) := by omega
    simp [h, h2, layerOutput]

theorem forwardLoop_eq (net : Network) (data : Matrix) (hw : 1 ≤ net.weights.length) :
    ∀ m, m ≤ net.weights.length - 1 →
      (List.range' 1 m).foldl (forwardBody net) (forwardInit net data) =
        ⟨layerOutput net data (m + 1),
          (List.range (m + 2)).map (layerOutput net data),
          (List.range (m + 1)).map (layerDeriv net data)⟩ := by
  intro m
  induction m with
  | zero =>
    intro _
    rw [forwardInit_eq net data hw]
    simp [List.range_succ]
  | succ m ih =>
    intro hm
    rw [List.range'_concat, List.foldl_append, ih (by omega)]
    simp only [List.foldl_cons, List.foldl_nil, Nat.one_mul]
    have e1 : 1 + m = m + 1 := by omega
    rw [e1]
    unfold forwardBody
    have hd : layerDeriv net data (m + 1) =
        if m + 1 = net.weights.length - 1 then Matrix.empty
        else (net.layer (m + 1 + 1)).activationDerivFunction (layerOutput net data (m + 1 + 1)) :=
      rfl
    simp only [List.range_succ (m + 1 + 1), List.range_succ (m + 1), List.map_append,
      List.map_cons, List.map_nil, hd]
    split <;> rfl

theorem forwardRun_eq (net : Network) (data : Matrix) (hw : 1 ≤ net.weights.length) :
    forwardRun net data =
      ⟨layerOutput net data net.weights.length,
        (List.range (net.weights.length + 1)).map (layerOutput net data),
        (List.range net.weights.length).map (layerDeriv net data)⟩ := by
  unfold forwardRun
  rw [forwardLoop_eq net data hw _ (Nat.le_refl _)]
  have e1 : net.weights.length - 1 + 1 = net.weights.length := by omega
  have e2 : net.weights.length - 1 + 2 = net.weights.length + 1 := by omega
  rw [e1, e2]

theorem forwardPass_activationResults (getStats : Matrix → List Nat → Stats) (net : Network)
    (data : Matrix) (labels : List Nat) (hw : 1 ≤ net.weights.length) :
    (forwardPass getStats net data labels).2.activationResults =
      (List.range (net.weights.length + 1)).map (layerOutput net data) := by
  simp [forwardPass, forwardRun_eq net data hw]

theorem forwardPass_activationDerivResults (getStats : Matrix → List Nat → Stats)
    (net : Network) (data : Matrix) (labels : List Nat) (hw : 1 ≤ net.weights.length) :
    (forwardPass getStats net data labels).2.activationDerivResults =
      (List.range net.weights.length).map (layerDeriv net data) := by
  simp [forwardPass, forwardRun_eq net data hw]

/-! ## Forward pass: the claims -/

/-- C1: for a network with `L ≥ 2` layer descriptors and `L - 1` weight matrices, after
`forwardPass` the vector `activationResults` has exactly `L` entries, the first being the
input batch, and `activationDerivResults` has exactly `L - 1` entries, the last being the
empty matrix. -/
theorem forwardPass_buffer_counts (getStats : Matrix → List Nat → Stats) (net : Network)
    (data : Matrix) (labels : List Nat)
    (hL : 2 ≤ net.networkConfig.layersConfig.length)
    (hW : net.weights.length = net.networkConfig.layersConfig.length - 1) :
    (forwardPass getStats net data labels).2.activationResults.length =
        net.networkConfig.layersConfig.length ∧
      (forwardPass getStats net data labels).2.activationResults[0]? = some data ∧
      (forwardPass getStats net data labels).2.activationDerivResults.length =
        net.networkConfig.layersConfig.length - 1 ∧
      (forwardPass getStats net data labels).2.activationDerivResults.getLast? =
        some Matrix.empty := by
  have hw : 1 ≤ net.weights.length := by omega
  rw [forwardPass_activationResults getStats net data labels hw,
    forwardPass_activationDerivResults getStats net data labels hw]
  refine ⟨by simp; omega, ?_, by simp; omega, ?_⟩
  · rw [List.getElem?_map, List.getElem?_range (by omega)]
    rfl
  · obtain ⟨n, hn⟩ : ∃ n, net.weights.length = n + 1 := ⟨net.weights.length - 1, by omega⟩
    rw [hn, List.range_succ, List.map_append, List.map_cons, List.map_nil,
      List.getLast?_append]
    simp [layerDeriv, hn]

theorem forwardPass_buffer_counts_witness :
    (2 ≤ exampleNet.networkConfig.layersConfig.length ∧
        exampleNet.weights.length = exampleNet.networkConfig.layersConfig.length - 1) ∧
      (forwardPass exampleStats exampleNet exampleBatch exampleLabels).2.activationResults.length =
        3 ∧
      (forwardPass exampleStats exampleNet exampleBatch exampleLabels).2.activationResults[0]? =
        some exampleBatch ∧
      (forwardPass exampleStats exampleNet exampleBatch
        exampleLabels).2.activationDerivResults.length = 2 ∧
      (forwardPass exampleStats exampleNet exampleBatch
        exampleLabels).2.activationDerivResults.getLast? = some Matrix.empty :=
  ⟨⟨by decide, by decide⟩,
    forwardPass_buffer_counts exampleStats exampleNet exampleBatch exampleLabels (by decide)
      (by decide)⟩

/-- C2: after `forwardPass`, entry `0` of `activationResults` is the input and, for every
`i` in `0 .. L-2`, entry `i + 1` is the activation function of layer `i + 1` applied to
`activationResults[i] * weights[i] + biases[i]` (bias added to every row). -/
theorem forwardPass_recurrence (getStats : Matrix → List Nat → Stats) (net : Network)
    (data : Matrix) (labels : List Nat)
    (hL : 2 ≤ net.networkConfig.layersConfig.length)
    (hW : net.weights.length = net.networkConfig.layersConfig.length - 1) :
    (forwardPass getStats net data labels).2.activationResults[0]? = some data ∧
      ∀ i, i < net.networkConfig.layersConfig.length - 1 →
        (forwardPass getStats net data labels).2.activationResults[i + 1]? =
          some ((net.layer (i + 1)).activationFunction
            ((((forwardPass getStats net data labels).2.activationResults.getD i default).matmul
              (net.weights.getD i default)).addBias (net.biases.getD i []))) := by
  have hw : 1 ≤ net.weights.length := by omega
  rw [forwardPass_activationResults getStats net data labels hw]
  refine ⟨?_, ?_⟩
  · rw [List.getElem?_map, List.getElem?_range (by omega)]
    rfl
  · intro i hi
    rw [List.getElem?_map, List.getElem?_range (by omega), List.getD_eq_getElem?_getD,
      List.getElem?_map, List.getElem?_range (by omega)]
    rfl

theorem forwardPass_recurrence_witness :
    (2 ≤ exampleNet.networkConfig.layersConfig.length ∧
        exampleNet.weights.length = exampleNet.networkConfig.layersConfig.length - 1) ∧
      (forwardPass exampleStats exampleNet exampleBatch exampleLabels).2.activationResults[1]? =
        some (relu
          ((((forwardPass exampleStats exampleNet exampleBatch
              exampleLabels).2.activationResults.getD 0 default).matmul
            (exampleNet.weights.getD 0 default)).addBias (exampleNet.biases.getD 0 []))) :=
  ⟨⟨by decide, by decide⟩,
    (forwardPass_recurrence exampleStats exampleNet exampleBatch exampleLabels (by decide)
      (by decide)).2 0 (by decide)⟩

/-- C3: after `forwardPass`, for every non-final layer `i + 1` (`i < L - 2`), entry `i` of
`activationDerivResults` is the derivative function of layer `i + 1` applied to the
post-activation buffer `activationResults[i + 1]`. -/
theorem forwardPass_derivatives (getStats : Matrix → List Nat → Stats) (net : Network)
    (data : Matrix) (labels : List Nat)
    (hL : 2 ≤ net.networkConfig.layersConfig.length)
    (hW : net.weights.length = net.networkConfig.layersConfig.length - 1) :
    ∀ i, i < net.networkConfig.layersConfig.length - 2 →
      (forwardPass getStats net data labels).2.activationDerivResults[i]? =
        some ((net.layer (i + 1)).activationDerivFunction
          ((forwardPass getStats net data labels).2.activationResults.getD (i + 1) default)) := by
  have hw : 1 ≤ net.weights.length := by omega
  intro i hi
  rw [forwardPass_activationResults getStats net data labels hw,
    forwardPass_activationDerivResults getStats net data labels hw]
  rw [List.getElem?_map, List.getElem?_range (by omega), List.getD_eq_getElem?_getD,
    List.getElem?_map, List.getElem?_range (by omega)]
  have hne : ¬ (i = net.weights.length - 1) := by omega
  simp [layerDeriv, hne]

theorem forwardPass_derivatives_witness :
    (2 ≤ exampleNet.networkConfig.layersConfig.length ∧
        exampleNet.weights.length = exampleNet.networkConfig.layersConfig.length - 1 ∧
        0 < exampleNet.networkConfig.layersConfig.length - 2) ∧
      (forwardPass exampleStats exampleNet exampleBatch
          exampleLabels).2.activationDerivResults[0]? =
        some (reluDeriv
          ((forwardPass exampleStats exampleNet exampleBatch
            exampleLabels).2.activationResults.getD 1 default)) :=
  ⟨⟨by decide, by decide, by decide⟩,
    forwardPass_derivatives exampleStats exampleNet exampleBatch exampleLabels (by decide)
      (by decide) 0 (by decide)⟩

/-! ## Back-propagation: the precondition -/

/-- The two ways `backProp` can go. -/
theorem backProp_cases (net : Network) (labels : List Nat) :
    ((net.layer (net.networkConfig.layersConfig.length - 1)).activationFunctionType =
        ActivationFunction.SoftMax ∧
      backProp net labels =
        (Except.ok (),
          { net with
            deltaWeights := (backGradients net net.activationResults
              net.activationDerivResults net.deltaWeights labels).deltaWeights
            deltaBiases := (List.range (net.networkConfig.layersConfig.length - 1)).foldl
              (biasBody (backGradients net net.activationResults
                net.activationDerivResults net.deltaWeights labels).deltaWeights)
              net.deltaBiases })) ∨
    ((net.layer (net.networkConfig.layersConfig.length - 1)).activationFunctionType ≠
        ActivationFunction.SoftMax ∧
      backProp net labels = (Except.error NetworkError.WrongOutputActivationFunction, net)) := by
  by_cases h : (net.layer (net.networkConfig.layersConfig.length - 1)).activationFunctionType =
      ActivationFunction.SoftMax
  · left
    refine ⟨h, ?_⟩
    unfold Network.layer at h
    simp only [backProp]
    rw [if_neg (not_not.mpr h)]
  · right
    refine ⟨h, ?_⟩
    unfold Network.layer at h
    simp only [backProp]
    rw [if_pos h]

/-- C4: `backProp` throws `WrongOutputActivationFunction` exactly when the tag of the last
layer descriptor is not `SoftMax`, and on a softmax-terminated topology it returns
normally. -/
theorem backProp_fails_iff (net : Network) (labels : List Nat)
    (hL : 2 ≤ net.networkConfig.layersConfig.length) :
    ((backProp net labels).1 = Except.error NetworkError.WrongOutputActivationFunction ↔
        (net.layer (net.networkConfig.layersConfig.length - 1)).activationFunctionType ≠
          ActivationFunction.SoftMax) ∧
      ((net.layer (net.networkConfig.layersConfig.length - 1)).activationFunctionType =
          ActivationFunction.SoftMax →
        (backProp net labels).1 = Except.ok ()) := by
  rcases backProp_cases net labels with ⟨h, hb⟩ | ⟨h, hb⟩
  · rw [hb]
    simp [h]
  · rw [hb]
    simp [h]

theorem backProp_fails_iff_witness :
    2 ≤ exampleReluNet.networkConfig.layersConfig.length ∧
      (backProp exampleReluNet exampleLabels).1 =
        Except.error NetworkError.WrongOutputActivationFunction :=
  ⟨by decide,
    (backProp_fails_iff exampleReluNet exampleLabels (by decide)).1.mpr (by decide)⟩

/-- C5: when the last layer is not softmax, `backProp` throws and leaves the network state
exactly as it was; in particular `deltaWeights` and `deltaBiases` are unchanged. -/
theorem backProp_failure_preserves_state (net : Network) (labels : List Nat)
    (hL : 2 ≤ net.networkConfig.layersConfig.length)
    (hlast : (net.layer (net.networkConfig.layersConfig.length - 1)).activationFunctionType ≠
      ActivationFunction.SoftMax) :
    (backProp net labels).1 = Except.error NetworkError.WrongOutputActivationFunction ∧
      (backProp net labels).2 = net ∧
      (backProp net labels).2.deltaWeights = net.deltaWeights ∧
      (backProp net labels).2.deltaBiases = net.deltaBiases := by
  rcases backProp_cases net labels with ⟨h, _⟩ | ⟨_, hb⟩
  · exact absurd h hlast
  · rw [hb]
    simp

theorem backProp_failure_preserves_state_witness :
    (2 ≤ exampleReluNet.networkConfig.layersConfig.length ∧
        (exampleReluNet.layer
          (exampleReluNet.networkConfig.layersConfig.length - 1)).activationFunctionType ≠
            ActivationFunction.SoftMax) ∧
      (backProp exampleReluNet exampleLabels).2.deltaBiases = [[5, 5], [7, 8, 9]] :=
  ⟨⟨by decide, by decide⟩,
    (backProp_failure_preserves_state exampleReluNet exampleLabels (by decide)
      (by decide)).2.2.2⟩

/-! ## Back-propagation: the gradients -/

/-- Invariant of the descending gradient loop started with the pointer at index `n`: the
entries from `n` upwards are kept, and every entry below is the product of the entry above
it with the transposed weights, multiplied element-wise by the stored derivative. -/
theorem backLoop_spec (net : Network) (adr : List Matrix) :
    ∀ (n : Nat) (st : BackState), st.lastDelta = n → n < st.deltaWeights.length →
      ((List.range' 1 n).reverse.foldl (backBody net adr) st).deltaWeights.length =
          st.deltaWeights.length ∧
        (∀ j, n ≤ j →
          ((List.range' 1 n).reverse.foldl (backBody net adr) st).deltaWeights[j]? =
            st.deltaWeights[j]?) ∧
        ∀ i, 1 ≤ i → i ≤ n →
          ((List.range' 1 n).reverse.foldl (backBody net adr) st).deltaWeights[i - 1]? =
            some
              (((((List.range' 1 n).reverse.foldl (backBody net adr) st).deltaWeights.getD i
                  default).matmul (net.weightsTransposed.getD i default)).hadamard
                (adr.getD (i - 1) default)) := by
  intro n
  induction n with
  | zero =>
    intro st _ _
    refine ⟨rfl, fun _ _ => rfl, fun i h1 h2 => ?_⟩
    omega
  | succ n ih =>
    intro st hp hlen
    have hlist : (List.range' 1 (n + 1)).reverse = (n + 1) :: (List.range' 1 n).reverse := by
      rw [List.range'_concat, List.reverse_append]
      simp [Nat.add_comm]
    rw [hlist, List.foldl_cons]
    have hlen1 : (backBody net adr st (n + 1)).deltaWeights.length = st.deltaWeights.length := by
      simp [backBody]
    obtain ⟨ihl, ihj, ihi⟩ := ih (backBody net adr st (n + 1)) (by simp [backBody])
      (by rw [hlen1]; omega)
    refine ⟨by rw [ihl, hlen1], fun j hj => ?_, fun i h1 h2 => ?_⟩
    · rw [ihj j (by omega)]
      simp only [backBody, Nat.add_sub_cancel]
      rw [List.getElem?_set_ne (by omega)]
    · by_cases hi : i ≤ n
      · exact ihi i h1 hi
      · have hin : i = n + 1 := by omega
        subst hin
        have hn : n < st.deltaWeights.length := by omega
        have e1 : ((List.range' 1 n).reverse.foldl (backBody net adr)
            (backBody net adr st (n + 1))).deltaWeights[n + 1]? = st.deltaWeights[n + 1]? := by
          rw [ihj (n + 1) (by omega)]
          simp only [backBody, Nat.add_sub_cancel]
          exact List.getElem?_set_ne (by omega)
        have e2 : ((List.range' 1 n).reverse.foldl (backBody net adr)
            (backBody net adr st (n + 1))).deltaWeights[n]? =
            some (((st.deltaWeights.getD (n + 1) default).matmul
              (net.weightsTransposed.getD (n + 1) default)).hadamard (adr.getD n default)) := by
          rw [ihj n (Nat.le_refl n)]
          simp only [backBody, Nat.add_sub_cancel, hp]
          rw [List.getElem?_set, if_pos rfl, if_pos hn]
        simp only [Nat.add_sub_cancel]
        rw [e2]
        simp only [List.getD_eq_getElem?_getD, e1]

theorem backGradients_spec (net : Network) (ar adr dW : List Matrix) (labels : List Nat)
    (hdW : net.networkConfig.layersConfig.length - 2 < dW.length) :
    (backGradients net ar adr dW labels).deltaWeights.length = dW.length ∧
      (backGradients net ar adr dW labels).deltaWeights[
          net.networkConfig.layersConfig.length - 2]? =
        some (CrossentropyFunction.costDelta
          (ar.getD (net.networkConfig.layersConfig.length - 1) default) labels) ∧
      ∀ i, 1 ≤ i → i ≤ net.networkConfig.layersConfig.length - 2 →
        (backGradients net ar adr dW labels).deltaWeights[i - 1]? =
          some ((((backGradients net ar adr dW labels).deltaWeights.getD i default).matmul
              (net.weightsTransposed.getD i default)).hadamard (adr.getD (i - 1) default)) := by
  unfold backGradients
  obtain ⟨hl, hj, hi⟩ := backLoop_spec net adr (net.networkConfig.layersConfig.length - 2)
    ⟨dW.set (net.networkConfig.layersConfig.length - 2)
        (CrossentropyFunction.costDelta
          (ar.getD (net.networkConfig.layersConfig.length - 1) default) labels),
      net.networkConfig.layersConfig.length - 2⟩ rfl (by simpa using hdW)
  refine ⟨by simpa using hl, ?_, hi⟩
  rw [hj _ (Nat.le_refl _), List.getElem?_set]
  simp [hdW]

theorem CrossentropyFunction.getItem_costDelta (a : Matrix) (labels : List Nat) (r c : Nat)
    (hr : r < a.getNumRows) (hl : r < labels.length) (hc : c < (a.rows.getD r []).length) :
    (CrossentropyFunction.costDelta a labels).getItem r c =
      a.getItem r c - if c = labels.getD r 0 then 1 else 0 := by
  unfold Matrix.getNumRows at hr
  simp only [Matrix.getItem, CrossentropyFunction.costDelta, List.getD_eq_getElem?_getD,
    List.getElem?_zipWith, List.getElem?_eq_getElem hr, List.getElem?_eq_getElem hl,
    Option.getD_some] at hc ⊢
  rw [List.getElem?_map, List.getElem?_range hc]
  simp

/-- C6: on a softmax-terminated network, after `forwardPass` followed by `backProp` the
call returns normally, `deltaWeights[L-2]` is the final activation minus the one-hot
encoding of the labels, row by row, and for every `i` from `L-2` down to `1`,
`deltaWeights[i-1]` is `deltaWeights[i] * weightsTransposed[i]` multiplied element-wise by
`activationDerivResults[i-1]`. -/
theorem backProp_gradients (getStats : Matrix → List Nat → Stats) (net : Network)
    (data : Matrix) (labels : List Nat)
    (hL : 2 ≤ net.networkConfig.layersConfig.length)
    (hW : net.weights.length = net.networkConfig.layersConfig.length - 1)
    (hdW : net.deltaWeights.length = net.networkConfig.layersConfig.length - 1)
    (hsoft : (net.layer (net.networkConfig.layersConfig.length - 1)).activationFunctionType =
      ActivationFunction.SoftMax) :
    (backProp (forwardPass getStats net data labels).2 labels).1 = Except.ok () ∧
      (backProp (forwardPass getStats net data labels).2 labels).2.deltaWeights[
          net.networkConfig.layersConfig.length - 2]? =
        some (CrossentropyFunction.costDelta
          ((forwardPass getStats net data labels).2.activationResults.getD
            (net.networkConfig.layersConfig.length - 1) default) labels) ∧
      (∀ r c, r < ((forwardPass getStats net data labels).2.activationResults.getD
            (net.networkConfig.layersConfig.length - 1) default).getNumRows →
          r < labels.length →
          c < (((forwardPass getStats net data labels).2.activationResults.getD
            (net.networkConfig.layersConfig.length - 1) default).rows.getD r []).length →
          (((backProp (forwardPass getStats net data labels).2 labels).2.deltaWeights.getD
              (net.networkConfig.layersConfig.length - 2) default).getItem r c =
            ((forwardPass getStats net data labels).2.activationResults.getD
              (net.networkConfig.layersConfig.length - 1) default).getItem r c -
              if c = labels.getD r 0 then 1 else 0)) ∧
      ∀ i, 1 ≤ i → i ≤ net.networkConfig.layersConfig.length - 2 →
        (backProp (forwardPass getStats net data labels).2 labels).2.deltaWeights[i - 1]? =
          some
            ((((backProp (forwardPass getStats net data labels).2 labels).2.deltaWeights.getD i
                default).matmul
              ((forwardPass getStats net data labels).2.weightsTransposed.getD i default)).hadamard
              ((forwardPass getStats net data labels).2.activationDerivResults.getD (i - 1)
                default)) := by
  have hcfg : (forwardPass getStats net data labels).2.networkConfig = net.networkConfig := rfl
  have hdw1 : (forwardPass getStats net data labels).2.deltaWeights = net.deltaWeights := rfl
  have hsoft1 : ((forwardPass getStats net data labels).2.layer
      ((forwardPass getStats net data labels).2.networkConfig.layersConfig.length -
        1)).activationFunctionType = ActivationFunction.SoftMax := hsoft
  rcases backProp_cases (forwardPass getStats net data labels).2 labels with ⟨_, hb⟩ | ⟨h, _⟩
  · obtain ⟨_, htop, hrec⟩ := backGradients_spec (forwardPass getStats net data labels).2
      (forwardPass getStats net data labels).2.activationResults
      (forwardPass getStats net data labels).2.activationDerivResults
      (forwardPass getStats net data labels).2.deltaWeights labels
      (by rw [hcfg, hdw1, hdW]; omega)
    rw [hcfg] at htop hrec
    rw [hb]
    refine ⟨rfl, htop, fun r c hr hl hc => ?_, hrec⟩
    simp only []
    rw [List.getD_eq_getElem?_getD, htop, Option.getD_some]
    exact CrossentropyFunction.getItem_costDelta _ labels r c hr hl hc
  · exact absurd hsoft1 h

theorem backProp_gradients_witness :
    (2 ≤ exampleNet.networkConfig.layersConfig.length ∧
        exampleNet.weights.length = exampleNet.networkConfig.layersConfig.length - 1 ∧
        exampleNet.deltaWeights.length = exampleNet.networkConfig.layersConfig.length - 1 ∧
        (exampleNet.layer (exampleNet.networkConfig.layersConfig.length - 1)).activationFunctionType =
          ActivationFunction.SoftMax) ∧
      (backProp (forwardPass exampleStats exampleNet exampleBatch exampleLabels).2
          exampleLabels).2.deltaWeights[0]? =
        some
          ((((backProp (forwardPass exampleStats exampleNet exampleBatch exampleLabels).2
              exampleLabels).2.deltaWeights.getD 1 default).matmul
            (exampleNet.weightsTransposed.getD 1 default)).hadamard
            ((forwardPass exampleStats exampleNet exampleBatch
              exampleLabels).2.activationDerivResults.getD 0 default)) :=
  ⟨⟨by decide, by decide, by decide, by decide⟩,
    (backProp_gradients exampleStats exampleNet exampleBatch exampleLabels (by decide)
      (by decide) (by decide) (by decide)).2.2.2 1 (by decide) (by decide)⟩

/-! ## Back-propagation: the bias gradients -/

theorem SameShape.refl (db : List (List ℚ)) : SameShape db db := ⟨rfl, fun _ => rfl⟩

theorem SameShape.trans {a b c : List (List ℚ)} (h1 : SameShape a b) (h2 : SameShape b c) :
    SameShape a c :=
  ⟨h2.1.trans h1.1, fun i => (h2.2 i).trans (h1.2 i)⟩

theorem sameShape_set (db : List (List ℚ)) (i : Nat) (v : List ℚ)
    (hv : v.length = (db.getD i []).length) : SameShape db (db.set i v) := by
  refine ⟨by simp, fun i' => ?_⟩
  simp only [List.getD_eq_getElem?_getD, List.getElem?_set] at hv ⊢
  by_cases h : i = i'
  · subst h
    by_cases hl : i < db.length
    · simp [hl, hv]
    · simp [hl, List.getElem?_eq_none (Nat.le_of_not_lt hl)]
  · simp [h]

theorem addAt_sameShape (db : List (List ℚ)) (i k : Nat) (v : ℚ) :
    SameShape db (addAt db i k v) :=
  sameShape_set db i _ (by simp)

theorem biasAt_set (db : List (List ℚ)) (i : Nat) (v : List ℚ) (i2 k2 : Nat) :
    biasAt (db.set i v) i2 k2 =
      if i2 = i ∧ i < db.length then v.getD k2 0 else biasAt db i2 k2 := by
  simp only [biasAt, List.getD_eq_getElem?_getD, List.getElem?_set]
  by_cases h : i = i2
  · subst h
    by_cases hl : i < db.length
    · simp [hl]
    · simp [hl, List.getElem?_eq_none (Nat.le_of_not_lt hl)]
  · have h2 : ¬ i2 = i := fun e => h e.symm
    simp [h, h2]

theorem biasAt_addAt (db : List (List ℚ)) (i k : Nat) (v : ℚ) (i2 k2 : Nat) :
    biasAt (addAt db i k v) i2 k2 =
      biasAt db i2 k2 +
        if i2 = i ∧ k2 = k ∧ i < db.length ∧ k < (db.getD i []).length then v else 0 := by
  unfold addAt
  rw [biasAt_set]
  by_cases h1 : i2 = i ∧ i < db.length
  · obtain ⟨e, hl⟩ := h1
    subst e
    simp only [true_and, hl, if_true]
    simp only [biasAt, List.getD_eq_getElem?_getD, List.getElem?_set]
    by_cases hk : k = k2
    · subst hk
      by_cases hkl : k < (db[i2]?.getD []).length
      · simp [hkl]
      · simp [hkl, List.getElem?_eq_none (Nat.le_of_not_lt hkl)]
    · have hk2 : ¬ k2 = k := fun e => hk e.symm
      simp [hk, hk2]
  · rw [if_neg h1, if_neg (fun h => h1 ⟨h.1, h.2.2.1⟩), add_zero]

/-- The inner loop of the bias computation, over the first `m` columns. -/
theorem biasCols_spec (i : Nat) (f : Nat → ℚ) (db : List (List ℚ)) :
    ∀ m, SameShape db ((List.range m).foldl (fun db k => addAt db i k (f k)) db) ∧
      ∀ i2 k2, biasAt ((List.range m).foldl (fun db k => addAt db i k (f k)) db) i2 k2 =
        biasAt db i2 k2 +
          if i2 = i ∧ k2 < m ∧ i < db.length ∧ k2 < (db.getD i []).length then f k2 else 0 := by
  intro m
  induction m with
  | zero => exact ⟨SameShape.refl db, fun i2 k2 => by simp⟩
  | succ m ih =>
    obtain ⟨ihs, ihv⟩ := ih
    rw [List.range_succ, List.foldl_append]
    simp only [List.foldl_cons, List.foldl_nil]
    refine ⟨ihs.trans (addAt_sameShape _ i m (f m)), fun i2 k2 => ?_⟩
    rw [biasAt_addAt, ihv, ihs.1, ihs.2 i]
    by_cases c1 : i2 = i ∧ k2 = m ∧ i < db.length ∧ m < (db.getD i []).length
    · obtain ⟨e1, e2, hl, hm⟩ := c1
      subst e1 e2
      simp [hl, hm]
    · rw [if_neg c1, add_zero]
      by_cases c2 : i2 = i ∧ k2 < m ∧ i < db.length ∧ k2 < (db.getD i []).length
      · rw [if_pos c2, if_pos ⟨c2.1, by omega, c2.2.2.1, c2.2.2.2⟩]
      · rw [if_neg c2, if_neg]
        rintro ⟨e1, hlt, hl, hk⟩
        by_cases hkm : k2 = m
        · subst hkm
          exact c1 ⟨e1, rfl, hl, hk⟩
        · exact c2 ⟨e1, by omega, hl, hk⟩

/-- The two nested loops of the bias computation, over the first `n` rows. -/
theorem biasRows_spec (i cols : Nat) (g : Nat → Nat → ℚ) (db : List (List ℚ)) :
    ∀ n, SameShape db ((List.range n).foldl
          (fun db j => (List.range cols).foldl (fun db k => addAt db i k (g j k)) db) db) ∧
      ∀ i2 k2, biasAt ((List.range n).foldl
          (fun db j => (List.range cols).foldl (fun db k => addAt db i k (g j k)) db) db) i2 k2 =
        biasAt db i2 k2 +
          if i2 = i ∧ k2 < cols ∧ i < db.length ∧ k2 < (db.getD i []).length then
            ∑ j ∈ Finset.range n, g j k2
          else 0 := by
  intro n
  induction n with
  | zero => exact ⟨SameShape.refl db, fun i2 k2 => by simp⟩
  | succ n ih =>
    obtain ⟨ihs, ihv⟩ := ih
    rw [List.range_succ, List.foldl_append]
    simp only [List.foldl_cons, List.foldl_nil]
    obtain ⟨hs, hv⟩ := biasCols_spec i (g n) ((List.range n).foldl
      (fun db j => (List.range cols).foldl (fun db k => addAt db i k (g j k)) db) db) cols
    refine ⟨ihs.trans hs, fun i2 k2 => ?_⟩
    rw [hv, ihv, ihs.1, ihs.2 i]
    by_cases c : i2 = i ∧ k2 < cols ∧ i < db.length ∧ k2 < (db.getD i []).length
    · simp only [if_pos c, Finset.sum_range_succ, add_assoc]
    · simp only [if_neg c, add_zero]

/-- One layer of the bias loop: the vector of layer `i` becomes the column sums of the
gradient matrix, each entry divided by the row count; the other vectors are kept. -/
theorem biasBody_spec (dW : List Matrix) (db : List (List ℚ)) (i : Nat) :
    SameShape db (biasBody dW db i) ∧
      ∀ i2 k2, biasAt (biasBody dW db i) i2 k2 =
        if i2 = i ∧ i < db.length then
          if k2 < (dW.getD i default).getNumCols ∧ k2 < (db.getD i []).length then
            ∑ j ∈ Finset.range (dW.getD i default).getNumRows,
              (dW.getD i default).getItem j k2 / ((dW.getD i default).getNumRows : ℚ)
          else 0
        else biasAt db i2 k2 := by
  have hz : SameShape db (db.set i (List.replicate (db.getD i []).length 0)) :=
    sameShape_set db i _ (by simp)
  obtain ⟨hs, hv⟩ := biasRows_spec i (dW.getD i default).getNumCols
    (fun j k => (dW.getD i default).getItem j k / ((dW.getD i default).getNumRows : ℚ))
    (db.set i (List.replicate (db.getD i []).length 0)) (dW.getD i default).getNumRows
  refine ⟨hz.trans hs, fun i2 k2 => ?_⟩
  unfold biasBody
  simp only []
  rw [hv, biasAt_set, hz.1, hz.2 i]
  by_cases c : i2 = i ∧ i < db.length
  · rw [if_pos c, if_pos c]
    have h0 : (List.replicate (db.getD i []).length (0 : ℚ)).getD k2 0 = 0 := by
      simp only [List.getD_eq_getElem?_getD, List.getElem?_replicate]
      split <;> rfl
    rw [h0, zero_add]
    by_cases c2 : k2 < (dW.getD i default).getNumCols ∧ k2 < (db.getD i []).length
    · rw [if_pos c2, if_pos ⟨c.1, c2.1, c.2, c2.2⟩]
    · rw [if_neg c2, if_neg (fun h => c2 ⟨h.2.1, h.2.2.2⟩)]
  · rw [if_neg c, if_neg c, if_neg (fun h => c ⟨h.1, h.2.2.1⟩), add_zero]

/-- The whole bias loop, over the first `m` layers. -/
theorem biasLoop_spec (dW : List Matrix) (db : List (List ℚ)) :
    ∀ m, SameShape db ((List.range m).foldl (biasBody dW) db) ∧
      ∀ i2 k2, biasAt ((List.range m).foldl (biasBody dW) db) i2 k2 =
        if i2 < m ∧ i2 < db.length then
          if k2 < (dW.getD i2 default).getNumCols ∧ k2 < (db.getD i2 []).length then
            ∑ j ∈ Finset.range (dW.getD i2 default).getNumRows,
              (dW.getD i2 default).getItem j k2 / ((dW.getD i2 default).getNumRows : ℚ)
          else 0
        else biasAt db i2 k2 := by
  intro m
  induction m with
  | zero => exact ⟨SameShape.refl db, fun i2 k2 => by simp⟩
  | succ m ih =>
    obtain ⟨ihs, ihv⟩ := ih
    rw [List.range_succ, List.foldl_append]
    simp only [List.foldl_cons, List.foldl_nil]
    obtain ⟨hs, hv⟩ := biasBody_spec dW ((List.range m).foldl (biasBody dW) db) m
    refine ⟨ihs.trans hs, fun i2 k2 => ?_⟩
    rw [hv, ihs.1, ihs.2 m, ihv]
    by_cases c : i2 = m ∧ m < db.length
    · have c3 : i2 < m + 1 ∧ i2 < db.length := ⟨by omega, by omega⟩
      simp only [if_pos c, if_pos c3]
      rw [c.1]
    · by_cases c2 : i2 < m ∧ i2 < db.length
      · have c3 : i2 < m + 1 ∧ i2 < db.length := ⟨by omega, c2.2⟩
        simp only [if_neg c, if_pos c2, if_pos c3]
      · have c3 : ¬ (i2 < m + 1 ∧ i2 < db.length) := by
          rintro ⟨h1, h2⟩
          by_cases e : i2 = m
          · subst e
            exact c ⟨rfl, h2⟩
          · exact c2 ⟨by omega, h2⟩
        simp only [if_neg c, if_neg c2, if_neg c3]

/-- C7: after a `backProp` that returns normally, for every layer `i` in `0 .. L-2` whose
gradient matrix has at least one row and every column `k` of it, `deltaBiases[i][k]` is the
sum of column `k` of `deltaWeights[i]` divided by its row count, whatever `deltaBiases` held
before the call. -/
theorem backProp_bias_mean (net : Network) (labels : List Nat)
    (hL : 2 ≤ net.networkConfig.layersConfig.length)
    (hsoft : (net.layer (net.networkConfig.layersConfig.length - 1)).activationFunctionType =
      ActivationFunction.SoftMax)
    (hdB : net.deltaBiases.length = net.networkConfig.layersConfig.length - 1)
    (i k : Nat) (hi : i < net.networkConfig.layersConfig.length - 1)
    (hrows : 0 < ((backProp net labels).2.deltaWeights.getD i default).getNumRows)
    (hk : k < ((backProp net labels).2.deltaWeights.getD i default).getNumCols)
    (hk2 : k < (net.deltaBiases.getD i []).length) :
    (backProp net labels).1 = Except.ok () ∧
      ((backProp net labels).2.deltaBiases.getD i []).length =
        (net.deltaBiases.getD i []).length ∧
      biasAt (backProp net labels).2.deltaBiases i k =
        (∑ j ∈ Finset.range ((backProp net labels).2.deltaWeights.getD i default).getNumRows,
            ((backProp net labels).2.deltaWeights.getD i default).getItem j k) /
          (((backProp net labels).2.deltaWeights.getD i default).getNumRows : ℚ) := by
  rcases backProp_cases net labels with ⟨_, hb⟩ | ⟨h, _⟩
  · rw [hb] at hrows hk ⊢
    simp only [] at hrows hk ⊢
    obtain ⟨hs, hv⟩ := biasLoop_spec
      (backGradients net net.activationResults net.activationDerivResults net.deltaWeights
        labels).deltaWeights net.deltaBiases (net.networkConfig.layersConfig.length - 1)
    refine ⟨trivial, hs.2 i, ?_⟩
    rw [hv, if_pos ⟨hi, by omega⟩, if_pos ⟨hk, hk2⟩, Finset.sum_div]
  · exact absurd hsoft h

theorem backProp_bias_mean_witness :
    (2 ≤ exampleNet.networkConfig.layersConfig.length ∧
        0 < ((backProp (forwardPass exampleStats exampleNet exampleBatch exampleLabels).2
          exampleLabels).2.deltaWeights.getD 0 default).getNumRows ∧
        1 < ((backProp (forwardPass exampleStats exampleNet exampleBatch exampleLabels).2
          exampleLabels).2.deltaWeights.getD 0 default).getNumCols) ∧
      biasAt (backProp (forwardPass exampleStats exampleNet exampleBatch exampleLabels).2
          exampleLabels).2.deltaBiases 0 1 =
        (∑ j ∈ Finset.range
            ((backProp (forwardPass exampleStats exampleNet exampleBatch exampleLabels).2
              exampleLabels).2.deltaWeights.getD 0 default).getNumRows,
          ((backProp (forwardPass exampleStats exampleNet exampleBatch exampleLabels).2
            exampleLabels).2.deltaWeights.getD 0 default).getItem j 1) /
          (((backProp (forwardPass exampleStats exampleNet exampleBatch exampleLabels).2
            exampleLabels).2.deltaWeights.getD 0 default).getNumRows : ℚ) :=
  ⟨⟨by decide, by decide, by decide⟩,
    (backProp_bias_mean (forwardPass exampleStats exampleNet exampleBatch exampleLabels).2
      exampleLabels (by decide) (by decide) (by decide) 0 1 (by decide) (by decide)
      (by decide) (by decide)).2.2⟩

/-! ## The end-to-end scenario: zero weights, softmax output -/

theorem Matrix.dot_replicate_zero (r : List ℚ) :
    ∀ n, Matrix.dot r (List.replicate n 0) = 0 := by
  induction r with
  | nil => intro n; simp [Matrix.dot]
  | cons a r ih =>
    intro n
    cases n with
    | zero => simp [Matrix.dot]
    | succ n =>
      have h := ih n
      simp only [Matrix.dot] at h ⊢
      simp [List.replicate_succ, h]

theorem Matrix.col_filled_zero (d n j : Nat) :
    (Matrix.filled d n 0).col j = List.replicate d 0 := by
  have h0 : (List.replicate n (0 : ℚ)).getD j 0 = 0 := by
    simp only [List.getD_eq_getElem?_getD, List.getElem?_replicate]
    split <;> rfl
  simp only [Matrix.col, Matrix.filled, List.map_replicate, h0]

theorem Matrix.matmul_filled_zero (data : Matrix) (d : Nat) :
    data.matmul (Matrix.filled d 3 0) = ⟨3, data.rows.map (fun _ => [0, 0, 0])⟩ := by
  have hr : List.range 3 = [0, 1, 2] := rfl
  simp only [Matrix.matmul, Matrix.col_filled_zero, Matrix.dot_replicate_zero]
  simp [Matrix.filled, hr]

/-- With zero weights and biases every row of the softmax output is `(1/3, 1/3, 1/3)`. -/
theorem zeroNet_layerOutput (expF : ℚ → ℚ) (hexp : expF 0 ≠ 0) (d : Nat) (net : Network)
    (hnet : IsZeroSoftmaxNet expF d net) (data : Matrix) :
    layerOutput net data 1 = ⟨3, data.rows.map (fun _ => [1 / 3, 1 / 3, 1 / 3])⟩ := by
  obtain ⟨_, hact, _, hw, hb, _, _, _⟩ := hnet
  have h3 : expF 0 / (expF 0 + (expF 0 + expF 0)) = 1 / 3 := by
    have e : expF 0 + (expF 0 + expF 0) = expF 0 * 3 := by ring
    rw [e, div_mul_eq_div_div, div_self hexp]
  simp only [layerOutput, hact, hw, hb, List.getD_cons_zero, Matrix.matmul_filled_zero]
  simp [softMax, Matrix.addBias, h3]

/-- Back-propagation from a final activation whose four rows are all `(1/3, 1/3, 1/3)`. -/
theorem zeroNet_backProp (net1 : Network) (labels : List Nat)
    (hL : net1.networkConfig.layersConfig.length = 2)
    (hsoft : (net1.layer 1).activationFunctionType = ActivationFunction.SoftMax)
    (hdW : net1.deltaWeights.length = 1) (hdB : net1.deltaBiases.length = 1)
    (hdB0 : (net1.deltaBiases.getD 0 []).length = 3) (hlabels : labels.length = 4)
    (rows : List (List ℚ)) (hrows : rows.length = 4)
    (hrow : ∀ r, r < 4 → rows.getD r [] = [1 / 3, 1 / 3, 1 / 3])
    (hA : net1.activationResults.getD 1 default = ⟨3, rows⟩) :
    (backProp net1 labels).1 = Except.ok () ∧
      (backProp net1 labels).2.deltaWeights.length = 1 ∧
      ((backProp net1 labels).2.deltaWeights.getD 0 default).getNumRows = 4 ∧
      ((backProp net1 labels).2.deltaWeights.getD 0 default).getNumCols = 3 ∧
      (∀ r c, r < 4 → c < 3 →
        ((backProp net1 labels).2.deltaWeights.getD 0 default).getItem r c =
          1 / 3 - if c = labels.getD r 0 then 1 else 0) ∧
      ((backProp net1 labels).2.deltaBiases.getD 0 []).length = 3 ∧
      ∀ c, c < 3 →
        biasAt (backProp net1 labels).2.deltaBiases 0 c =
          (∑ r ∈ Finset.range 4,
            ((backProp net1 labels).2.deltaWeights.getD 0 default).getItem r c) / 4 := by
  have hsoft1 : (net1.layer (net1.networkConfig.layersConfig.length - 1)).activationFunctionType =
      ActivationFunction.SoftMax := by
    rw [hL]
    exact hsoft
  rcases backProp_cases net1 labels with ⟨_, hb⟩ | ⟨h, _⟩
  · obtain ⟨hlen, htop, _⟩ := backGradients_spec net1 net1.activationResults
      net1.activationDerivResults net1.deltaWeights labels (by rw [hdW, hL]; decide)
    obtain ⟨hs, hv⟩ := biasLoop_spec
      (backGradients net1 net1.activationResults net1.activationDerivResults
        net1.deltaWeights labels).deltaWeights
      net1.deltaBiases (net1.networkConfig.layersConfig.length - 1)
    rw [hL] at htop
    simp only [Nat.reduceSub] at htop
    rw [hA] at htop
    have hget : (backGradients net1 net1.activationResults net1.activationDerivResults
        net1.deltaWeights labels).deltaWeights.getD 0 default =
        CrossentropyFunction.costDelta ⟨3, rows⟩ labels := by
      rw [List.getD_eq_getElem?_getD, htop, Option.getD_some]
    have hnr : (CrossentropyFunction.costDelta ⟨3, rows⟩ labels).getNumRows = 4 := by
      simp only [Matrix.getNumRows, CrossentropyFunction.costDelta, List.length_zipWith,
        hrows, hlabels]
      rfl
    have hitem : ∀ r c, r < 4 → c < 3 →
        (CrossentropyFunction.costDelta ⟨3, rows⟩ labels).getItem r c =
          1 / 3 - if c = labels.getD r 0 then 1 else 0 := by
      intro r c hr hc
      rw [CrossentropyFunction.getItem_costDelta _ labels r c
        (by simp only [Matrix.getNumRows, hrows]; exact hr) (by omega)
        (by rw [hrow r hr]; exact hc)]
      have hval : (⟨3, rows⟩ : Matrix).getItem r c = 1 / 3 := by
        simp only [Matrix.getItem, hrow r hr]
        interval_cases c <;> rfl
      rw [hval]
    rw [hb]
    simp only []
    have hv0 := hv 0
    rw [hL, hget] at hv0
    rw [hget, hnr]
    refine ⟨trivial, by rw [hlen, hdW], rfl, rfl, hitem, ?_, ?_⟩
    · rw [hs.2 0, hdB0]
    · intro c hc
      rw [hL, hv0, if_pos ⟨by decide, by rw [hdB]; decide⟩,
        if_pos ⟨hc, by rw [hdB0]; exact hc⟩, hnr, Finset.sum_div]
      simp
  · exact absurd hsoft1 h

/-- C8: for a two-layer network (identity input, softmax output) with zero weights and
biases and a batch of four samples with three classes, `forwardPass` followed by `backProp`
returns normally and leaves a `4 × 3` matrix `deltaWeights[0]` whose entry `(r, c)` is
`1/3` minus the one-hot encoding of label `r` at `c`, and `deltaBiases[0]` holds the column
means of that matrix. -/
theorem zero_softmax_scenario (getStats : Matrix → List Nat → Stats) (expF : ℚ → ℚ)
    (hexp : expF 0 ≠ 0) (d : Nat) (net : Network) (hnet : IsZeroSoftmaxNet expF d net)
    (data : Matrix) (labels : List Nat) (hdata : data.getNumRows = 4)
    (hlabels : labels.length = 4) :
    (backProp (forwardPass getStats net data labels).2 labels).1 = Except.ok () ∧
      (backProp (forwardPass getStats net data labels).2 labels).2.deltaWeights.length = 1 ∧
      ((backProp (forwardPass getStats net data labels).2 labels).2.deltaWeights.getD 0
        default).getNumRows = 4 ∧
      ((backProp (forwardPass getStats net data labels).2 labels).2.deltaWeights.getD 0
        default).getNumCols = 3 ∧
      (∀ r c, r < 4 → c < 3 →
        ((backProp (forwardPass getStats net data labels).2 labels).2.deltaWeights.getD 0
          default).getItem r c = 1 / 3 - if c = labels.getD r 0 then 1 else 0) ∧
      ((backProp (forwardPass getStats net data labels).2 labels).2.deltaBiases.getD 0
        []).length = 3 ∧
      ∀ c, c < 3 →
        biasAt (backProp (forwardPass getStats net data labels).2 labels).2.deltaBiases 0 c =
          (∑ r ∈ Finset.range 4,
            ((backProp (forwardPass getStats net data labels).2 labels).2.deltaWeights.getD 0
              default).getItem r c) / 4 := by
  have hA := zeroNet_layerOutput expF hexp d net hnet data
  obtain ⟨hL, _, hsoft, hw, _, hdW, hdB, hdB0⟩ := hnet
  have hwl : net.weights.length = 1 := by rw [hw]; rfl
  have hAR : (forwardPass getStats net data labels).2.activationResults.getD 1 default =
      ⟨3, data.rows.map (fun _ => [1 / 3, 1 / 3, 1 / 3])⟩ := by
    rw [forwardPass_activationResults getStats net data labels (by omega), hwl, ← hA]
    rfl
  have hlen : (data.rows.map (fun _ => [(1 : ℚ) / 3, 1 / 3, 1 / 3])).length = 4 := by
    rw [List.length_map]
    exact hdata
  refine zeroNet_backProp (forwardPass getStats net data labels).2 labels hL hsoft hdW hdB hdB0
    hlabels _ hlen (fun r hr => ?_) hAR
  have hr2 : r < data.rows.length := by
    unfold Matrix.getNumRows at hdata
    omega
  rw [List.getD_eq_getElem?_getD, List.getElem?_map, List.getElem?_eq_getElem hr2]
  rfl

theorem zero_softmax_scenario_witness :
    (expTaylor 0 ≠ 0 ∧ IsZeroSoftmaxNet expTaylor 2 exampleZeroNet ∧
        exampleBatch.getNumRows = 4 ∧ exampleLabels.length = 4) ∧
      ∀ r c, r < 4 → c < 3 →
        ((backProp (forwardPass exampleStats exampleZeroNet exampleBatch exampleLabels).2
          exampleLabels).2.deltaWeights.getD 0 default).getItem r c =
            1 / 3 - if c = exampleLabels.getD r 0 then 1 else 0 :=
  ⟨⟨by simp [expTaylor], ⟨rfl, rfl, rfl, rfl, rfl, rfl, rfl, rfl⟩, rfl, rfl⟩,
    (zero_softmax_scenario exampleStats expTaylor (by simp [expTaylor]) 2 exampleZeroNet
      ⟨rfl, rfl, rfl, rfl, rfl, rfl, rfl, rfl⟩ exampleBatch exampleLabels rfl rfl).2.2.2.2.1⟩

/-! ## Weight decay: the claims -/

theorem Matrix.getItem_scale (m : Matrix) (c : ℚ) (i j : Nat) :
    (m.scale c).getItem i j = m.getItem i j * c := by
  simp only [Matrix.getItem, Matrix.scale, List.getD_eq_getElem?_getD, List.getElem?_map]
  cases m.rows[i]? with
  | none => simp
  | some r =>
    simp only [Option.map_some', Option.getD_some, List.getElem?_map]
    cases r[j]? <;> simp

theorem entriesScaled_map (ws : List Matrix) (c : ℚ) :
    EntriesScaled ws (ws.map (fun w => w.scale c)) c := by
  refine ⟨by simp, fun i => ?_⟩
  simp only [List.getD_eq_getElem?_getD, List.getElem?_map]
  cases ws[i]? with
  | none =>
    refine ⟨rfl, rfl, fun r k => ?_⟩
    simp [Matrix.getItem, default, Matrix.empty]
  | some w =>
    refine ⟨rfl, by simp [Matrix.getNumRows, Matrix.scale], fun r k => ?_⟩
    simpa using Matrix.getItem_scale w c r k

/-- The indexed loop of `weightDecayParallel`, run over the first `n` indices. -/
theorem scaleLoop_getElem? (f : Matrix → Matrix) (ws : List Matrix) :
    ∀ n, ((List.range n).foldl (fun ws i => ws.set i (f (ws.getD i default))) ws).length =
        ws.length ∧
      ∀ k, ((List.range n).foldl (fun ws i => ws.set i (f (ws.getD i default))) ws)[k]? =
        if k < n then (ws[k]?).map f else ws[k]? := by
  intro n
  induction n with
  | zero => simp
  | succ n ih =>
    obtain ⟨ihl, ihk⟩ := ih
    rw [List.range_succ, List.foldl_append]
    simp only [List.foldl_cons, List.foldl_nil]
    refine ⟨by rw [List.length_set]; exact ihl, fun k => ?_⟩
    rw [List.getElem?_set, ihl, List.getD_eq_getElem?_getD, ihk n, ihk k]
    by_cases hnk : n = k
    · subst hnk
      by_cases hlt : n < ws.length
      · simp [hlt, List.getElem?_eq_getElem hlt]
      · have : ws[n]? = none := List.getElem?_eq_none (by omega)
        simp [hlt, this]
    · by_cases hlt : k < n
      · have : k < n + 1 := by omega
        simp [hnk, hlt, this]
      · have : ¬ k < n + 1 := by omega
        simp [hnk, hlt, this]

theorem scaleLoop_eq_map (f : Matrix → Matrix) (ws : List Matrix) :
    (List.range ws.length).foldl (fun ws i => ws.set i (f (ws.getD i default))) ws =
      ws.map f := by
  apply List.ext_getElem?
  intro k
  rw [(scaleLoop_getElem? f ws ws.length).2 k, List.getElem?_map]
  by_cases hk : k < ws.length
  · simp [hk]
  · simp [hk, List.getElem?_eq_none (Nat.le_of_not_lt hk)]

theorem roundFloat32_zero : roundFloat32 0 = 0 := by
  simp [roundFloat32]

theorem Matrix.getItem_scaleFloat (m : Matrix) (c : ℚ) (i j : Nat) :
    (m.scaleFloat c).getItem i j = roundFloat32 (m.getItem i j * c) := by
  simp only [Matrix.getItem, Matrix.scaleFloat, List.getD_eq_getElem?_getD, List.getElem?_map]
  cases m.rows[i]? with
  | none => simp [roundFloat32_zero]
  | some r =>
    simp only [Option.map_some', Option.getD_some, List.getElem?_map]
    cases r[j]? <;> simp [roundFloat32_zero]

theorem entriesScaledFloat_map (ws : List Matrix) (c : ℚ) :
    EntriesScaledFloat ws (ws.map (fun w => w.scaleFloat c)) c := by
  refine ⟨by simp, fun i => ?_⟩
  simp only [List.getD_eq_getElem?_getD, List.getElem?_map]
  cases ws[i]? with
  | none =>
    refine ⟨rfl, rfl, fun r k => ?_⟩
    simp [Matrix.getItem, default, Matrix.empty, roundFloat32_zero]
  | some w =>
    refine ⟨rfl, by simp [Matrix.getNumRows, Matrix.scaleFloat], fun r k => ?_⟩
    simpa using Matrix.getItem_scaleFloat w c r k

/-- C9, as stated, fails: with `lambda = 2 ^ (-30)` the float difference `1.f - lambda` is
`1`, so `weightDecay` and `weightDecayParallel` leave the weights of the example network as
they are, while `w * (1 - lambda)` is not `w` for its entry `w = 1`. -/
theorem weightDecay_tiny_lambda_keeps_weights :
    roundFloat32 (1 - 1 / 2 ^ 30) = 1 ∧
      (weightDecay exampleNet 1 (1 / 2 ^ 30) 4 1).weights = exampleNet.weights ∧
      (weightDecayParallel exampleNet (1 / 2 ^ 30)).weights = exampleNet.weights ∧
      (exampleNet.weights.getD 0 default).getItem 0 0 = 1 ∧
      ((weightDecay exampleNet 1 (1 / 2 ^ 30) 4 1).weights.getD 0 default).getItem 0 0 ≠
        (exampleNet.weights.getD 0 default).getItem 0 0 * (1 - 1 / 2 ^ 30) ∧
      ((weightDecayParallel exampleNet (1 / 2 ^ 30)).weights.getD 0 default).getItem 0 0 ≠
        (exampleNet.weights.getD 0 default).getItem 0 0 * (1 - 1 / 2 ^ 30) := by
  refine ⟨by decide!, by decide!, by decide!, by decide!, by decide!, by decide!⟩

/-- C9, amended: `weightDecay` and `weightDecayParallel` with `lambda = 0` return the
network unchanged; with any other `lambda` they keep the shape of every weight matrix and
replace each of its entries `w` by the float product of `w` with `decayCoeff`, the float
difference `1.f - lambda`; the biases are unchanged in every case. -/
theorem weightDecay_float_products (net : Network) (eta lambda : ℚ) (batchSize epoch : Nat)
    (hl : lambda ≠ 0) :
    weightDecay net eta 0 batchSize epoch = net ∧
      weightDecayParallel net 0 = net ∧
      EntriesScaledFloat net.weights (weightDecay net eta lambda batchSize epoch).weights
        (roundFloat32 (1 - lambda)) ∧
      EntriesScaledFloat net.weights (weightDecayParallel net lambda).weights
        (roundFloat32 (1 - lambda)) ∧
      (weightDecay net eta lambda batchSize epoch).biases = net.biases ∧
      (weightDecayParallel net lambda).biases = net.biases ∧
      (weightDecay net eta 0 batchSize epoch).biases = net.biases ∧
      (weightDecayParallel net 0).biases = net.biases := by
  refine ⟨by simp [weightDecay], by simp [weightDecayParallel], ?_, ?_, ?_, ?_, ?_, ?_⟩
  · simpa [weightDecay, hl] using entriesScaledFloat_map net.weights (roundFloat32 (1 - lambda))
  · simp only [weightDecayParallel, if_neg hl]
    rw [scaleLoop_eq_map (fun w => w.scaleFloat (roundFloat32 (1 - lambda)))]
    exact entriesScaledFloat_map net.weights (roundFloat32 (1 - lambda))
  · simp [weightDecay, hl]
  · simp [weightDecayParallel, hl]
  · simp [weightDecay]
  · simp [weightDecayParallel]

theorem weightDecay_float_products_witness :
    ((13421773 / 134217728 : ℚ) ≠ 0) ∧
      roundFloat32 (1 - 13421773 / 134217728) = 15099494 / 16777216 ∧
      EntriesScaledFloat exampleNet.weights
        (weightDecay exampleNet 1 (13421773 / 134217728) 4 1).weights
        (roundFloat32 (1 - 13421773 / 134217728)) ∧
      EntriesScaledFloat exampleNet.weights
        (weightDecayParallel exampleNet (13421773 / 134217728)).weights
        (roundFloat32 (1 - 13421773 / 134217728)) ∧
      (weightDecay exampleNet 1 (13421773 / 134217728) 4 1).biases = exampleNet.biases ∧
      ((weightDecay exampleNet 1 (13421773 / 134217728) 4 1).weights.getD 0 default).getItem
        0 0 = 15099494 / 16777216 :=
  ⟨by decide!, by decide!,
    (weightDecay_float_products exampleNet 1 (13421773 / 134217728) 4 1 (by decide!)).2.2.1,
    (weightDecay_float_products exampleNet 1 (13421773 / 134217728) 4 1 (by decide!)).2.2.2.1,
    (weightDecay_float_products exampleNet 1 (13421773 / 134217728) 4 1
      (by decide!)).2.2.2.2.1,
    by decide!⟩

/-! ## The parallel pass: `copyPart` -/

/-- A loop that rewrites the elements of a vector at pairwise distinct indices. -/
theorem setLoop_getElem? {α : Type} (d : α) (f : Nat → α → α) :
    ∀ (is : List Nat) (l : List α), is.Nodup →
      (is.foldl (fun l i => l.set i (f i (l.getD i d))) l).length = l.length ∧
        ∀ k, (is.foldl (fun l i => l.set i (f i (l.getD i d))) l)[k]? =
          if k ∈ is then (l[k]?).map (f k) else l[k]? := by
  intro is
  induction is with
  | nil => intro l _; simp
  | cons i is ih =>
    intro l hnd
    obtain ⟨hi, hnd2⟩ := List.nodup_cons.mp hnd
    obtain ⟨ihl, ihk⟩ := ih (l.set i (f i (l.getD i d))) hnd2
    rw [List.foldl_cons]
    refine ⟨by rw [ihl, List.length_set], fun k => ?_⟩
    rw [ihk k]
    by_cases hki : k = i
    · subst hki
      rw [if_neg hi, if_pos (List.mem_cons_self _ _), List.getElem?_set, if_pos rfl]
      by_cases hlt : k < l.length
      · simp [hlt, List.getElem?_eq_getElem hlt]
      · simp [hlt, List.getElem?_eq_none (Nat.le_of_not_lt hlt)]
    · have hne : i ≠ k := fun e => hki e.symm
      rw [List.getElem?_set_ne hne]
      simp [List.mem_cons, hki]

theorem fillRow_getElem? (row : List ℚ) (v : Nat → ℚ) (c k : Nat) :
    (fillRow row v c)[k]? = if k < c then (row[k]?).map (fun _ => v k) else row[k]? := by
  have h := (setLoop_getElem? (0 : ℚ) (fun j _ => v j) (List.range c) row
    (List.nodup_range c)).2 k
  simp only [List.mem_range] at h
  exact h

/-- Copying a row of the right length over a row of the same length gives the copied row. -/
theorem fillRow_eq (row src : List ℚ) (c : Nat) (hrow : row.length = c)
    (hsrc : src.length = c) : fillRow row (fun j => src.getD j 0) c = src := by
  apply List.ext_getElem?
  intro k
  rw [fillRow_getElem?]
  by_cases hk : k < c
  · rw [if_pos hk, List.getElem?_eq_getElem (by omega), List.getD_eq_getElem?_getD,
      List.getElem?_eq_getElem (show k < src.length by omega)]
    rfl
  · rw [if_neg hk, List.getElem?_eq_none (by omega), List.getElem?_eq_none (by omega)]

/-- The inner loop of `copyPart` rewrites one row. -/
theorem setItemLoop_eq (i : Nat) (v : Nat → ℚ) (res : Matrix) :
    ∀ c, (List.range c).foldl (fun res j => res.setItem i j (v j)) res =
      ⟨res.numCols, res.rows.set i (fillRow (res.rows.getD i []) v c)⟩ := by
  intro c
  induction c with
  | zero =>
    have h : res.rows.set i (res.rows.getD i []) = res.rows := by
      apply List.ext_getElem?
      intro k
      rw [List.getElem?_set]
      by_cases hik : i = k
      · subst hik
        by_cases hlt : i < res.rows.length
        · simp [hlt, List.getElem?_eq_getElem hlt]
        · simp [hlt, List.getElem?_eq_none (Nat.le_of_not_lt hlt)]
      · simp [hik]
    simp only [List.range_zero, List.foldl_nil, fillRow, h]
  | succ c ih =>
    rw [List.range_succ, List.foldl_append, ih]
    simp only [List.foldl_cons, List.foldl_nil, Matrix.setItem]
    have hfill : fillRow (res.rows.getD i []) v (c + 1) =
        (fillRow (res.rows.getD i []) v c).set c (v c) := by
      simp only [fillRow, List.range_succ, List.foldl_append, List.foldl_cons, List.foldl_nil]
    by_cases hlt : i < res.rows.length
    · have hget : (res.rows.set i (fillRow (res.rows.getD i []) v c)).getD i [] =
          fillRow (res.rows.getD i []) v c := by
        rw [List.getD_eq_getElem?_getD, List.getElem?_set, if_pos rfl, if_pos hlt]
        rfl
      rw [hget, List.set_set, hfill]
    · have hle : res.rows.length ≤ i := Nat.le_of_not_lt hlt
      rw [List.set_eq_of_length_le hle, List.set_eq_of_length_le hle,
        List.set_eq_of_length_le hle]

/-- A loop that rewrites only the rows of a matrix. -/
theorem rowsLoop_eq (g : List (List ℚ) → Nat → List (List ℚ)) :
    ∀ (is : List Nat) (res : Matrix),
      is.foldl (fun res i => (⟨res.numCols, g res.rows i⟩ : Matrix)) res =
        ⟨res.numCols, is.foldl g res.rows⟩ := by
  intro is
  induction is with
  | nil => intro res; rfl
  | cons i is ih =>
    intro res
    rw [List.foldl_cons, ih]
    rfl

theorem copyPartLoop_rows (res part : Matrix) (startRow : Nat) :
    copyPartLoop res part startRow =
      ⟨res.numCols,
        (List.range' startRow part.getNumRows).foldl
          (fun rows i => rows.set i
            (fillRow (rows.getD i []) (fun j => part.getItem (i - startRow) j)
              part.getNumCols))
          res.rows⟩ := by
  unfold copyPartLoop
  have h : (fun (res : Matrix) (i : Nat) =>
      (List.range part.getNumCols).foldl
        (fun res j => res.setItem i j (part.getItem (i - startRow) j)) res) =
      fun res i => (⟨res.numCols, (fun rows i => rows.set i
        (fillRow (rows.getD i []) (fun j => part.getItem (i - startRow) j)
          part.getNumCols)) res.rows i⟩ : Matrix) := by
    funext res i
    exact setItemLoop_eq i _ res _
  rw [h]
  exact rowsLoop_eq (fun rows i => rows.set i
    (fillRow (rows.getD i []) (fun j => part.getItem (i - startRow) j) part.getNumCols))
    (List.range' startRow part.getNumRows) res

theorem copyPartLoop_numCols (res part : Matrix) (startRow : Nat) :
    (copyPartLoop res part startRow).numCols = res.numCols := by
  rw [copyPartLoop_rows]

/-- When the target has room for the part and both have rows of the common column count,
`copyPart` replaces the rows from `startRow` on by the rows of the part. -/
theorem copyPartLoop_eq_pasteRows (res part : Matrix) (startRow : Nat)
    (hcols : res.numCols = part.numCols)
    (hroom : startRow + part.rows.length ≤ res.rows.length)
    (hres : res.WellShaped) (hpart : part.WellShaped) :
    copyPartLoop res part startRow = pasteRows res part startRow := by
  rw [copyPartLoop_rows]
  unfold pasteRows
  congr 1
  apply List.ext_getElem?
  intro k
  rw [(setLoop_getElem? ([] : List ℚ)
    (fun i row => fillRow row (fun j => part.getItem (i - startRow) j) part.getNumCols)
    (List.range' startRow part.getNumRows) res.rows (List.nodup_range' _ _)).2 k]
  simp only [List.mem_range'_1, Matrix.getNumRows, Matrix.getNumCols]
  by_cases h1 : k < startRow
  · have hn : ¬ (startRow ≤ k ∧ k < startRow + part.rows.length) := by omega
    rw [if_neg hn, List.append_assoc, List.getElem?_append_left (by simp; omega),
      List.getElem?_take_of_lt h1]
  · by_cases h2 : k < startRow + part.rows.length
    · have hy : startRow ≤ k ∧ k < startRow + part.rows.length := by omega
      have hk : k < res.rows.length := by omega
      have hp : k - startRow < part.rows.length := by omega
      have htake : (res.rows.take startRow).length = startRow := by simp; omega
      rw [if_pos hy, List.append_assoc, List.getElem?_append_right (by omega), htake,
        List.getElem?_append_left hp, List.getElem?_eq_getElem hk,
        List.getElem?_eq_getElem hp, Option.map_some']
      congr 1
      have hsrc : (fun j => part.getItem (k - startRow) j) =
          fun j => (part.rows[k - startRow]).getD j 0 := by
        funext j
        simp only [Matrix.getItem, List.getD_eq_getElem?_getD, List.getElem?_eq_getElem hp,
          Option.getD_some]
      rw [hsrc]
      exact fillRow_eq _ _ _ ((hres _ (List.getElem_mem hk)).trans hcols)
        (hpart _ (List.getElem_mem hp))
    · have hn : ¬ (startRow ≤ k ∧ k < startRow + part.rows.length) := by omega
      have htake : (res.rows.take startRow).length = startRow := by simp; omega
      rw [if_neg hn, List.getElem?_append_right (by simp; omega), List.getElem?_drop]
      congr 1
      simp only [List.length_append, htake]
      omega

/-! ## The parallel pass: computations that work row by row -/

theorem zipWith_flatten {α β γ : Type} (g : α → β → γ) :
    ∀ (as : List (List α)) (bs : List (List β)), as.length = bs.length →
      (∀ k, (as.getD k []).length = (bs.getD k []).length) →
      List.zipWith g as.flatten bs.flatten = (List.zipWith (List.zipWith g) as bs).flatten := by
  intro as
  induction as with
  | nil => intro bs _ _; simp
  | cons a as ih =>
    intro bs hlen hk
    cases bs with
    | nil => simp at hlen
    | cons b bs =>
      have h0 : a.length = b.length := by simpa using hk 0
      simp only [List.flatten_cons, List.zipWith_cons_cons]
      rw [List.zipWith_append g a as.flatten b bs.flatten h0,
        ih bs (by simpa using hlen) (fun k => by simpa using hk (k + 1))]

theorem zipWith_zipWith_map {α β γ δ ε : Type} (f : γ → δ → ε) (h : α → β → γ) (q : α → δ) :
    ∀ (as : List α) (bs : List β),
      List.zipWith f (List.zipWith h as bs) (as.map q) =
        List.zipWith (fun a b => f (h a b) (q a)) as bs := by
  intro as
  induction as with
  | nil => intro bs; simp
  | cons a as ih =>
    intro bs
    cases bs with
    | nil => simp
    | cons b bs => simp [ih bs]

theorem layerOutput_congr (net1 net2 : Network) (h : SameParams net1 net2) (d : Matrix) :
    ∀ i, layerOutput net2 d i = layerOutput net1 d i := by
  obtain ⟨h1, h2, h3, _⟩ := h
  intro i
  induction i with
  | zero => rfl
  | succ i ih => simp only [layerOutput, Network.layer, h1, h2, h3, ih]

theorem layerDeriv_congr (net1 net2 : Network) (h : SameParams net1 net2) (d : Matrix)
    (i : Nat) : layerDeriv net2 d i = layerDeriv net1 d i := by
  have ho := layerOutput_congr net1 net2 h d (i + 1)
  obtain ⟨h1, h2, _, _⟩ := h
  simp only [layerDeriv, Network.layer, h1, h2, ho]

/-- Every activation buffer is the input mapped row by row, with rows of the layer width. -/
theorem layerOutput_rowwise (net : Network) (hwf : net.WellFormed) :
    ∀ i, i ≤ net.networkConfig.layersConfig.length - 1 →
      ∃ F : List ℚ → List ℚ, (1 ≤ i → ∀ r, (F r).length = net.width i) ∧
        ∀ d : Matrix, layerOutput net d i =
          ⟨if i = 0 then d.numCols else net.width i, d.rows.map F⟩ := by
  obtain ⟨hL, hW, _, hB, _, hact, _, _⟩ := hwf
  intro i
  induction i with
  | zero =>
    intro _
    exact ⟨id, fun h => absurd h (by decide), fun d => by simp [layerOutput]⟩
  | succ i ih =>
    intro hi
    obtain ⟨F, _, hF⟩ := ih (by omega)
    obtain ⟨f, hf, hfm⟩ := hact (i + 1) (by omega) hi
    refine ⟨fun r => f (List.zipWith (fun a b => a + b)
      ((List.range (net.weights.getD i default).numCols).map
        (fun j => Matrix.dot (F r) ((net.weights.getD i default).col j)))
      (net.biases.getD i [])), fun _ r => ?_, fun d => ?_⟩
    · rw [hf, List.length_zipWith, List.length_map, List.length_range, hB i (by omega)]
      simp [Network.width, Matrix.getNumCols]
    · simp only [layerOutput, hF d, hfm, Matrix.matmul, Matrix.addBias, List.map_map,
        Network.width, Matrix.getNumCols]
      simp

/-- Every stored derivative buffer is the input mapped row by row. -/
theorem layerDeriv_rowwise (net : Network) (hwf : net.WellFormed) :
    ∀ i, i + 2 ≤ net.networkConfig.layersConfig.length - 1 →
      ∃ F : List ℚ → List ℚ, (∀ r, (F r).length = net.width (i + 1)) ∧
        ∀ d : Matrix, layerDeriv net d i = ⟨net.width (i + 1), d.rows.map F⟩ := by
  intro i hi
  obtain ⟨F, hFl, hF⟩ := layerOutput_rowwise net hwf (i + 1) (by omega)
  obtain ⟨hL, hW, _, _, _, _, hder, _⟩ := hwf
  obtain ⟨f, hf, hfm⟩ := hder (i + 1) (by omega) (by omega)
  refine ⟨fun r => f (F r), fun r => by rw [hf, hFl (by omega)], fun d => ?_⟩
  have hne : ¬ (i = net.weights.length - 1) := by omega
  simp only [layerDeriv, if_neg hne, hF d, hfm, List.map_map]
  simp

theorem activationsOf_getD (net : Network) (d : Matrix) (i : Nat)
    (hi : i ≤ net.weights.length) :
    (activationsOf net d).getD i default = layerOutput net d i := by
  unfold activationsOf
  rw [List.getD_eq_getElem?_getD, List.getElem?_map, List.getElem?_range (by omega)]
  rfl

theorem derivativesOf_getD (net : Network) (d : Matrix) (i : Nat)
    (hi : i < net.weights.length) :
    (derivativesOf net d).getD i default = layerDeriv net d i := by
  unfold derivativesOf
  rw [List.getD_eq_getElem?_getD, List.getElem?_map, List.getElem?_range hi]
  rfl

/-- Every gradient matrix is computed row by row from the rows of the batch and their
labels, with rows of the layer width, whatever the gradient vector held before. -/
theorem backGradients_rowwise (net : Network) (hwf : net.WellFormed) :
    ∀ j, j ≤ net.networkConfig.layersConfig.length - 2 →
      ∃ H : List ℚ → Nat → List ℚ,
        (∀ r l, (H r l).length = net.width (net.networkConfig.layersConfig.length - 1 - j)) ∧
        ∀ (d : Matrix) (lab : List Nat) (dW0 : List Matrix),
          net.networkConfig.layersConfig.length - 2 < dW0.length →
          (backGradients net (activationsOf net d) (derivativesOf net d) dW0
              lab).deltaWeights.getD (net.networkConfig.layersConfig.length - 2 - j) default =
            ⟨net.width (net.networkConfig.layersConfig.length - 1 - j),
              List.zipWith H d.rows lab⟩ := by
  have hwf2 := hwf
  obtain ⟨hL, hW, _, _, hWt, _, _, _⟩ := hwf2
  intro j
  induction j with
  | zero =>
    intro _
    obtain ⟨F, hFl, hF⟩ := layerOutput_rowwise net hwf
      (net.networkConfig.layersConfig.length - 1) (Nat.le_refl _)
    have hne : ¬ (net.networkConfig.layersConfig.length - 1 = 0) := by omega
    refine ⟨fun r l => (List.range (F r).length).map
      (fun c => (F r).getD c 0 - if c = l then 1 else 0), fun r l => ?_, fun d lab dW0 hlen => ?_⟩
    · rw [List.length_map, List.length_range, hFl (by omega)]
      rfl
    · obtain ⟨_, htop, _⟩ := backGradients_spec net (activationsOf net d)
        (derivativesOf net d) dW0 lab hlen
      rw [Nat.sub_zero, Nat.sub_zero, List.getD_eq_getElem?_getD, htop, Option.getD_some,
        activationsOf_getD net d _ (by omega), hF d, if_neg hne]
      simp only [CrossentropyFunction.costDelta, List.zipWith_map_left]
  | succ j ih =>
    intro hj
    obtain ⟨H, hHl, hH⟩ := ih (by omega)
    obtain ⟨i, hi⟩ : ∃ i, i = net.networkConfig.layersConfig.length - 2 - j := ⟨_, rfl⟩
    have e1 : net.networkConfig.layersConfig.length - 2 - (j + 1) = i - 1 := by omega
    have e2 : net.networkConfig.layersConfig.length - 1 - (j + 1) = i := by omega
    have e3 : net.networkConfig.layersConfig.length - 1 - j = i + 1 := by omega
    rw [← hi, e3] at hH
    rw [e3] at hHl
    rw [e1, e2]
    obtain ⟨F, hFl, hF⟩ := layerDeriv_rowwise net hwf (i - 1) (by omega)
    have e4 : i - 1 + 1 = i := by omega
    rw [e4] at hFl hF
    have hcols : (net.weightsTransposed.getD i default).numCols = net.width i := by
      have h := hWt i (by omega) (by omega)
      have e5 : net.width i = (net.weights.getD (i - 1) default).getNumCols := by
        conv_lhs => rw [← e4]
        rfl
      rw [e5, ← h]
      rfl
    refine ⟨fun r l => List.zipWith (fun x y => x * y)
      ((List.range (net.weightsTransposed.getD i default).numCols).map
        (fun c => Matrix.dot (H r l) ((net.weightsTransposed.getD i default).col c)))
      (F r), fun r l => ?_, fun d lab dW0 hlen => ?_⟩
    · rw [List.length_zipWith, List.length_map, List.length_range, hFl, hcols]
      simp
    · obtain ⟨_, _, hrec⟩ := backGradients_spec net (activationsOf net d)
        (derivativesOf net d) dW0 lab hlen
      rw [List.getD_eq_getElem?_getD, hrec i (by omega) (by omega), Option.getD_some,
        hH d lab dW0 hlen, derivativesOf_getD net d _ (by omega), hF d]
      simp only [Matrix.matmul, Matrix.hadamard, List.map_zipWith, hcols]
      rw [zipWith_zipWith_map]

/-! ## The parallel pass: one worker -/

theorem bind_ok_eq {α β : Type} (a : α) (f : α → Except NetworkError β) :
    (Except.ok a : Except NetworkError α).bind f = f a := rfl

theorem map_ok_eq {α β : Type} (a : α) (f : α → β) :
    (Except.ok a : Except NetworkError α).map f = Except.ok (f a) := rfl

theorem foldExcept_append {σ α : Type} (f : σ → α → Except NetworkError σ) :
    ∀ (l1 l2 : List α) (s : σ),
      foldExcept f s (l1 ++ l2) = (foldExcept f s l1).bind (fun s2 => foldExcept f s2 l2) := by
  intro l1
  induction l1 with
  | nil => intro l2 s; rfl
  | cons a l1 ih =>
    intro l2 s
    simp only [List.cons_append, foldExcept]
    cases f s a with
    | error e => rfl
    | ok s2 => exact ih l2 s2

theorem copyPartAt_ok (buf : List Matrix) (i : Nat) (part : Matrix) (startRow : Nat)
    (h : (buf.getD i default).numCols = part.numCols) :
    copyPartAt buf i part startRow =
      Except.ok (buf.set i (copyPartLoop (buf.getD i default) part startRow)) := by
  have h2 : ¬ ((buf.getD i default).getNumCols ≠ part.getNumCols) := not_not.mpr h
  unfold copyPartAt copyPart
  rw [if_neg h2]
  rfl

theorem pasteLoop_succ (buf : List Matrix) (parts : Nat → Matrix) (startRow m : Nat) :
    pasteLoop buf parts startRow (m + 1) =
      (pasteLoop buf parts startRow m).set m
        (copyPartLoop ((pasteLoop buf parts startRow m).getD m default) (parts m) startRow) := by
  simp only [pasteLoop, List.range_succ, List.foldl_append, List.foldl_cons, List.foldl_nil]

theorem pasteLoop_getElem? (buf : List Matrix) (parts : Nat → Matrix) (startRow m k : Nat) :
    (pasteLoop buf parts startRow m)[k]? =
      if k < m then (buf[k]?).map (fun b => copyPartLoop b (parts k) startRow) else buf[k]? := by
  have h := (setLoop_getElem? (default : Matrix)
    (fun i b => copyPartLoop b (parts i) startRow) (List.range m) buf (List.nodup_range m)).2 k
  simp only [List.mem_range] at h
  exact h

theorem pasteLoop_length (buf : List Matrix) (parts : Nat → Matrix) (startRow m : Nat) :
    (pasteLoop buf parts startRow m).length = buf.length :=
  (setLoop_getElem? (default : Matrix)
    (fun i b => copyPartLoop b (parts i) startRow) (List.range m) buf (List.nodup_range m)).1

theorem pasteLoop_getD_of_ge (buf : List Matrix) (parts : Nat → Matrix) (startRow m k : Nat)
    (h : m ≤ k) : (pasteLoop buf parts startRow m).getD k default = buf.getD k default := by
  rw [List.getD_eq_getElem?_getD, pasteLoop_getElem?, if_neg (by omega),
    ← List.getD_eq_getElem?_getD]

theorem pasteLoop_getD_of_lt (buf : List Matrix) (parts : Nat → Matrix) (startRow m k : Nat)
    (h : k < m) (hk : k < buf.length) :
    (pasteLoop buf parts startRow m).getD k default =
      copyPartLoop (buf.getD k default) (parts k) startRow := by
  rw [List.getD_eq_getElem?_getD, pasteLoop_getElem?, if_pos h, List.getD_eq_getElem?_getD,
    List.getElem?_eq_getElem hk]
  rfl

theorem pasteLoop_numCols (buf : List Matrix) (parts : Nat → Matrix) (startRow m k : Nat) :
    ((pasteLoop buf parts startRow m).getD k default).numCols =
      (buf.getD k default).numCols := by
  by_cases h : k < m
  · by_cases hk : k < buf.length
    · rw [pasteLoop_getD_of_lt buf parts startRow m k h hk, copyPartLoop_numCols]
    · rw [List.getD_eq_getElem?_getD, List.getD_eq_getElem?_getD, pasteLoop_getElem?,
        List.getElem?_eq_none (Nat.le_of_not_lt hk)]
      simp
  · rw [pasteLoop_getD_of_ge buf parts startRow m k (Nat.le_of_not_lt h)]

/-- The forward part of a worker, run through the first `m` iterations of its layer loop. -/
theorem workerForward_loop (net : Network) (d : Matrix) (startRow : Nat)
    (AR ADR : List Matrix) (hw : 1 ≤ net.weights.length)
    (hAR : ∀ i, i ≤ net.weights.length →
      (AR.getD i default).numCols = (layerOutput net d i).numCols)
    (hADR : ∀ i, i + 1 < net.weights.length →
      (ADR.getD i default).numCols = (layerDeriv net d i).numCols) :
    ∀ m, m ≤ net.weights.length - 1 →
      (workerForwardInit net d startRow AR ADR).bind
          (fun s => foldExcept (workerForwardBody net startRow) s (List.range' 1 m)) =
        Except.ok ⟨layerOutput net d (m + 1),
          (List.range (m + 2)).map (layerOutput net d),
          (List.range (m + 1)).map (layerDeriv net d),
          pasteLoop AR (layerOutput net d) startRow (m + 2),
          pasteLoop ADR (layerDeriv net d) startRow (min (m + 1) (net.weights.length - 1))⟩ := by
  intro m
  induction m with
  | zero =>
    intro _
    have hAR2 : pasteLoop AR (layerOutput net d) startRow 2 =
        (AR.set 0 (copyPartLoop (AR.getD 0 default) d startRow)).set 1
          (copyPartLoop ((AR.set 0 (copyPartLoop (AR.getD 0 default) d startRow)).getD 1
            default) (layerOutput net d 1) startRow) := by
      rw [pasteLoop_succ, pasteLoop_succ]
      rfl
    have h1 : ((AR.set 0 (copyPartLoop (AR.getD 0 default) d startRow)).getD 1
        default).numCols = (layerOutput net d 1).numCols := by
      rw [List.getD_eq_getElem?_getD, List.getElem?_set_ne (by decide),
        ← List.getD_eq_getElem?_getD]
      exact hAR 1 hw
    simp only [List.range'_zero, foldExcept]
    unfold workerForwardInit
    simp only []
    rw [copyPartAt_ok AR 0 d startRow (hAR 0 (Nat.zero_le _)), bind_ok_eq]
    have hA1 : (net.layer 1).activationFunction
        ((d.matmul (net.weights.getD 0 default)).addBias (net.biases.getD 0 [])) =
        layerOutput net d 1 := rfl
    rw [hA1, copyPartAt_ok _ 1 _ startRow h1, bind_ok_eq, ← hAR2]
    by_cases hn : net.weights.length = 1
    · rw [if_pos hn, bind_ok_eq]
      have hmin : min (0 + 1) (net.weights.length - 1) = 0 := by omega
      have hd : layerDeriv net d 0 = Matrix.empty := by simp [layerDeriv, hn]
      rw [hmin]
      simp only [List.range_succ, List.range_zero, List.nil_append, List.map_cons, List.map_nil,
        List.cons_append, hd]
      rfl
    · rw [if_neg hn]
      have hmin : min (0 + 1) (net.weights.length - 1) = 1 := by omega
      have hne : ¬ (0 = net.weights.length - 1) := by omega
      have hd : (net.layer 1).activationDerivFunction (layerOutput net d 1) =
          layerDeriv net d 0 := by
        simp [layerDeriv, hne]
      rw [hd, copyPartAt_ok ADR 0 _ startRow (hADR 0 (by omega)), map_ok_eq, bind_ok_eq, hmin,
        pasteLoop_succ]
      simp only [List.range_succ, List.range_zero, List.nil_append, List.map_cons, List.map_nil,
        List.cons_append]
      rfl
  | succ m ih =>
    intro hm
    have e1 : (1 : Nat) + 1 * m = m + 1 := by omega
    rw [List.range'_concat, e1]
    have hsplit : ∀ s, foldExcept (workerForwardBody net startRow) s
        (List.range' 1 m ++ [m + 1]) =
        (foldExcept (workerForwardBody net startRow) s (List.range' 1 m)).bind
          (fun s2 => foldExcept (workerForwardBody net startRow) s2 [m + 1]) :=
      fun s => foldExcept_append _ _ _ s
    simp only [hsplit]
    have hassoc : ∀ (x : Except NetworkError WorkerForward)
        (f g : WorkerForward → Except NetworkError WorkerForward),
        x.bind (fun s => (f s).bind g) = (x.bind f).bind g := by
      intro x f g
      cases x <;> rfl
    rw [hassoc, ih (by omega), bind_ok_eq]
    have hmin : min (m + 1) (net.weights.length - 1) = m + 1 := by omega
    rw [hmin]
    simp only [foldExcept]
    unfold workerForwardBody
    simp only []
    have hA : (net.layer (m + 1 + 1)).activationFunction
        (((layerOutput net d (m + 1)).matmul (net.weights.getD (m + 1) default)).addBias
          (net.biases.getD (m + 1) [])) = layerOutput net d (m + 1 + 1) := rfl
    rw [hA]
    have hc : ((pasteLoop AR (layerOutput net d) startRow (m + 2)).getD (m + 1 + 1)
        default).numCols = (layerOutput net d (m + 1 + 1)).numCols := by
      rw [pasteLoop_numCols]
      exact hAR _ (by omega)
    rw [copyPartAt_ok _ (m + 1 + 1) _ startRow hc, bind_ok_eq, ← pasteLoop_succ]
    by_cases hlast : m + 1 = net.weights.length - 1
    · rw [if_pos hlast]
      have hmin2 : min (m + 1 + 1) (net.weights.length - 1) = m + 1 := by omega
      have hd : layerDeriv net d (m + 1) = Matrix.empty := by simp [layerDeriv, hlast]
      rw [hmin2]
      simp only [List.range_succ (m + 1 + 1), List.range_succ (m + 1), List.map_append,
        List.map_cons, List.map_nil, hd]
    · rw [if_neg hlast]
      have hmin2 : min (m + 1 + 1) (net.weights.length - 1) = m + 1 + 1 := by omega
      have hd : (net.layer (m + 1 + 1)).activationDerivFunction
          (layerOutput net d (m + 1 + 1)) = layerDeriv net d (m + 1) := by
        simp [layerDeriv, hlast]
      have hc2 : ((pasteLoop ADR (layerDeriv net d) startRow (m + 1)).getD (m + 1)
          default).numCols = (layerDeriv net d (m + 1)).numCols := by
        rw [pasteLoop_numCols]
        exact hADR _ (by omega)
      rw [hd, copyPartAt_ok _ (m + 1) _ startRow hc2, map_ok_eq, hmin2, ← pasteLoop_succ]
      simp only [List.range_succ (m + 1 + 1), List.range_succ (m + 1), List.map_append,
        List.map_cons, List.map_nil]

theorem pasteLoop_set (dW : List Matrix) (P : Nat → Matrix) (startRow n : Nat) :
    pasteLoop (dW.set n (copyPartLoop (dW.getD n default) (P n) startRow)) P startRow n =
      pasteLoop dW P startRow (n + 1) := by
  apply List.ext_getElem?
  intro k
  rw [pasteLoop_getElem?, pasteLoop_getElem?]
  by_cases h1 : k < n
  · rw [if_pos h1, if_pos (by omega), List.getElem?_set_ne (by omega)]
  · rw [if_neg h1]
    by_cases h2 : k = n
    · subst h2
      rw [if_pos (Nat.lt_succ_self k), List.getElem?_set, if_pos rfl]
      by_cases hlt : k < dW.length
      · rw [if_pos hlt, List.getD_eq_getElem?_getD, List.getElem?_eq_getElem hlt]
        rfl
      · rw [if_neg hlt, List.getElem?_eq_none (Nat.le_of_not_lt hlt)]
        rfl
    · rw [if_neg (by omega), List.getElem?_set_ne (by omega)]

/-- The gradient loop of a worker: its own vector evolves as in the serial loop, and every
gradient matrix it writes is copied into the shared vector. -/
theorem workerBack_loop (net : Network) (adr : List Matrix) (startRow : Nat) :
    ∀ (n : Nat) (st : BackState) (dW : List Matrix), st.lastDelta = n →
      n < st.deltaWeights.length →
      (∀ i, 1 ≤ i → i ≤ n →
        (dW.getD (i - 1) default).numCols = (net.weightsTransposed.getD i default).numCols) →
      foldExcept (workerBackBody net adr startRow) ⟨st.deltaWeights, st.lastDelta, dW⟩
          (List.range' 1 n).reverse =
        Except.ok
          ⟨((List.range' 1 n).reverse.foldl (backBody net adr) st).deltaWeights,
            ((List.range' 1 n).reverse.foldl (backBody net adr) st).lastDelta,
            pasteLoop dW
              (fun j => ((List.range' 1 n).reverse.foldl (backBody net adr)
                st).deltaWeights.getD j default) startRow n⟩ := by
  intro n
  induction n with
  | zero =>
    intro st dW _ _ _
    rfl
  | succ n ih =>
    intro st dW hp hlen hcols
    have hlist : (List.range' 1 (n + 1)).reverse = (n + 1) :: (List.range' 1 n).reverse := by
      rw [List.range'_concat, List.reverse_append]
      simp [Nat.add_comm]
    rw [hlist, List.foldl_cons]
    simp only [foldExcept]
    have hst1 : backBody net adr st (n + 1) =
        ⟨st.deltaWeights.set n
          (((st.deltaWeights.getD st.lastDelta default).matmul
            (net.weightsTransposed.getD (n + 1) default)).hadamard (adr.getD n default)), n⟩ :=
      rfl
    have hlen1 : (backBody net adr st (n + 1)).deltaWeights.length = st.deltaWeights.length := by
      rw [hst1]
      exact List.length_set _ _ _
    have hn : n < st.deltaWeights.length := by omega
    have hM : (backBody net adr st (n + 1)).deltaWeights.getD n default =
        ((st.deltaWeights.getD st.lastDelta default).matmul
          (net.weightsTransposed.getD (n + 1) default)).hadamard (adr.getD n default) := by
      rw [hst1, List.getD_eq_getElem?_getD, List.getElem?_set, if_pos rfl, if_pos hn]
      rfl
    have hbody : workerBackBody net adr startRow ⟨st.deltaWeights, st.lastDelta, dW⟩ (n + 1) =
        (copyPartAt dW n ((backBody net adr st (n + 1)).deltaWeights.getD n default)
          startRow).map
          (fun deltaWeights =>
            (⟨(backBody net adr st (n + 1)).deltaWeights,
              (backBody net adr st (n + 1)).lastDelta, deltaWeights⟩ : WorkerBack)) := rfl
    have hc : (dW.getD n default).numCols =
        ((backBody net adr st (n + 1)).deltaWeights.getD n default).numCols := by
      rw [hM]
      exact hcols (n + 1) (by omega) (Nat.le_refl _)
    rw [hbody, copyPartAt_ok dW n _ startRow hc, map_ok_eq]
    simp only []
    have hcols1 : ∀ i, 1 ≤ i → i ≤ n →
        ((dW.set n (copyPartLoop (dW.getD n default)
          ((backBody net adr st (n + 1)).deltaWeights.getD n default) startRow)).getD (i - 1)
            default).numCols = (net.weightsTransposed.getD i default).numCols := by
      intro i h1 h2
      rw [List.getD_eq_getElem?_getD, List.getElem?_set_ne (by omega),
        ← List.getD_eq_getElem?_getD]
      exact hcols i h1 (by omega)
    rw [ih (backBody net adr st (n + 1)) _ rfl (by rw [hlen1]; exact hn) hcols1]
    have hkeep : ((List.range' 1 n).reverse.foldl (backBody net adr)
        (backBody net adr st (n + 1))).deltaWeights.getD n default =
        (backBody net adr st (n + 1)).deltaWeights.getD n default := by
      obtain ⟨_, hj, _⟩ := backLoop_spec net adr n (backBody net adr st (n + 1)) rfl
        (by rw [hlen1]; exact hn)
      rw [List.getD_eq_getElem?_getD, hj n (Nat.le_refl n), ← List.getD_eq_getElem?_getD]
    rw [← hkeep]
    rw [pasteLoop_set dW (fun j => ((List.range' 1 n).reverse.foldl (backBody net adr)
        (backBody net adr st (n + 1))).deltaWeights.getD j default) startRow n]

theorem bind_bind_eq {α β γ : Type} (x : Except NetworkError α)
    (f : α → Except NetworkError β) (g : β → Except NetworkError γ) :
    x.bind (fun s => (f s).bind g) = (x.bind f).bind g := by
  cases x <;> rfl

/-- The forward part of a worker succeeds when the column counts of the shared buffers fit,
leaves the serial forward results in the worker's vectors and copies them into the shared
ones. -/
theorem workerForward_ok (net : Network) (d : Matrix) (startRow : Nat)
    (AR ADR : List Matrix) (hw : 1 ≤ net.weights.length)
    (hAR : ∀ i, i ≤ net.weights.length →
      (AR.getD i default).numCols = (layerOutput net d i).numCols)
    (hADR : ∀ i, i + 1 < net.weights.length →
      (ADR.getD i default).numCols = (layerDeriv net d i).numCols) :
    workerForward net d startRow AR ADR =
      Except.ok ⟨layerOutput net d net.weights.length, activationsOf net d,
        derivativesOf net d,
        pasteLoop AR (layerOutput net d) startRow (net.weights.length + 1),
        pasteLoop ADR (layerDeriv net d) startRow (net.weights.length - 1)⟩ := by
  unfold workerForward
  rw [workerForward_loop net d startRow AR ADR hw hAR hADR _ (Nat.le_refl _)]
  have e1 : net.weights.length - 1 + 1 = net.weights.length := by omega
  have e2 : net.weights.length - 1 + 2 = net.weights.length + 1 := by omega
  have e3 : min net.weights.length (net.weights.length - 1) = net.weights.length - 1 := by
    omega
  rw [e1, e2, e3]
  rfl

/-- The gradient part of a worker succeeds when the column counts of the shared gradient
buffers fit, leaves the serial gradients in the worker's vector and copies them into the
shared one. -/
theorem workerGradients_ok (net : Network) (pAR pADR : List Matrix) (lab : List Nat)
    (startRow : Nat) (pDW0 dW : List Matrix)
    (hL : 2 ≤ net.networkConfig.layersConfig.length)
    (hsoft : (net.layer (net.networkConfig.layersConfig.length - 1)).activationFunctionType =
      ActivationFunction.SoftMax)
    (hlen : net.networkConfig.layersConfig.length - 2 < pDW0.length)
    (htop : (dW.getD (net.networkConfig.layersConfig.length - 2) default).numCols =
      (pAR.getD (net.networkConfig.layersConfig.length - 1) default).numCols)
    (hcols : ∀ i, 1 ≤ i → i ≤ net.networkConfig.layersConfig.length - 2 →
      (dW.getD (i - 1) default).numCols = (net.weightsTransposed.getD i default).numCols) :
    workerGradients net pAR pADR lab startRow pDW0 dW =
      Except.ok
        ⟨(backGradients net pAR pADR pDW0 lab).deltaWeights,
          (backGradients net pAR pADR pDW0 lab).lastDelta,
          pasteLoop dW (fun j => (backGradients net pAR pADR pDW0 lab).deltaWeights.getD j
            default) startRow (net.networkConfig.layersConfig.length - 1)⟩ := by
  have hs : ¬ ((net.networkConfig.layersConfig.getD
      (net.networkConfig.layersConfig.length - 1) default).activationFunctionType ≠
        ActivationFunction.SoftMax) := not_not.mpr hsoft
  have hget : (pDW0.set (net.networkConfig.layersConfig.length - 2)
      (CrossentropyFunction.costDelta
        (pAR.getD (net.networkConfig.layersConfig.length - 1) default) lab)).getD
        (net.networkConfig.layersConfig.length - 2) default =
      CrossentropyFunction.costDelta
        (pAR.getD (net.networkConfig.layersConfig.length - 1) default) lab := by
    rw [List.getD_eq_getElem?_getD, List.getElem?_set, if_pos rfl, if_pos hlen]
    rfl
  obtain ⟨_, hkeep, _⟩ := backLoop_spec net pADR (net.networkConfig.layersConfig.length - 2)
    ⟨pDW0.set (net.networkConfig.layersConfig.length - 2)
        (CrossentropyFunction.costDelta
          (pAR.getD (net.networkConfig.layersConfig.length - 1) default) lab),
      net.networkConfig.layersConfig.length - 2⟩ rfl (by simpa using hlen)
  have hkeep2 : (backGradients net pAR pADR pDW0 lab).deltaWeights.getD
      (net.networkConfig.layersConfig.length - 2) default =
      CrossentropyFunction.costDelta
        (pAR.getD (net.networkConfig.layersConfig.length - 1) default) lab := by
    unfold backGradients
    rw [List.getD_eq_getElem?_getD, hkeep _ (Nat.le_refl _), ← List.getD_eq_getElem?_getD]
    exact hget
  unfold workerGradients
  simp only []
  rw [if_neg hs, hget, copyPartAt_ok dW _ (CrossentropyFunction.costDelta
    (pAR.getD (net.networkConfig.layersConfig.length - 1) default) lab) startRow htop,
    bind_ok_eq]
  have hcols1 : ∀ i, 1 ≤ i → i ≤ net.networkConfig.layersConfig.length - 2 →
      ((dW.set (net.networkConfig.layersConfig.length - 2)
        (copyPartLoop (dW.getD (net.networkConfig.layersConfig.length - 2) default)
          (CrossentropyFunction.costDelta
            (pAR.getD (net.networkConfig.layersConfig.length - 1) default) lab)
          startRow)).getD (i - 1) default).numCols =
        (net.weightsTransposed.getD i default).numCols := by
    intro i h1 h2
    rw [List.getD_eq_getElem?_getD, List.getElem?_set_ne (by omega),
      ← List.getD_eq_getElem?_getD]
    exact hcols i h1 h2
  have hloop := workerBack_loop net pADR startRow (net.networkConfig.layersConfig.length - 2)
    ⟨pDW0.set (net.networkConfig.layersConfig.length - 2)
        (CrossentropyFunction.costDelta
          (pAR.getD (net.networkConfig.layersConfig.length - 1) default) lab),
      net.networkConfig.layersConfig.length - 2⟩ _ rfl (by simpa using hlen) hcols1
  have hR : (List.range' 1 (net.networkConfig.layersConfig.length - 2)).reverse.foldl
      (backBody net pADR)
      ⟨pDW0.set (net.networkConfig.layersConfig.length - 2)
          (CrossentropyFunction.costDelta
            (pAR.getD (net.networkConfig.layersConfig.length - 1) default) lab),
        net.networkConfig.layersConfig.length - 2⟩ = backGradients net pAR pADR pDW0 lab := rfl
  have e : net.networkConfig.layersConfig.length - 2 + 1 =
      net.networkConfig.layersConfig.length - 1 := by omega
  have hp := pasteLoop_set dW
    (fun j => (backGradients net pAR pADR pDW0 lab).deltaWeights.getD j default) startRow
    (net.networkConfig.layersConfig.length - 2)
  simp only [] at hp
  rw [hkeep2, e] at hp
  rw [hloop, hR, hp]

/-- A worker that has a sub-batch succeeds when the column counts of the shared buffers fit;
its effect on every buffer is spelled out. -/
theorem workerBody_ok (getStats : Matrix → List Nat → Stats) (data : List Matrix)
    (labels : List (List Nat)) (startRows : List Nat) (st : ParallelState) (k : Nat)
    (hk : k < data.length) (hdata : data.length < 2 ^ 64)
    (hL : 2 ≤ st.net.networkConfig.layersConfig.length)
    (hW : st.net.weights.length = st.net.networkConfig.layersConfig.length - 1)
    (hsoft : (st.net.layer
      (st.net.networkConfig.layersConfig.length - 1)).activationFunctionType =
        ActivationFunction.SoftMax)
    (hAR : ∀ i, i ≤ st.net.weights.length →
      (st.net.activationResults.getD i default).numCols =
        (layerOutput st.net (data.getD k default) i).numCols)
    (hADR : ∀ i, i + 1 < st.net.weights.length →
      (st.net.activationDerivResults.getD i default).numCols =
        (layerDeriv st.net (data.getD k default) i).numCols)
    (hlen : st.net.networkConfig.layersConfig.length - 2 <
      (st.net.parallelDeltaWeights.getD k []).length)
    (htop : (st.net.deltaWeights.getD (st.net.networkConfig.layersConfig.length - 2)
        default).numCols =
      ((activationsOf st.net (data.getD k default)).getD
        (st.net.networkConfig.layersConfig.length - 1) default).numCols)
    (hcols : ∀ i, 1 ≤ i → i ≤ st.net.networkConfig.layersConfig.length - 2 →
      (st.net.deltaWeights.getD (i - 1) default).numCols =
        (st.net.weightsTransposed.getD i default).numCols) :
    workerBody getStats data labels startRows st k =
      Except.ok
        { net :=
            { st.net with
              activationResults := pasteLoop st.net.activationResults
                (layerOutput st.net (data.getD k default)) (startRows.getD k 0)
                (st.net.weights.length + 1)
              activationDerivResults := pasteLoop st.net.activationDerivResults
                (layerDeriv st.net (data.getD k default)) (startRows.getD k 0)
                (st.net.weights.length - 1)
              deltaWeights := pasteLoop st.net.deltaWeights
                (fun j => (backGradients st.net (activationsOf st.net (data.getD k default))
                  (derivativesOf st.net (data.getD k default))
                  (st.net.parallelDeltaWeights.getD k [])
                  (labels.getD k [])).deltaWeights.getD j default)
                (startRows.getD k 0) (st.net.networkConfig.layersConfig.length - 1)
              deltaBiases :=
                ((List.range (st.net.networkConfig.layersConfig.length - 1)).foldl
                  (workerBiasBody
                    (backGradients st.net (activationsOf st.net (data.getD k default))
                      (derivativesOf st.net (data.getD k default))
                      (st.net.parallelDeltaWeights.getD k [])
                      (labels.getD k [])).deltaWeights
                    (data.getD k default).getNumRows)
                  (st.net.parallelDeltaBiases.getD k [], st.net.deltaBiases)).2
              parallelActivationResults :=
                st.net.parallelActivationResults.set k
                  (activationsOf st.net (data.getD k default))
              parallelActivationDerivResults :=
                st.net.parallelActivationDerivResults.set k
                  (derivativesOf st.net (data.getD k default))
              parallelDeltaWeights :=
                st.net.parallelDeltaWeights.set k
                  (backGradients st.net (activationsOf st.net (data.getD k default))
                    (derivativesOf st.net (data.getD k default))
                    (st.net.parallelDeltaWeights.getD k [])
                    (labels.getD k [])).deltaWeights
              parallelDeltaBiases :=
                st.net.parallelDeltaBiases.set k
                  ((List.range (st.net.networkConfig.layersConfig.length - 1)).foldl
                    (workerBiasBody
                      (backGradients st.net (activationsOf st.net (data.getD k default))
                        (derivativesOf st.net (data.getD k default))
                        (st.net.parallelDeltaWeights.getD k [])
                        (labels.getD k [])).deltaWeights
                      (data.getD k default).getNumRows)
                    (st.net.parallelDeltaBiases.getD k [], st.net.deltaBiases)).1 }
          acc := st.acc +
            (getStats (layerOutput st.net (data.getD k default) st.net.weights.length)
              (labels.getD k [])).accuracy
          ce := st.ce +
            (getStats (layerOutput st.net (data.getD k default) st.net.weights.length)
              (labels.getD k [])).crossEntropy } := by
  have hskip : ¬ ((data.length + 2 ^ 64 - 1) % 2 ^ 64 < k) := by omega
  unfold workerBody
  rw [if_neg hskip]
  simp only []
  rw [workerForward_ok st.net (data.getD k default) (startRows.getD k 0) _ _ (by omega) hAR
    hADR, bind_ok_eq]
  simp only []
  rw [workerGradients_ok st.net _ _ (labels.getD k []) (startRows.getD k 0) _ _ hL hsoft hlen
    htop hcols, map_ok_eq]

/-! ## The parallel pass: row offsets and buffer allocation -/

theorem rowsBefore_succ (data : List Matrix) (k : Nat) (hk : k < data.length) :
    rowsBefore data (k + 1) = rowsBefore data k + (data.getD k default).getNumRows := by
  unfold rowsBefore
  rw [List.take_succ, List.getElem?_eq_getElem hk, List.map_append, List.sum_append,
    List.getD_eq_getElem?_getD, List.getElem?_eq_getElem hk]
  simp

theorem rowsBefore_le_succ (data : List Matrix) (k : Nat) :
    rowsBefore data k ≤ rowsBefore data (k + 1) := by
  unfold rowsBefore
  rw [List.take_succ, List.map_append, List.sum_append]
  exact Nat.le_add_right _ _

theorem rowsBefore_mono (data : List Matrix) (k m : Nat) (h : k ≤ m) :
    rowsBefore data k ≤ rowsBefore data m := by
  induction m with
  | zero =>
    have : k = 0 := by omega
    rw [this]
  | succ m ih =>
    by_cases hk : k = m + 1
    · rw [hk]
    · exact Nat.le_trans (ih (by omega)) (rowsBefore_le_succ data m)

theorem batchSizeOf_eq (data : List Matrix) :
    batchSizeOf data = rowsBefore data data.length := by
  have h : ∀ (ds : List Matrix) (c : Nat),
      ds.foldl (fun batchSize subBatch => batchSize + subBatch.getNumRows) c =
        c + (ds.map Matrix.getNumRows).sum := by
    intro ds
    induction ds with
    | nil => intro c; simp
    | cons d ds ih =>
      intro c
      rw [List.foldl_cons, ih, List.map_cons, List.sum_cons, Nat.add_assoc]
  unfold batchSizeOf rowsBefore
  rw [h data 0, List.take_length, Nat.zero_add]

theorem startRowsLoop_eq :
    ∀ (ds : List Matrix) (c : Nat) (l : List Nat),
      (ds.foldl (fun (p : Nat × List Nat) d => (p.1 + d.getNumRows, p.2 ++ [p.1])) (c, l)).2 =
        l ++ (List.range ds.length).map (fun k => c + rowsBefore ds k) := by
  intro ds
  induction ds with
  | nil => intro c l; simp
  | cons d ds ih =>
    intro c l
    rw [List.foldl_cons, ih, List.length_cons, List.range_succ_eq_map, List.map_cons,
      List.map_map, List.append_assoc]
    congr 1
    have h0 : c + rowsBefore (d :: ds) 0 = c := by simp [rowsBefore]
    rw [h0, List.singleton_append]
    congr 1
    apply List.map_congr_left
    intro k _
    simp only [Function.comp, rowsBefore, List.take_succ_cons, List.map_cons, List.sum_cons]
    omega

theorem startRowsOf_getD (data : List Matrix) (k : Nat) (hk : k < data.length) :
    (startRowsOf data).getD k 0 = rowsBefore data k := by
  unfold startRowsOf
  rw [startRowsLoop_eq data 0 [], List.nil_append, List.getD_eq_getElem?_getD,
    List.getElem?_map, List.getElem?_range hk]
  simp

theorem allocLoop_ok (batchSize : Nat) :
    ∀ (ws : List Matrix) (net0 : Network), (∀ w ∈ ws, w.getNumCols ≠ 0) →
      foldExcept (allocBody batchSize) net0 ws =
        Except.ok
          { net0 with
            activationResults := net0.activationResults ++
              ws.map (fun w => Matrix.filled batchSize w.getNumCols 0)
            activationDerivResults := net0.activationDerivResults ++
              ws.map (fun w => Matrix.filled batchSize w.getNumCols 0)
            deltaWeights := net0.deltaWeights ++
              ws.map (fun w => Matrix.filled batchSize w.getNumCols 0)
            deltaBiases := net0.deltaBiases ++
              ws.map (fun w => List.replicate w.getNumCols 0) } := by
  intro ws
  induction ws with
  | nil => intro net0 _; simp [foldExcept]
  | cons w ws ih =>
    intro net0 h
    have hw : w.getNumCols ≠ 0 := h w (List.mem_cons_self _ _)
    simp only [foldExcept, allocBody, if_neg hw]
    rw [ih _ (fun w2 h2 => h w2 (List.mem_cons_of_mem _ h2))]
    simp

/-- The allocation before the parallel loop succeeds when no layer has width zero, and
leaves zero buffers of the layer widths with one row per row of the batch. -/
theorem parallelInit_ok (net : Network) (batchSize : Nat)
    (h : ∀ w ∈ net.weights, w.getNumCols ≠ 0) :
    parallelInit net batchSize =
      Except.ok
        { net with
          activationResults :=
            Matrix.filled batchSize (net.weights.getD 0 default).getNumRows 0 ::
              net.weights.map (fun w => Matrix.filled batchSize w.getNumCols 0)
          activationDerivResults :=
            net.weights.map (fun w => Matrix.filled batchSize w.getNumCols 0)
          deltaWeights := net.weights.map (fun w => Matrix.filled batchSize w.getNumCols 0)
          deltaBiases := net.weights.map (fun w => List.replicate w.getNumCols 0) } := by
  unfold parallelInit
  simp only []
  rw [allocLoop_ok batchSize net.weights _ h, map_ok_eq]
  simp

/-- Copying a part over the zero rows that follow the rows already assembled. -/
theorem copyPartLoop_assemble (w : Nat) (F P : List (List ℚ)) (z : Nat)
    (hF : ∀ r ∈ F, r.length = w) (hP : ∀ r ∈ P, r.length = w) (hz : P.length ≤ z) :
    copyPartLoop ⟨w, F ++ List.replicate z (List.replicate w 0)⟩ ⟨w, P⟩ F.length =
      ⟨w, (F ++ P) ++ List.replicate (z - P.length) (List.replicate w 0)⟩ := by
  rw [copyPartLoop_eq_pasteRows ⟨w, F ++ List.replicate z (List.replicate w 0)⟩ ⟨w, P⟩ F.length
    rfl (by simp; omega)]
  · unfold pasteRows
    simp only [List.take_left, List.drop_append, List.drop_replicate]
  · intro r hr
    rcases List.mem_append.mp hr with h | h
    · exact hF r h
    · rw [(List.mem_replicate.mp h).2]
      simp
  · exact hP

/-! ## The parallel pass: the loop over the workers -/

theorem activationsOf_congr (net1 net2 : Network) (h : SameParams net1 net2) (d : Matrix) :
    activationsOf net2 d = activationsOf net1 d := by
  unfold activationsOf
  rw [h.2.1]
  exact List.map_congr_left (fun i _ => layerOutput_congr net1 net2 h d i)

theorem derivativesOf_congr (net1 net2 : Network) (h : SameParams net1 net2) (d : Matrix) :
    derivativesOf net2 d = derivativesOf net1 d := by
  unfold derivativesOf
  rw [h.2.1]
  exact List.map_congr_left (fun i _ => layerDeriv_congr net1 net2 h d i)

theorem backGradients_congr (net1 net2 : Network) (h : SameParams net1 net2)
    (ar adr dW : List Matrix) (lab : List Nat) :
    backGradients net2 ar adr dW lab = backGradients net1 ar adr dW lab := by
  obtain ⟨h1, _, _, h4⟩ := h
  have hb : backBody net2 adr = backBody net1 adr := by
    funext st i
    simp only [backBody, h4]
  simp only [backGradients, h1, hb]

theorem layerOutput_numCols (net : Network) (hwf : net.WellFormed) (d : Matrix)
    (hd : d.numCols = net.width 0) (i : Nat)
    (hi : i ≤ net.networkConfig.layersConfig.length - 1) :
    (layerOutput net d i).numCols = net.width i := by
  obtain ⟨F, _, hF⟩ := layerOutput_rowwise net hwf i hi
  rw [hF d]
  by_cases h0 : i = 0
  · subst h0
    simpa using hd
  · simp [h0]

theorem layerDeriv_numCols (net : Network) (hwf : net.WellFormed) (d : Matrix) (i : Nat)
    (hi : i + 2 ≤ net.networkConfig.layersConfig.length - 1) :
    (layerDeriv net d i).numCols = net.width (i + 1) := by
  obtain ⟨F, _, hF⟩ := layerDeriv_rowwise net hwf i hi
  rw [hF d]

/-- The gradient matrix of layer `i`, for every batch: one row per labelled row of the
batch, computed from that row and its label alone, and not depending on the previous content
of the gradient vector. -/
theorem gradOf_rowwise (net : Network) (hwf : net.WellFormed) (i : Nat)
    (hi : i < net.networkConfig.layersConfig.length - 1) :
    ∃ H : List ℚ → Nat → List ℚ, (∀ r l, (H r l).length = net.width (i + 1)) ∧
      (∀ (d : Matrix) (lab : List Nat),
        gradOf net d lab i = ⟨net.width (i + 1), List.zipWith H d.rows lab⟩) ∧
      ∀ (d : Matrix) (lab : List Nat) (dW0 : List Matrix),
        net.networkConfig.layersConfig.length - 2 < dW0.length →
        (backGradients net (activationsOf net d) (derivativesOf net d) dW0
          lab).deltaWeights.getD i default = gradOf net d lab i := by
  obtain ⟨H, hHl, hH⟩ := backGradients_rowwise net hwf
    (net.networkConfig.layersConfig.length - 2 - i) (Nat.sub_le _ _)
  have hL := hwf.1
  have e1 : net.networkConfig.layersConfig.length - 2 -
      (net.networkConfig.layersConfig.length - 2 - i) = i := by omega
  have e2 : net.networkConfig.layersConfig.length - 1 -
      (net.networkConfig.layersConfig.length - 2 - i) = i + 1 := by omega
  rw [e2] at hHl
  rw [e1, e2] at hH
  have hg : ∀ (d : Matrix) (lab : List Nat),
      gradOf net d lab i = ⟨net.width (i + 1), List.zipWith H d.rows lab⟩ := by
    intro d lab
    unfold gradOf
    exact hH d lab _ (by rw [List.length_replicate]; omega)
  exact ⟨H, hHl, hg, fun d lab dW0 hlen => by rw [hH d lab dW0 hlen, hg d lab]⟩

theorem mem_zipWith_exists {α β γ : Type} (f : α → β → γ) :
    ∀ (as : List α) (bs : List β) (x : γ), x ∈ List.zipWith f as bs → ∃ a b, x = f a b := by
  intro as
  induction as with
  | nil => intro bs x hx; simp at hx
  | cons a as ih =>
    intro bs x hx
    cases bs with
    | nil => simp at hx
    | cons b bs =>
      rw [List.zipWith_cons_cons, List.mem_cons] at hx
      rcases hx with h | h
      · exact ⟨a, b, h⟩
      · exact ih bs x h

/-- The rows assembled from the first `k` sub-batches: there are as many as the sub-batches
have rows, and each has the layer width. -/
theorem assembledRows_shape (net : Network) (hwf : net.WellFormed) (data : List Matrix)
    (labels : List (List Nat))
    (hlabels : ∀ k, k < data.length →
      (labels.getD k []).length = (data.getD k default).getNumRows)
    (i : Nat) (hi : i < net.networkConfig.layersConfig.length - 1) :
    ∀ k, k ≤ data.length →
      (((List.range k).map
        (fun k2 => (gradOf net (data.getD k2 default) (labels.getD k2 [])
          i).rows)).flatten.length = rowsBefore data k) ∧
      ∀ r ∈ ((List.range k).map
        (fun k2 => (gradOf net (data.getD k2 default) (labels.getD k2 []) i).rows)).flatten,
        r.length = net.width (i + 1) := by
  obtain ⟨H, hHl, hg, _⟩ := gradOf_rowwise net hwf i hi
  intro k
  induction k with
  | zero => intro _; simp [rowsBefore]
  | succ k ih =>
    intro hk
    obtain ⟨ih1, ih2⟩ := ih (by omega)
    rw [List.range_succ, List.map_append, List.flatten_append, List.map_cons, List.map_nil,
      List.flatten_cons, List.flatten_nil, List.append_nil]
    refine ⟨?_, fun r hr => ?_⟩
    · rw [List.length_append, ih1, rowsBefore_succ data k (by omega), hg, List.length_zipWith,
        hlabels k (by omega)]
      simp [Matrix.getNumRows]
    · rcases List.mem_append.mp hr with h | h
      · exact ih2 r h
      · rw [hg] at h
        obtain ⟨a, b, hab⟩ := mem_zipWith_exists H _ _ r h
        rw [hab]
        exact hHl a b

/-- Copying the gradient matrix of sub-batch `k` into the buffer assembled from the first
`k` sub-batches gives the buffer assembled from the first `k + 1`. -/
theorem assembled_step (net : Network) (hwf : net.WellFormed) (data : List Matrix)
    (labels : List (List Nat))
    (hlabels : ∀ k, k < data.length →
      (labels.getD k []).length = (data.getD k default).getNumRows)
    (i : Nat) (hi : i < net.networkConfig.layersConfig.length - 1)
    (k : Nat) (hk : k < data.length) :
    copyPartLoop (assembled net data labels i k)
        (gradOf net (data.getD k default) (labels.getD k []) i) (rowsBefore data k) =
      assembled net data labels i (k + 1) := by
  obtain ⟨H, hHl, hg, _⟩ := gradOf_rowwise net hwf i hi
  obtain ⟨hlenF, hF⟩ := assembledRows_shape net hwf data labels hlabels i hi k (by omega)
  have hP : ∀ r ∈ List.zipWith H (data.getD k default).rows (labels.getD k []),
      r.length = net.width (i + 1) := by
    intro r hr
    obtain ⟨a, b, hab⟩ := mem_zipWith_exists H _ _ r hr
    rw [hab]
    exact hHl a b
  have hPlen : (List.zipWith H (data.getD k default).rows (labels.getD k [])).length =
      (data.getD k default).getNumRows := by
    rw [List.length_zipWith, hlabels k hk]
    simp [Matrix.getNumRows]
  have hmono := rowsBefore_mono data (k + 1) data.length (by omega)
  have hsucc := rowsBefore_succ data k hk
  have h := copyPartLoop_assemble (net.width (i + 1))
    ((List.range k).map
      (fun k2 => (gradOf net (data.getD k2 default) (labels.getD k2 []) i).rows)).flatten
    (List.zipWith H (data.getD k default).rows (labels.getD k []))
    (rowsBefore data data.length - rowsBefore data k) hF hP (by rw [hPlen]; omega)
  rw [hlenF, hPlen] at h
  have hz : rowsBefore data data.length - rowsBefore data k -
      (data.getD k default).getNumRows =
      rowsBefore data data.length - rowsBefore data (k + 1) := by omega
  rw [hz] at h
  have hrows : (gradOf net (data.getD k default) (labels.getD k []) i).rows =
      List.zipWith H (data.getD k default).rows (labels.getD k []) := by rw [hg]
  have hA : assembled net data labels i (k + 1) =
      ⟨net.width (i + 1),
        (((List.range k).map
          (fun k2 => (gradOf net (data.getD k2 default) (labels.getD k2 []) i).rows)).flatten ++
          List.zipWith H (data.getD k default).rows (labels.getD k [])) ++
          List.replicate (rowsBefore data data.length - rowsBefore data (k + 1))
            (List.replicate (net.width (i + 1)) 0)⟩ := by
    unfold assembled
    rw [List.range_succ, List.map_append, List.flatten_append, List.map_cons, List.map_nil,
      List.flatten_cons, List.flatten_nil, List.append_nil, hrows]
  rw [hA, ← h, hg]
  rfl

/-- The allocation establishes the invariant of the parallel loop. -/
theorem parallelInv_init (net : Network) (hwf : net.WellFormed) (data : List Matrix)
    (labels : List (List Nat))
    (hscratch : ∀ k, k < data.length →
      (net.parallelDeltaWeights.getD k []).length =
        net.networkConfig.layersConfig.length - 1) :
    ∃ net1, parallelInit net (batchSizeOf data) = Except.ok net1 ∧
      ParallelInv net data labels 0 ⟨net1, 0, 0⟩ := by
  obtain ⟨hL, hW, hpos, _, _, _, _, _⟩ := hwf
  have hws : ∀ w ∈ net.weights, w.getNumCols ≠ 0 := by
    intro w hw
    obtain ⟨i, hi, hiw⟩ := List.getElem_of_mem hw
    have h := hpos i (by omega)
    rw [List.getD_eq_getElem?_getD, List.getElem?_eq_getElem hi, Option.getD_some, hiw] at h
    exact h
  have hmap : ∀ i, i < net.weights.length →
      (net.weights.map (fun w => Matrix.filled (batchSizeOf data) w.getNumCols 0)).getD i
        default = Matrix.filled (batchSizeOf data) (net.weights.getD i default).getNumCols 0 := by
    intro i hi
    rw [List.getD_eq_getElem?_getD, List.getElem?_map, List.getD_eq_getElem?_getD,
      List.getElem?_eq_getElem hi]
    rfl
  refine ⟨_, parallelInit_ok net (batchSizeOf data) hws, ⟨rfl, rfl, rfl, rfl⟩, ?_, ?_, ?_, ?_, ?_⟩
  · intro i hi
    cases i with
    | zero => rfl
    | succ i =>
      show ((net.weights.map (fun w => Matrix.filled (batchSizeOf data) w.getNumCols 0)).getD i
        default).numCols = net.width (i + 1)
      rw [hmap i (by omega)]
      rfl
  · intro i hi
    show ((net.weights.map (fun w => Matrix.filled (batchSizeOf data) w.getNumCols 0)).getD i
      default).numCols = net.width (i + 1)
    rw [hmap i (by omega)]
    rfl
  · intro k hk
    show net.networkConfig.layersConfig.length - 2 < (net.parallelDeltaWeights.getD k []).length
    rw [hscratch k hk]
    omega
  · show (net.weights.map (fun w => Matrix.filled (batchSizeOf data) w.getNumCols 0)).length =
      net.networkConfig.layersConfig.length - 1
    rw [List.length_map, hW]
  · intro i hi
    show (net.weights.map (fun w => Matrix.filled (batchSizeOf data) w.getNumCols 0)).getD i
      default = assembled net data labels i 0
    rw [hmap i (by omega), batchSizeOf_eq]
    simp [assembled, Matrix.filled, rowsBefore, Network.width, Matrix.getNumCols]

/-- A worker with a sub-batch succeeds under the invariant and re-establishes it for the
next worker. -/
theorem parallelInv_step (getStats : Matrix → List Nat → Stats) (net : Network)
    (hwf : net.WellFormed) (data : List Matrix) (labels : List (List Nat))
    (hdata : data.length < 2 ^ 64)
    (hcolsData : ∀ k, k < data.length → (data.getD k default).numCols = net.width 0)
    (hlabels : ∀ k, k < data.length →
      (labels.getD k []).length = (data.getD k default).getNumRows)
    (k : Nat) (hk : k < data.length) (st : ParallelState)
    (hinv : ParallelInv net data labels k st) :
    ∃ st2, workerBody getStats data labels (startRowsOf data) st k = Except.ok st2 ∧
      ParallelInv net data labels (k + 1) st2 := by
  have hwf2 := hwf
  obtain ⟨hL, hW, _, _, hWt, _, _, hsoft⟩ := hwf2
  obtain ⟨hsp, hAR, hADR, hpdw, hdWlen, hdW⟩ := hinv
  have hsp2 := hsp
  obtain ⟨hcfg, hws, hbs, hwt⟩ := hsp2
  have hact := activationsOf_congr net st.net hsp (data.getD k default)
  have hder := derivativesOf_congr net st.net hsp (data.getD k default)
  have hLs : 2 ≤ st.net.networkConfig.layersConfig.length := by rw [hcfg]; exact hL
  have hWs : st.net.weights.length = st.net.networkConfig.layersConfig.length - 1 := by
    rw [hcfg, hws]; exact hW
  have hsofts : (st.net.layer
      (st.net.networkConfig.layersConfig.length - 1)).activationFunctionType =
        ActivationFunction.SoftMax := by
    unfold Network.layer
    rw [hcfg]
    exact hsoft
  have hARs : ∀ i, i ≤ st.net.weights.length →
      (st.net.activationResults.getD i default).numCols =
        (layerOutput st.net (data.getD k default) i).numCols := by
    intro i hi
    rw [hws] at hi
    rw [layerOutput_congr net st.net hsp, hAR i hi,
      layerOutput_numCols net hwf _ (hcolsData k hk) i (by omega)]
  have hADRs : ∀ i, i + 1 < st.net.weights.length →
      (st.net.activationDerivResults.getD i default).numCols =
        (layerDeriv st.net (data.getD k default) i).numCols := by
    intro i hi
    rw [hws] at hi
    rw [layerDeriv_congr net st.net hsp, hADR i hi, layerDeriv_numCols net hwf _ i (by omega)]
  have hlens : st.net.networkConfig.layersConfig.length - 2 <
      (st.net.parallelDeltaWeights.getD k []).length := by
    rw [hcfg]
    exact hpdw k hk
  have e1 : net.networkConfig.layersConfig.length - 2 + 1 =
      net.networkConfig.layersConfig.length - 1 := by omega
  have htops : (st.net.deltaWeights.getD (st.net.networkConfig.layersConfig.length - 2)
      default).numCols =
      ((activationsOf st.net (data.getD k default)).getD
        (st.net.networkConfig.layersConfig.length - 1) default).numCols := by
    rw [hcfg, hact, activationsOf_getD net _ _ (by omega), hdW _ (by omega),
      layerOutput_numCols net hwf _ (hcolsData k hk) _ (Nat.le_refl _)]
    show net.width (net.networkConfig.layersConfig.length - 2 + 1) = _
    rw [e1]
  have hcolss : ∀ i, 1 ≤ i → i ≤ st.net.networkConfig.layersConfig.length - 2 →
      (st.net.deltaWeights.getD (i - 1) default).numCols =
        (st.net.weightsTransposed.getD i default).numCols := by
    intro i h1 h2
    rw [hcfg] at h2
    rw [hwt, hdW (i - 1) (by omega)]
    exact (hWt i h1 h2).symm
  refine ⟨_, workerBody_ok getStats data labels (startRowsOf data) st k hk hdata hLs hWs hsofts
    hARs hADRs hlens htops hcolss, ⟨hcfg, hws, hbs, hwt⟩, ?_, ?_, ?_, ?_, ?_⟩
  · intro i hi
    show ((pasteLoop st.net.activationResults _ _ _).getD i default).numCols = _
    rw [pasteLoop_numCols]
    exact hAR i hi
  · intro i hi
    show ((pasteLoop st.net.activationDerivResults _ _ _).getD i default).numCols = _
    rw [pasteLoop_numCols]
    exact hADR i hi
  · intro k2 hk2
    show net.networkConfig.layersConfig.length - 2 <
      ((st.net.parallelDeltaWeights.set k _).getD k2 []).length
    by_cases hkk : k = k2
    · subst hkk
      have hin : k < st.net.parallelDeltaWeights.length := by
        by_contra hcon
        have h0 := hpdw k hk
        rw [List.getD_eq_getElem?_getD, List.getElem?_eq_none (Nat.le_of_not_lt hcon)] at h0
        simp at h0
      rw [List.getD_eq_getElem?_getD, List.getElem?_set, if_pos rfl, if_pos hin,
        Option.getD_some,
        (backGradients_spec st.net _ _ (st.net.parallelDeltaWeights.getD k [])
          (labels.getD k []) hlens).1]
      exact hpdw k hk
    · rw [List.getD_eq_getElem?_getD, List.getElem?_set_ne hkk, ← List.getD_eq_getElem?_getD]
      exact hpdw k2 hk2
  · show (pasteLoop st.net.deltaWeights _ _ _).length = _
    rw [pasteLoop_length]
    exact hdWlen
  · intro i hi
    obtain ⟨_, _, _, hind⟩ := gradOf_rowwise net hwf i hi
    show (pasteLoop st.net.deltaWeights _ _
      (st.net.networkConfig.layersConfig.length - 1)).getD i default = _
    rw [pasteLoop_getD_of_lt _ _ _ _ i (by rw [hcfg]; exact hi) (by rw [hdWlen]; exact hi)]
    rw [hact, hder, backGradients_congr net st.net hsp,
      hind _ _ _ (hpdw k hk), hdW i hi, startRowsOf_getD data k hk]
    exact assembled_step net hwf data labels hlabels i hi k hk

theorem parallelInv_loop (getStats : Matrix → List Nat → Stats) (net : Network)
    (hwf : net.WellFormed) (data : List Matrix) (labels : List (List Nat))
    (hdata : data.length < 2 ^ 64)
    (hcolsData : ∀ k, k < data.length → (data.getD k default).numCols = net.width 0)
    (hlabels : ∀ k, k < data.length →
      (labels.getD k []).length = (data.getD k default).getNumRows)
    (st0 : ParallelState) (hinv : ParallelInv net data labels 0 st0) :
    ∀ k, k ≤ data.length →
      ∃ st, foldExcept (workerBody getStats data labels (startRowsOf data)) st0
          (List.range k) = Except.ok st ∧ ParallelInv net data labels k st := by
  intro k
  induction k with
  | zero => intro _; exact ⟨st0, rfl, hinv⟩
  | succ k ih =>
    intro hk
    obtain ⟨st, hst, hi⟩ := ih (by omega)
    obtain ⟨st2, hbody, hi2⟩ := parallelInv_step getStats net hwf data labels hdata hcolsData
      hlabels k (by omega) st hi
    refine ⟨st2, ?_, hi2⟩
    rw [List.range_succ, foldExcept_append, hst, bind_ok_eq]
    simp only [foldExcept, hbody]

/-- Workers beyond the last sub-batch do nothing. -/
theorem workerBody_skip (getStats : Matrix → List Nat → Stats) (data : List Matrix)
    (labels : List (List Nat)) (startRows : List Nat) (st : ParallelState) (k : Nat)
    (hne : data ≠ []) (hdata : data.length < 2 ^ 64) (hk : data.length ≤ k) :
    workerBody getStats data labels startRows st k = Except.ok st := by
  have hpos : 0 < data.length := List.length_pos.mpr hne
  have hskip : (data.length + 2 ^ 64 - 1) % 2 ^ 64 < k := by omega
  unfold workerBody
  rw [if_pos hskip]

theorem foldExcept_skip {σ α : Type} (f : σ → α → Except NetworkError σ) :
    ∀ (l : List α) (s : σ), (∀ a ∈ l, ∀ s2, f s2 a = Except.ok s2) →
      foldExcept f s l = Except.ok s := by
  intro l
  induction l with
  | nil => intro s _; rfl
  | cons a l ih =>
    intro s h
    simp only [foldExcept, h a (List.mem_cons_self _ _) s]
    exact ih s (fun b hb => h b (List.mem_cons_of_mem _ hb))

/-! ## The parallel pass: weight gradients agree with the serial pass -/

theorem zipWith_eq_map_range {α β γ : Type} (f : α → β → γ) (da : α) (db : β) :
    ∀ (as : List α) (bs : List β), as.length = bs.length →
      List.zipWith f as bs =
        (List.range as.length).map (fun k => f (as.getD k da) (bs.getD k db)) := by
  intro as
  induction as with
  | nil => intro bs _; simp
  | cons a as ih =>
    intro bs h
    cases bs with
    | nil => simp at h
    | cons b bs =>
      rw [List.zipWith_cons_cons, ih bs (by simpa using h), List.length_cons,
        List.range_succ_eq_map, List.map_cons, List.map_map]
      simp [Function.comp]

theorem list_eq_of_getD (l1 l2 : List Matrix) (hlen : l1.length = l2.length)
    (h : ∀ i, i < l1.length → l1.getD i default = l2.getD i default) : l1 = l2 := by
  apply List.ext_getElem?
  intro i
  by_cases hi : i < l1.length
  · have h2 := h i hi
    rw [List.getD_eq_getElem?_getD, List.getD_eq_getElem?_getD, List.getElem?_eq_getElem hi,
      List.getElem?_eq_getElem (show i < l2.length by omega)] at h2
    rw [List.getElem?_eq_getElem hi, List.getElem?_eq_getElem (show i < l2.length by omega)]
    exact congrArg some h2
  · rw [List.getElem?_eq_none (by omega), List.getElem?_eq_none (by omega)]

/-- The gradient matrix of the whole batch is made of the rows of the gradient matrices of
its sub-batches, in order. -/
theorem gradOf_wholeBatch (net : Network) (hwf : net.WellFormed) (data : List Matrix)
    (labels : List (List Nat)) (hlen : labels.length = data.length)
    (hlabels : ∀ k, k < data.length →
      (labels.getD k []).length = (data.getD k default).getNumRows)
    (i : Nat) (hi : i < net.networkConfig.layersConfig.length - 1) :
    gradOf net (wholeBatch (net.width 0) data) labels.flatten i =
      assembled net data labels i data.length := by
  obtain ⟨H, _, hg, _⟩ := gradOf_rowwise net hwf i hi
  have hpair : ∀ k, ((data.map (fun d => d.rows)).getD k []).length =
      (labels.getD k []).length := by
    intro k
    by_cases hk : k < data.length
    · rw [hlabels k hk, List.getD_eq_getElem?_getD, List.getElem?_map,
        List.getD_eq_getElem?_getD, List.getElem?_eq_getElem hk]
      rfl
    · rw [List.getD_eq_getElem?_getD, List.getD_eq_getElem?_getD,
        List.getElem?_eq_none (by simp; omega), List.getElem?_eq_none (by omega)]
      rfl
  have hrows : ∀ k, (data.map (fun d => d.rows)).getD k [] = (data.getD k default).rows := by
    intro k
    rw [List.getD_eq_getElem?_getD, List.getD_eq_getElem?_getD, List.getElem?_map]
    cases data[k]? <;> rfl
  rw [hg]
  unfold assembled wholeBatch
  simp only [hg]
  rw [zipWith_flatten H _ _ (by simp [hlen]) hpair,
    zipWith_eq_map_range (List.zipWith H) [] [] _ _ (by simp [hlen])]
  simp only [hrows, List.length_map, Nat.sub_self, List.replicate_zero, List.append_nil]

/-- C10: for a softmax-terminated network with row-wise activation functions and a batch
split into contiguous sub-batches, at most `numThreads` of them, `forwardPassParallel`
returns normally and leaves in the shared `deltaWeights` exactly the matrices that
`forwardPass` followed by `backProp` leaves on the whole batch. -/
theorem parallel_deltaWeights_eq_serial (getStats : Matrix → List Nat → Stats)
    (numThreads : Nat) (net : Network) (data : List Matrix) (labels : List (List Nat))
    (hwf : net.WellFormed)
    (hdW : net.deltaWeights.length = net.networkConfig.layersConfig.length - 1)
    (hscratch : ∀ k, k < data.length →
      (net.parallelDeltaWeights.getD k []).length =
        net.networkConfig.layersConfig.length - 1)
    (hne : data ≠ []) (hthreads : data.length ≤ numThreads) (hmax : numThreads < 2 ^ 64)
    (hcolsData : ∀ k, k < data.length → (data.getD k default).numCols = net.width 0)
    (hlen : labels.length = data.length)
    (hlabels : ∀ k, k < data.length →
      (labels.getD k []).length = (data.getD k default).getNumRows) :
    ∃ stats netP,
      forwardPassParallel getStats numThreads net data labels = Except.ok (stats, netP) ∧
        (backProp (forwardPass getStats net (wholeBatch (net.width 0) data) labels.flatten).2
          labels.flatten).1 = Except.ok () ∧
        netP.deltaWeights =
          (backProp (forwardPass getStats net (wholeBatch (net.width 0) data) labels.flatten).2
            labels.flatten).2.deltaWeights := by
  have hwf2 := hwf
  obtain ⟨hL, hW, _, _, _, _, _, hsoft⟩ := hwf2
  have hdata : data.length < 2 ^ 64 := by omega
  -- the parallel side
  obtain ⟨net1, hinit, hinv0⟩ := parallelInv_init net hwf data labels hscratch
  obtain ⟨st, hfold, hinv⟩ := parallelInv_loop getStats net hwf data labels hdata hcolsData
    hlabels ⟨net1, 0, 0⟩ hinv0 data.length (Nat.le_refl _)
  have hrange : List.range numThreads =
      List.range data.length ++ List.range' data.length (numThreads - data.length) := by
    rw [List.range_eq_range', List.range_eq_range']
    have h := List.range'_append_1 0 data.length (numThreads - data.length)
    rw [Nat.zero_add] at h
    rw [h]
    congr 1
    omega
  have hrest : foldExcept (workerBody getStats data labels (startRowsOf data)) st
      (List.range' data.length (numThreads - data.length)) = Except.ok st := by
    apply foldExcept_skip
    intro k hk s2
    exact workerBody_skip getStats data labels _ s2 k hne hdata
      (List.mem_range'_1.mp hk).1
  have hpar : forwardPassParallel getStats numThreads net data labels =
      Except.ok (⟨st.acc / (numThreads : ℚ), st.ce / (numThreads : ℚ)⟩, st.net) := by
    unfold forwardPassParallel
    simp only []
    rw [hinit, bind_ok_eq, hrange, foldExcept_append, hfold, bind_ok_eq, hrest, map_ok_eq]
  obtain ⟨_, _, _, _, hPlen, hP⟩ := hinv
  -- the serial side
  have hsp : SameParams net
      (forwardPass getStats net (wholeBatch (net.width 0) data) labels.flatten).2 :=
    ⟨rfl, rfl, rfl, rfl⟩
  have hsoft1 : ((forwardPass getStats net (wholeBatch (net.width 0) data)
      labels.flatten).2.layer
      ((forwardPass getStats net (wholeBatch (net.width 0) data)
        labels.flatten).2.networkConfig.layersConfig.length - 1)).activationFunctionType =
      ActivationFunction.SoftMax := hsoft
  have hARs : (forwardPass getStats net (wholeBatch (net.width 0) data)
      labels.flatten).2.activationResults = activationsOf net (wholeBatch (net.width 0) data) :=
    forwardPass_activationResults getStats net _ _ (by omega)
  have hADRs : (forwardPass getStats net (wholeBatch (net.width 0) data)
      labels.flatten).2.activationDerivResults =
      derivativesOf net (wholeBatch (net.width 0) data) :=
    forwardPass_activationDerivResults getStats net _ _ (by omega)
  have hdWs : (forwardPass getStats net (wholeBatch (net.width 0) data)
      labels.flatten).2.deltaWeights = net.deltaWeights := rfl
  rcases backProp_cases (forwardPass getStats net (wholeBatch (net.width 0) data)
    labels.flatten).2 labels.flatten with ⟨_, hb⟩ | ⟨h, _⟩
  · refine ⟨_, _, hpar, by rw [hb], ?_⟩
    rw [hb]
    simp only []
    rw [hARs, hADRs, hdWs, backGradients_congr net _ hsp]
    have hSlen := (backGradients_spec net (activationsOf net (wholeBatch (net.width 0) data))
      (derivativesOf net (wholeBatch (net.width 0) data)) net.deltaWeights labels.flatten
      (by omega)).1
    apply list_eq_of_getD _ _ (by rw [hPlen, hSlen, hdW])
    intro i hi
    rw [hPlen] at hi
    obtain ⟨_, _, _, hind⟩ := gradOf_rowwise net hwf i hi
    rw [hP i hi, hind _ _ _ (by omega), gradOf_wholeBatch net hwf data labels hlen hlabels i hi]
  · exact absurd hsoft1 h

theorem exampleParallelNet_wellFormed : exampleParallelNet.WellFormed := by
  have hrelu : RowWise relu := ⟨fun r => r.map (fun x => max 0 x), fun r => by simp, fun _ => rfl⟩
  have hreluDeriv : RowWise reluDeriv :=
    ⟨fun r => r.map (fun x => if 0 < x then 1 else 0), fun r => by simp, fun _ => rfl⟩
  have hsoft : RowWise (softMax expTaylor) :=
    ⟨fun r => r.map (fun x => expTaylor x / (r.map expTaylor).sum), fun r => by simp,
      fun _ => rfl⟩
  refine ⟨by decide, by decide, ?_, ?_, ?_, ?_, ?_, by decide⟩
  · intro i hi
    have hi2 : i < 2 := hi
    interval_cases i <;> decide
  · intro i hi
    have hi2 : i < 2 := hi
    interval_cases i <;> decide
  · intro i h1 h2
    have h3 : i ≤ 1 := h2
    interval_cases i
    decide
  · intro i h1 h2
    have h3 : i ≤ 2 := h2
    interval_cases i
    · exact hrelu
    · exact hsoft
  · intro i h1 h2
    have h3 : i ≤ 1 := h2
    interval_cases i
    exact hreluDeriv

theorem parallel_deltaWeights_eq_serial_witness :
    (exampleParallelNet.WellFormed ∧ exampleSplit ≠ [] ∧ exampleSplit.length ≤ 3 ∧
        exampleSplitLabels.length = exampleSplit.length) ∧
      ∃ stats netP,
        forwardPassParallel exampleStats 3 exampleParallelNet exampleSplit exampleSplitLabels =
            Except.ok (stats, netP) ∧
          (backProp (forwardPass exampleStats exampleParallelNet
            (wholeBatch (exampleParallelNet.width 0) exampleSplit)
            exampleSplitLabels.flatten).2 exampleSplitLabels.flatten).1 = Except.ok () ∧
          netP.deltaWeights =
            (backProp (forwardPass exampleStats exampleParallelNet
              (wholeBatch (exampleParallelNet.width 0) exampleSplit)
              exampleSplitLabels.flatten).2 exampleSplitLabels.flatten).2.deltaWeights :=
  ⟨⟨exampleParallelNet_wellFormed, by decide, by decide, by decide⟩,
    parallel_deltaWeights_eq_serial exampleStats 3 exampleParallelNet exampleSplit
      exampleSplitLabels exampleParallelNet_wellFormed (by decide)
      (fun k hk => by
        have hk2 : k < 2 := hk
        interval_cases k <;> decide)
      (by decide) (by decide) (by decide)
      (fun k hk => by
        have hk2 : k < 2 := hk
        interval_cases k <;> decide)
      (by decide)
      (fun k hk => by
        have hk2 : k < 2 := hk
        interval_cases k <;> decide)⟩

/-! ## Weight decay and the transposed-weight cache -/

theorem Matrix.transpose_scale (m : Matrix) (c : ℚ) :
    (m.scale c).transpose = m.transpose.scale c := by
  have hget : ∀ (r : List ℚ) (j : Nat), (r.map (fun x => x * c)).getD j 0 = r.getD j 0 * c := by
    intro r j
    simp only [List.getD_eq_getElem?_getD, List.getElem?_map]
    cases r[j]? <;> simp
  simp only [Matrix.transpose, Matrix.scale, Matrix.col, List.length_map, List.map_map]
  congr 1
  apply List.map_congr_left
  intro j _
  simp only [Function.comp, List.map_map]
  apply List.map_congr_left
  intro r _
  exact hget r j

theorem Matrix.scale_one (m : Matrix) : m.scale 1 = m := by
  simp [Matrix.scale]

theorem Matrix.transpose_scaleFloat (m : Matrix) (c : ℚ) :
    (m.scaleFloat c).transpose = m.transpose.scaleFloat c := by
  have hget : ∀ (r : List ℚ) (j : Nat),
      (r.map (fun x => roundFloat32 (x * c))).getD j 0 = roundFloat32 (r.getD j 0 * c) := by
    intro r j
    simp only [List.getD_eq_getElem?_getD, List.getElem?_map]
    cases r[j]? <;> simp [roundFloat32_zero]
  simp only [Matrix.transpose, Matrix.scaleFloat, Matrix.col, List.length_map, List.map_map]
  congr 1
  apply List.map_congr_left
  intro j _
  simp only [Function.comp, List.map_map]
  apply List.map_congr_left
  intro r _
  exact hget r j

/-- C14 (counterexample): on the example network the cache is consistent before the call
(`weightsTransposed[i]` is the transpose of `weights[i]` for both weight matrices), and
after `weightDecay` (and `weightDecayParallel`) with `lambda = 1/2` entry `0` of the cache
is no longer the transpose of `weights[0]`. -/
theorem weightDecay_breaks_cache :
    (exampleNet.weightsTransposed.getD 0 default = (exampleNet.weights.getD 0 default).transpose ∧
      exampleNet.weightsTransposed.getD 1 default =
        (exampleNet.weights.getD 1 default).transpose) ∧
      (weightDecay exampleNet 1 (1 / 2) 4 1).weightsTransposed.getD 0 default ≠
        ((weightDecay exampleNet 1 (1 / 2) 4 1).weights.getD 0 default).transpose ∧
      (weightDecayParallel exampleNet (1 / 2)).weightsTransposed.getD 0 default ≠
        ((weightDecayParallel exampleNet (1 / 2)).weights.getD 0 default).transpose := by
  decide!

/-- C14 (amended): `weightDecay` and `weightDecayParallel` leave `weightsTransposed`
untouched.  If the cache was consistent before the call, then afterwards, for `lambda ≠ 0`,
the transpose of each decayed `weights[i]` is `weightsTransposed[i]` scaled, as the weights
are, by the decay coefficient `1.f - lambda`; for `lambda = 0` the cache is still
consistent. -/
theorem weightDecay_transposed_cache (net : Network) (eta lambda : ℚ) (batchSize epoch : Nat)
    (hcache : ∀ i, i < net.weights.length →
      net.weightsTransposed.getD i default = (net.weights.getD i default).transpose) :
    (weightDecay net eta lambda batchSize epoch).weightsTransposed = net.weightsTransposed ∧
      (weightDecayParallel net lambda).weightsTransposed = net.weightsTransposed ∧
      (lambda ≠ 0 → ∀ i, i < net.weights.length →
        ((weightDecay net eta lambda batchSize epoch).weights.getD i default).transpose =
          (net.weightsTransposed.getD i default).scaleFloat (roundFloat32 (1 - lambda))) ∧
      (lambda ≠ 0 → ∀ i, i < net.weights.length →
        ((weightDecayParallel net lambda).weights.getD i default).transpose =
          (net.weightsTransposed.getD i default).scaleFloat (roundFloat32 (1 - lambda))) ∧
      (∀ i, i < net.weights.length →
        (weightDecay net eta 0 batchSize epoch).weightsTransposed.getD i default =
          ((weightDecay net eta 0 batchSize epoch).weights.getD i default).transpose) ∧
      ∀ i, i < net.weights.length →
        (weightDecayParallel net 0).weightsTransposed.getD i default =
          ((weightDecayParallel net 0).weights.getD i default).transpose := by
  have hmap : ∀ i, i < net.weights.length →
      ((net.weights.map (fun (w : Matrix) =>
        w.scaleFloat (roundFloat32 (1 - lambda)))).getD i default).transpose =
        (net.weightsTransposed.getD i default).scaleFloat (roundFloat32 (1 - lambda)) := by
    intro i hi
    rw [hcache i hi, ← Matrix.transpose_scaleFloat, List.getD_eq_getElem?_getD,
      List.getElem?_map, List.getD_eq_getElem?_getD, List.getElem?_eq_getElem hi]
    rfl
  refine ⟨?_, ?_, ?_, ?_, ?_, ?_⟩
  · by_cases h : lambda = 0 <;> simp [weightDecay, h]
  · by_cases h : lambda = 0 <;> simp [weightDecayParallel, h]
  · intro h i hi
    simpa [weightDecay, h] using hmap i hi
  · intro h i hi
    simp only [weightDecayParallel, if_neg h]
    rw [scaleLoop_eq_map (fun w => w.scaleFloat (roundFloat32 (1 - lambda)))]
    exact hmap i hi
  · intro i hi
    simpa [weightDecay] using hcache i hi
  · intro i hi
    simpa [weightDecayParallel] using hcache i hi

theorem weightDecay_transposed_cache_witness :
    (∀ i, i < exampleNet.weights.length →
        exampleNet.weightsTransposed.getD i default =
          (exampleNet.weights.getD i default).transpose) ∧
      ((weightDecay exampleNet 1 (1 / 2) 4 1).weights.getD 0 default).transpose =
        (exampleNet.weightsTransposed.getD 0 default).scaleFloat (roundFloat32 (1 - 1 / 2)) :=
  ⟨fun i hi => by
      have hi2 : i < 2 := hi
      interval_cases i <;> decide,
    (weightDecay_transposed_cache exampleNet 1 (1 / 2) 4 1 (fun i hi => by
      have hi2 : i < 2 := hi
      interval_cases i <;> decide)).2.2.1 (by decide!) 0 (by decide)⟩

/-! ## The parallel pass: workers without a sub-batch -/

/-- C15 (the empty case): with no sub-batch at all, `data.size() - 1` wraps around to
`2 ^ 64 - 1`, so the guard `data.size() - 1 < k` is false for worker `0` and the worker is
not skipped: it goes on to read `data[0]`.  In the model, where that read yields an empty
matrix, the call with one worker ends in the exception of `copyPart` instead of returning
with every buffer untouched. -/
theorem forwardPassParallel_empty_data_not_skipped :
    ¬ ((([] : List Matrix).length + 2 ^ 64 - 1) % 2 ^ 64 < 0) ∧
      forwardPassParallel exampleStats 1 exampleParallelNet [] [] =
        Except.error NetworkError.StdException :=
  ⟨by decide, rfl⟩

/-! ## The parallel pass: the full effect of the workers -/

/-- Under the loop invariant, worker `k` succeeds and leaves the state `workerNext`. -/
theorem workerBody_eq_next (getStats : Matrix → List Nat → Stats) (net : Network)
    (hwf : net.WellFormed) (data : List Matrix) (labels : List (List Nat))
    (hdata : data.length < 2 ^ 64)
    (hcolsData : ∀ k, k < data.length → (data.getD k default).numCols = net.width 0)
    (k : Nat) (hk : k < data.length) (st : ParallelState)
    (hinv : ParallelInv net data labels k st) :
    workerBody getStats data labels (startRowsOf data) st k =
      Except.ok (workerNext getStats net data labels st k) := by
  have hwf2 := hwf
  obtain ⟨hL, hW, _, _, hWt, _, _, hsoft⟩ := hwf2
  obtain ⟨hsp, hAR, hADR, hpdw, hdWlen, hdW⟩ := hinv
  have hsp2 := hsp
  obtain ⟨hcfg, hws, hbs, hwt⟩ := hsp2
  have hact := activationsOf_congr net st.net hsp (data.getD k default)
  have hder := derivativesOf_congr net st.net hsp (data.getD k default)
  have hLs : 2 ≤ st.net.networkConfig.layersConfig.length := by rw [hcfg]; exact hL
  have hWs : st.net.weights.length = st.net.networkConfig.layersConfig.length - 1 := by
    rw [hcfg, hws]; exact hW
  have hsofts : (st.net.layer
      (st.net.networkConfig.layersConfig.length - 1)).activationFunctionType =
        ActivationFunction.SoftMax := by
    unfold Network.layer
    rw [hcfg]
    exact hsoft
  have hARs : ∀ i, i ≤ st.net.weights.length →
      (st.net.activationResults.getD i default).numCols =
        (layerOutput st.net (data.getD k default) i).numCols := by
    intro i hi
    rw [hws] at hi
    rw [layerOutput_congr net st.net hsp, hAR i hi,
      layerOutput_numCols net hwf _ (hcolsData k hk) i (by omega)]
  have hADRs : ∀ i, i + 1 < st.net.weights.length →
      (st.net.activationDerivResults.getD i default).numCols =
        (layerDeriv st.net (data.getD k default) i).numCols := by
    intro i hi
    rw [hws] at hi
    rw [layerDeriv_congr net st.net hsp, hADR i hi, layerDeriv_numCols net hwf _ i (by omega)]
  have hlens : st.net.networkConfig.layersConfig.length - 2 <
      (st.net.parallelDeltaWeights.getD k []).length := by
    rw [hcfg]
    exact hpdw k hk
  have e1 : net.networkConfig.layersConfig.length - 2 + 1 =
      net.networkConfig.layersConfig.length - 1 := by omega
  have htops : (st.net.deltaWeights.getD (st.net.networkConfig.layersConfig.length - 2)
      default).numCols =
      ((activationsOf st.net (data.getD k default)).getD
        (st.net.networkConfig.layersConfig.length - 1) default).numCols := by
    rw [hcfg, hact, activationsOf_getD net _ _ (by omega), hdW _ (by omega),
      layerOutput_numCols net hwf _ (hcolsData k hk) _ (Nat.le_refl _)]
    show net.width (net.networkConfig.layersConfig.length - 2 + 1) = _
    rw [e1]
  have hcolss : ∀ i, 1 ≤ i → i ≤ st.net.networkConfig.layersConfig.length - 2 →
      (st.net.deltaWeights.getD (i - 1) default).numCols =
        (st.net.weightsTransposed.getD i default).numCols := by
    intro i h1 h2
    rw [hcfg] at h2
    rw [hwt, hdW (i - 1) (by omega)]
    exact (hWt i h1 h2).symm
  have hlo : layerOutput st.net (data.getD k default) =
      layerOutput net (data.getD k default) :=
    funext (layerOutput_congr net st.net hsp (data.getD k default))
  have hld : layerDeriv st.net (data.getD k default) =
      layerDeriv net (data.getD k default) :=
    funext (layerDeriv_congr net st.net hsp (data.getD k default))
  rw [workerBody_ok getStats data labels (startRowsOf data) st k hk hdata hLs hWs hsofts
    hARs hADRs hlens htops hcolss]
  simp only [workerNext, hlo, hld, hact, hder, backGradients_congr net st.net hsp, hws, hcfg,
    startRowsOf_getD data k hk]

/-- One layer of the bias part of a worker: the worker's vector of that layer becomes the
column sums of its gradient matrix, and each entry of it, divided by the row count of the
sub-batch, is added to the shared vector of that layer. -/
theorem workerBiasBody_spec (pDW : List Matrix) (rowsK : Nat)
    (st : List (List ℚ) × List (List ℚ)) (i : Nat) :
    SameShape st.1 (workerBiasBody pDW rowsK st i).1 ∧
      SameShape st.2 (workerBiasBody pDW rowsK st i).2 ∧
      (∀ i2 k2, biasAt (workerBiasBody pDW rowsK st i).1 i2 k2 =
        if i2 = i ∧ i < st.1.length then
          if k2 < (pDW.getD i default).getNumCols ∧ k2 < (st.1.getD i []).length then
            ∑ j ∈ Finset.range (pDW.getD i default).getNumRows, (pDW.getD i default).getItem j k2
          else 0
        else biasAt st.1 i2 k2) ∧
      ∀ i2 k2, biasAt (workerBiasBody pDW rowsK st i).2 i2 k2 =
        biasAt st.2 i2 k2 +
          if i2 = i ∧ k2 < (st.2.getD i []).length ∧ i < st.2.length then
            biasAt (workerBiasBody pDW rowsK st i).1 i k2 / (rowsK : ℚ)
          else 0 := by
  have hz : SameShape st.1 (st.1.set i (List.replicate (st.1.getD i []).length 0)) :=
    sameShape_set st.1 i _ (by simp)
  obtain ⟨hs, hv⟩ := biasRows_spec i (pDW.getD i default).getNumCols
    (fun j l => (pDW.getD i default).getItem j l)
    (st.1.set i (List.replicate (st.1.getD i []).length 0)) (pDW.getD i default).getNumRows
  obtain ⟨hs2, hv2⟩ := biasCols_spec i
    (fun j => ((workerBiasBody pDW rowsK st i).1.getD i []).getD j 0 / (rowsK : ℚ)) st.2
    (st.2.getD i []).length
  refine ⟨hz.trans hs, hs2, fun i2 k2 => ?_, fun i2 k2 => ?_⟩
  · refine (hv i2 k2).trans ?_
    rw [biasAt_set, hz.1, hz.2 i]
    by_cases c : i2 = i ∧ i < st.1.length
    · simp only [if_pos c]
      have h0 : (List.replicate (st.1.getD i []).length (0 : ℚ)).getD k2 0 = 0 := by
        simp only [List.getD_eq_getElem?_getD, List.getElem?_replicate]
        split <;> rfl
      rw [h0, zero_add]
      by_cases c2 : k2 < (pDW.getD i default).getNumCols ∧ k2 < (st.1.getD i []).length
      · rw [if_pos c2, if_pos ⟨c.1, c2.1, c.2, c2.2⟩]
      · rw [if_neg c2, if_neg (fun h => c2 ⟨h.2.1, h.2.2.2⟩)]
    · simp only [if_neg c]
      rw [if_neg (fun h => c ⟨h.1, h.2.2.1⟩), add_zero]
  · refine (hv2 i2 k2).trans ?_
    by_cases c : i2 = i ∧ k2 < (st.2.getD i []).length ∧ i < st.2.length
    · rw [if_pos c, if_pos ⟨c.1, c.2.1, c.2.2, c.2.1⟩]
      rfl
    · rw [if_neg c, if_neg (fun h => c ⟨h.1, h.2.1, h.2.2.1⟩)]

/-- The bias part of a worker over the first `m` layers: the sizes are kept and every entry
of the shared bias vectors of those layers grows by the column sum of the worker's gradient
matrix divided by the row count of the sub-batch. -/
theorem workerBiasLoop_spec (pDW : List Matrix) (rowsK : Nat)
    (st : List (List ℚ) × List (List ℚ)) :
    ∀ m, SameShape st.1 ((List.range m).foldl (workerBiasBody pDW rowsK) st).1 ∧
      SameShape st.2 ((List.range m).foldl (workerBiasBody pDW rowsK) st).2 ∧
      ∀ i2 k2, biasAt ((List.range m).foldl (workerBiasBody pDW rowsK) st).2 i2 k2 =
        biasAt st.2 i2 k2 +
          if i2 < m ∧ i2 < st.2.length ∧ k2 < (st.2.getD i2 []).length then
            (if i2 < st.1.length ∧ k2 < (pDW.getD i2 default).getNumCols ∧
                k2 < (st.1.getD i2 []).length then
              ∑ j ∈ Finset.range (pDW.getD i2 default).getNumRows,
                (pDW.getD i2 default).getItem j k2
            else 0) / (rowsK : ℚ)
          else 0 := by
  intro m
  induction m with
  | zero => exact ⟨SameShape.refl _, SameShape.refl _, fun i2 k2 => by simp⟩
  | succ m ih =>
    obtain ⟨ih1, ih2, ihv⟩ := ih
    rw [List.range_succ, List.foldl_append]
    simp only [List.foldl_cons, List.foldl_nil]
    obtain ⟨h1, h2, hp, hd⟩ := workerBiasBody_spec pDW rowsK
      ((List.range m).foldl (workerBiasBody pDW rowsK) st) m
    refine ⟨ih1.trans h1, ih2.trans h2, fun i2 k2 => ?_⟩
    rw [hd, ihv, ih2.1, ih2.2 m, hp m k2, ih1.1, ih1.2 m]
    by_cases c : i2 = m
    · subst c
      have hn : ¬ (i2 < i2 ∧ i2 < st.2.length ∧ k2 < (st.2.getD i2 []).length) := by omega
      rw [if_neg hn, add_zero]
      by_cases c2 : k2 < (st.2.getD i2 []).length ∧ i2 < st.2.length
      · have e1 : i2 = i2 ∧ k2 < (st.2.getD i2 []).length ∧ i2 < st.2.length :=
          ⟨rfl, c2.1, c2.2⟩
        have e2 : i2 < i2 + 1 ∧ i2 < st.2.length ∧ k2 < (st.2.getD i2 []).length :=
          ⟨Nat.lt_succ_self _, c2.2, c2.1⟩
        rw [if_pos e1, if_pos e2]
        congr 2
        by_cases c3 : i2 < st.1.length
        · simp only [c3, true_and, and_true, if_true, eq_self_iff_true]
        · have c4 : ¬ (i2 = i2 ∧ i2 < st.1.length) := fun h => c3 h.2
          have c5 : ¬ (i2 < st.1.length ∧ k2 < (pDW.getD i2 default).getNumCols ∧
              k2 < (st.1.getD i2 []).length) := fun h => c3 h.1
          rw [if_neg c4, if_neg c5]
          have hnone : st.1.getD i2 [] = [] := by
            rw [List.getD_eq_getElem?_getD, List.getElem?_eq_none (Nat.le_of_not_lt c3)]
            rfl
          have hnone2 : ((List.range i2).foldl (workerBiasBody pDW rowsK) st).1.getD i2 [] =
              [] := by
            have hl := ih1.2 i2
            rw [hnone] at hl
            exact List.length_eq_zero.mp hl
          unfold biasAt
          rw [hnone2]
          rfl
      · have e1 : ¬ (i2 = i2 ∧ k2 < (st.2.getD i2 []).length ∧ i2 < st.2.length) :=
          fun h => c2 ⟨h.2.1, h.2.2⟩
        have e2 : ¬ (i2 < i2 + 1 ∧ i2 < st.2.length ∧ k2 < (st.2.getD i2 []).length) :=
          fun h => c2 ⟨h.2.2, h.2.1⟩
        rw [if_neg e1, if_neg e2]
    · have e1 : ¬ (i2 = m ∧ k2 < (st.2.getD m []).length ∧ m < st.2.length) :=
        fun h => c h.1
      rw [if_neg e1, add_zero]
      by_cases c2 : i2 < m ∧ i2 < st.2.length ∧ k2 < (st.2.getD i2 []).length
      · have e2 : i2 < m + 1 ∧ i2 < st.2.length ∧ k2 < (st.2.getD i2 []).length :=
          ⟨by omega, c2.2⟩
        rw [if_pos c2, if_pos e2]
      · have e2 : ¬ (i2 < m + 1 ∧ i2 < st.2.length ∧ k2 < (st.2.getD i2 []).length) :=
          fun h => c2 ⟨by omega, h.2⟩
        rw [if_neg c2, if_neg e2]

/-- The rows of the first `k` parts, laid end to end, are as many as the rows of the first
`k` sub-batches, and each has the width of the buffer. -/
theorem assembledFrom_rows (w : Nat) (parts : Nat → Matrix) (data : List Matrix)
    (hparts : ∀ k, k < data.length → (parts k).numCols = w ∧
      (∀ r ∈ (parts k).rows, r.length = w) ∧
      (parts k).rows.length = (data.getD k default).getNumRows) :
    ∀ k, k ≤ data.length →
      (((List.range k).map (fun k2 => (parts k2).rows)).flatten.length = rowsBefore data k) ∧
      (∀ r ∈ ((List.range k).map (fun k2 => (parts k2).rows)).flatten, r.length = w) := by
  intro k
  induction k with
  | zero =>
    intro _
    exact ⟨by simp [rowsBefore], by simp⟩
  | succ k ih =>
    intro hk
    obtain ⟨ih1, ih2⟩ := ih (by omega)
    obtain ⟨_, hr, hl⟩ := hparts k (by omega)
    have hflat : ((List.range (k + 1)).map (fun k2 => (parts k2).rows)).flatten =
        ((List.range k).map (fun k2 => (parts k2).rows)).flatten ++ (parts k).rows := by
      rw [List.range_succ, List.map_append, List.flatten_append, List.map_cons, List.map_nil,
        List.flatten_cons, List.flatten_nil, List.append_nil]
    refine ⟨?_, fun r hr2 => ?_⟩
    · rw [hflat, List.length_append, ih1, hl, rowsBefore_succ data k (by omega)]
    · rw [hflat] at hr2
      rcases List.mem_append.mp hr2 with h | h
      · exact ih2 r h
      · exact hr r h

/-- Copying part `k` into the buffer assembled from the first `k` parts gives the buffer
assembled from the first `k + 1`, when every part has the column count of the buffer, rows
of that length, and as many rows as its sub-batch. -/
theorem assembledFrom_step (w : Nat) (parts : Nat → Matrix) (data : List Matrix)
    (hparts : ∀ k, k < data.length → (parts k).numCols = w ∧
      (∀ r ∈ (parts k).rows, r.length = w) ∧
      (parts k).rows.length = (data.getD k default).getNumRows)
    (k : Nat) (hk : k < data.length) :
    copyPartLoop (assembledFrom w parts data k) (parts k) (rowsBefore data k) =
      assembledFrom w parts data (k + 1) := by
  obtain ⟨hlen, hrows⟩ := assembledFrom_rows w parts data hparts k (by omega)
  obtain ⟨hc, hr, hl⟩ := hparts k hk
  have hmono := rowsBefore_mono data (k + 1) data.length (by omega)
  have hsucc := rowsBefore_succ data k hk
  have h := copyPartLoop_assemble w
    ((List.range k).map (fun k2 => (parts k2).rows)).flatten (parts k).rows
    (rowsBefore data data.length - rowsBefore data k) hrows hr (by omega)
  have hp : (⟨w, (parts k).rows⟩ : Matrix) = parts k := by
    rw [← hc]
  rw [hp, hlen] at h
  unfold assembledFrom
  rw [h]
  have hflat : ((List.range (k + 1)).map (fun k2 => (parts k2).rows)).flatten =
      ((List.range k).map (fun k2 => (parts k2).rows)).flatten ++ (parts k).rows := by
    rw [List.range_succ, List.map_append, List.flatten_append, List.map_cons, List.map_nil,
      List.flatten_cons, List.flatten_nil, List.append_nil]
  rw [hflat]
  congr 2
  congr 1
  omega

theorem getD_set_self {α : Type} (l : List α) (k : Nat) (a d : α) (hk : k < l.length) :
    (l.set k a).getD k d = a := by
  rw [List.getD_eq_getElem?_getD, List.getElem?_set_self hk]
  rfl

theorem getD_set_of_ne {α : Type} (l : List α) (k k2 : Nat) (a d : α) (h : k ≠ k2) :
    (l.set k a).getD k2 d = l.getD k2 d := by
  rw [List.getD_eq_getElem?_getD, List.getElem?_set_ne h, List.getD_eq_getElem?_getD]

theorem lt_length_of_getD_ne_nil {α : Type} (l : List (List α)) (k : Nat)
    (h : 0 < (l.getD k []).length) : k < l.length := by
  by_contra hc
  rw [List.getD_eq_getElem?_getD, List.getElem?_eq_none (Nat.le_of_not_lt hc)] at h
  exact Nat.lt_irrefl 0 h

/-- The forward results of a sub-batch have the layer width as column count, rows of that
length, and one row per row of the sub-batch. -/
theorem layerOutput_shape (net : Network) (hwf : net.WellFormed) (d : Matrix)
    (hd : d.numCols = net.width 0) (hrows : ∀ r ∈ d.rows, r.length = net.width 0)
    (i : Nat) (hi : i ≤ net.networkConfig.layersConfig.length - 1) :
    (layerOutput net d i).numCols = net.width i ∧
      (∀ r ∈ (layerOutput net d i).rows, r.length = net.width i) ∧
      (layerOutput net d i).rows.length = d.getNumRows := by
  refine ⟨layerOutput_numCols net hwf d hd i hi, ?_, ?_⟩
  · cases i with
    | zero => exact hrows
    | succ i =>
      obtain ⟨F, hF, hout⟩ := layerOutput_rowwise net hwf (i + 1) hi
      rw [hout]
      intro r hr
      obtain ⟨a, _, ha⟩ := List.mem_map.mp hr
      rw [← ha]
      exact hF (by omega) a
  · obtain ⟨F, _, hout⟩ := layerOutput_rowwise net hwf i hi
    rw [hout]
    simp [Matrix.getNumRows]

/-- The allocation establishes the full invariant of the parallel loop. -/
theorem parallelFull_init (getStats : Matrix → List Nat → Stats) (net : Network)
    (hwf : net.WellFormed) (data : List Matrix) (labels : List (List Nat))
    (hscratch : ∀ k, k < data.length →
      (net.parallelDeltaWeights.getD k []).length =
        net.networkConfig.layersConfig.length - 1) :
    ∃ net1, parallelInit net (batchSizeOf data) = Except.ok net1 ∧
      ParallelFull getStats net data labels 0 ⟨net1, 0, 0⟩ := by
  obtain ⟨net1, hinit, hinv⟩ := parallelInv_init net hwf data labels hscratch
  obtain ⟨hL, hW, hpos, _, _, _, _, _⟩ := hwf
  have hws : ∀ w ∈ net.weights, w.getNumCols ≠ 0 := by
    intro w hw
    obtain ⟨i, hi, hiw⟩ := List.getElem_of_mem hw
    have h := hpos i (by omega)
    rw [List.getD_eq_getElem?_getD, List.getElem?_eq_getElem hi, Option.getD_some, hiw] at h
    exact h
  have hexp := parallelInit_ok net (batchSizeOf data) hws
  rw [hinit] at hexp
  have hnet1 := Except.ok.inj hexp
  have hmap : ∀ i, i < net.weights.length →
      (net.weights.map (fun w => Matrix.filled (batchSizeOf data) w.getNumCols 0)).getD i
        default = Matrix.filled (batchSizeOf data) (net.weights.getD i default).getNumCols 0 := by
    intro i hi
    rw [List.getD_eq_getElem?_getD, List.getElem?_map, List.getD_eq_getElem?_getD,
      List.getElem?_eq_getElem hi]
    rfl
  have hmapB : ∀ i, i < net.weights.length →
      (net.weights.map (fun (w : Matrix) => List.replicate w.getNumCols (0 : ℚ))).getD i [] =
        List.replicate (net.weights.getD i default).getNumCols 0 := by
    intro i hi
    rw [List.getD_eq_getElem?_getD, List.getElem?_map, List.getD_eq_getElem?_getD,
      List.getElem?_eq_getElem hi]
    rfl
  refine ⟨net1, hinit, hinv, ?_, ?_, ?_, ?_, ?_, ?_, ?_, ?_, ?_, ?_, ?_⟩
  · rw [hnet1]
    simp
  · intro i hi
    rw [hnet1]
    cases i with
    | zero =>
      show Matrix.filled (batchSizeOf data) (net.weights.getD 0 default).getNumRows 0 = _
      rw [batchSizeOf_eq]
      simp [assembledFrom, Matrix.filled, rowsBefore, Network.width]
    | succ i =>
      show (net.weights.map (fun w => Matrix.filled (batchSizeOf data) w.getNumCols 0)).getD i
        default = _
      rw [hmap i (by omega), batchSizeOf_eq]
      simp [assembledFrom, Matrix.filled, rowsBefore, Network.width]
  · rw [hnet1]
  · intro k2 hk2
    omega
  · intro k2 hk2
    omega
  · intro k2 _
    rw [hnet1]
  · rw [hnet1]
    simp
  · intro i hi
    rw [hnet1]
    show ((net.weights.map (fun (w : Matrix) => List.replicate w.getNumCols (0 : ℚ))).getD i
      []).length = _
    rw [hmapB i hi]
    simp [Network.width]
  · intro i c hi _
    rw [hnet1]
    show ((net.weights.map (fun (w : Matrix) => List.replicate w.getNumCols (0 : ℚ))).getD i
      []).getD c 0 = _
    rw [hmapB i hi]
    simp only [List.getD_eq_getElem?_getD, List.getElem?_replicate, Finset.range_zero,
      Finset.sum_empty]
    split <;> rfl
  · simp
  · simp

/-- A worker with a sub-batch succeeds under the full invariant and re-establishes it for
the next worker. -/
theorem parallelFull_step (getStats : Matrix → List Nat → Stats) (net : Network)
    (hwf : net.WellFormed) (data : List Matrix) (labels : List (List Nat))
    (hdata : data.length < 2 ^ 64)
    (hcolsData : ∀ k, k < data.length → (data.getD k default).numCols = net.width 0)
    (hshape : ∀ k, k < data.length → ∀ r ∈ (data.getD k default).rows,
      r.length = net.width 0)
    (hlabels : ∀ k, k < data.length →
      (labels.getD k []).length = (data.getD k default).getNumRows)
    (hscratchA : data.length ≤ net.parallelActivationResults.length)
    (hscratchB : ∀ k, k < data.length → ∀ i, i < net.networkConfig.layersConfig.length - 1 →
      i < (net.parallelDeltaBiases.getD k []).length ∧
        ((net.parallelDeltaBiases.getD k []).getD i []).length = net.width (i + 1))
    (k : Nat) (hk : k < data.length) (st : ParallelState)
    (hfull : ParallelFull getStats net data labels k st) :
    workerBody getStats data labels (startRowsOf data) st k =
        Except.ok (workerNext getStats net data labels st k) ∧
      ParallelFull getStats net data labels (k + 1)
        (workerNext getStats net data labels st k) := by
  obtain ⟨hinv, hARlen, hAR, hpARlen, hpAR, hpDW, hpDB, hdBlen, hdBshape, hdB, hacc, hce⟩ :=
    hfull
  have hwf2 := hwf
  obtain ⟨hL, hW, _, _, _, _, _, _⟩ := hwf2
  have hnext := workerBody_eq_next getStats net hwf data labels hdata hcolsData k hk st hinv
  obtain ⟨st2, hbody, hinv2⟩ := parallelInv_step getStats net hwf data labels hdata hcolsData
    hlabels k hk st hinv
  rw [hnext] at hbody
  rw [← Except.ok.inj hbody] at hinv2
  have hpdwk := hinv.2.2.2.1 k hk
  have hklt : k < st.net.parallelDeltaWeights.length :=
    lt_length_of_getD_ne_nil _ k (by omega)
  have hG : ∀ i, i < net.networkConfig.layersConfig.length - 1 →
      (backGradients net (activationsOf net (data.getD k default))
        (derivativesOf net (data.getD k default)) (st.net.parallelDeltaWeights.getD k [])
        (labels.getD k [])).deltaWeights.getD i default =
        gradOf net (data.getD k default) (labels.getD k []) i := by
    intro i hi
    exact (gradOf_rowwise net hwf i hi).choose_spec.2.2 _ _ _ hpdwk
  refine ⟨hnext, hinv2, ?_, ?_, ?_, ?_, ?_, ?_, ?_, ?_, ?_, ?_, ?_⟩
  · show (pasteLoop st.net.activationResults _ _ _).length = _
    rw [pasteLoop_length]
    exact hARlen
  · intro i hi
    show (pasteLoop st.net.activationResults _ _ _).getD i default = _
    rw [pasteLoop_getD_of_lt _ _ _ _ i (by omega) (by omega), hAR i hi]
    exact assembledFrom_step (net.width i) (fun k2 => layerOutput net (data.getD k2 default) i)
      data (fun k2 hk2 => layerOutput_shape net hwf _ (hcolsData k2 hk2) (hshape k2 hk2) i
        (by omega)) k hk
  · show (st.net.parallelActivationResults.set k _).length = _
    rw [List.length_set]
    exact hpARlen
  · intro k2 hk2
    show (st.net.parallelActivationResults.set k _).getD k2 [] = _
    by_cases c : k = k2
    · rw [← c]
      exact getD_set_self _ k _ _ (by omega)
    · rw [getD_set_of_ne _ k k2 _ _ c]
      exact hpAR k2 (by omega)
  · intro k2 hk2 i hi
    show ((st.net.parallelDeltaWeights.set k _).getD k2 []).getD i default = _
    by_cases c : k = k2
    · rw [← c, getD_set_self _ k _ _ hklt]
      exact hG i hi
    · rw [getD_set_of_ne _ k k2 _ _ c]
      exact hpDW k2 (by omega) i hi
  · intro k2 hk2
    show (st.net.parallelDeltaBiases.set k _).getD k2 [] = _
    rw [getD_set_of_ne _ k k2 _ _ (by omega)]
    exact hpDB k2 (by omega)
  · exact (workerBiasLoop_spec _ _ (st.net.parallelDeltaBiases.getD k [], st.net.deltaBiases)
      (net.networkConfig.layersConfig.length - 1)).2.1.1.trans hdBlen
  · intro i hi
    exact ((workerBiasLoop_spec _ _ (st.net.parallelDeltaBiases.getD k [], st.net.deltaBiases)
      (net.networkConfig.layersConfig.length - 1)).2.1.2 i).trans (hdBshape i hi)
  · intro i c hi hc
    rw [Finset.sum_range_succ, ← hdB i c hi hc]
    refine ((workerBiasLoop_spec _ _
      (st.net.parallelDeltaBiases.getD k [], st.net.deltaBiases)
      (net.networkConfig.layersConfig.length - 1)).2.2 i c).trans ?_
    have hB := hscratchB k hk i (by omega)
    have hgc : (gradOf net (data.getD k default) (labels.getD k []) i).getNumCols =
        net.width (i + 1) := by
      obtain ⟨H, _, hg, _⟩ := gradOf_rowwise net hwf i (by omega)
      rw [hg]
      rfl
    have e1 : i < net.networkConfig.layersConfig.length - 1 ∧ i < st.net.deltaBiases.length ∧
        c < (st.net.deltaBiases.getD i []).length :=
      ⟨by omega, by omega, by rw [hdBshape i hi]; exact hc⟩
    have e2 : i < (st.net.parallelDeltaBiases.getD k []).length ∧
        c < (gradOf net (data.getD k default) (labels.getD k []) i).getNumCols ∧
        c < ((st.net.parallelDeltaBiases.getD k []).getD i []).length := by
      rw [hpDB k (Nat.le_refl k), hgc, hB.2]
      exact ⟨hB.1, hc, hc⟩
    simp only [hG i (by omega)]
    rw [if_pos e1, if_pos e2]
    rfl
  · show st.acc + _ = _
    rw [Finset.sum_range_succ, ← hacc]
  · show st.ce + _ = _
    rw [Finset.sum_range_succ, ← hce]

/-- The parallel loop over `numThreads` workers succeeds and leaves the full invariant for
the sub-batches that had a worker. -/
theorem parallelFull_run (getStats : Matrix → List Nat → Stats) (numThreads : Nat)
    (net : Network) (hwf : net.WellFormed) (data : List Matrix) (labels : List (List Nat))
    (hne : data ≠ []) (hdata : data.length < 2 ^ 64)
    (hscratch : ∀ k, k < data.length →
      (net.parallelDeltaWeights.getD k []).length =
        net.networkConfig.layersConfig.length - 1)
    (hcolsData : ∀ k, k < data.length → (data.getD k default).numCols = net.width 0)
    (hshape : ∀ k, k < data.length → ∀ r ∈ (data.getD k default).rows,
      r.length = net.width 0)
    (hlabels : ∀ k, k < data.length →
      (labels.getD k []).length = (data.getD k default).getNumRows)
    (hscratchA : data.length ≤ net.parallelActivationResults.length)
    (hscratchB : ∀ k, k < data.length → ∀ i, i < net.networkConfig.layersConfig.length - 1 →
      i < (net.parallelDeltaBiases.getD k []).length ∧
        ((net.parallelDeltaBiases.getD k []).getD i []).length = net.width (i + 1)) :
    ∃ st, forwardPassParallel getStats numThreads net data labels =
        Except.ok (⟨st.acc / (numThreads : ℚ), st.ce / (numThreads : ℚ)⟩, st.net) ∧
      ParallelFull getStats net data labels (min data.length numThreads) st := by
  obtain ⟨net1, hinit, hfull0⟩ := parallelFull_init getStats net hwf data labels hscratch
  have hloop : ∀ k, k ≤ data.length →
      ∃ st, foldExcept (workerBody getStats data labels (startRowsOf data)) ⟨net1, 0, 0⟩
          (List.range k) = Except.ok st ∧ ParallelFull getStats net data labels k st := by
    intro k
    induction k with
    | zero => intro _; exact ⟨_, rfl, hfull0⟩
    | succ k ih =>
      intro hk
      obtain ⟨st, hst, hi⟩ := ih (by omega)
      obtain ⟨hbody, hi2⟩ := parallelFull_step getStats net hwf data labels hdata hcolsData
        hshape hlabels hscratchA hscratchB k (by omega) st hi
      refine ⟨_, ?_, hi2⟩
      rw [List.range_succ, foldExcept_append, hst, bind_ok_eq]
      simp only [foldExcept, hbody]
  obtain ⟨st, hfold, hfull⟩ := hloop (min data.length numThreads) (Nat.min_le_left _ _)
  have hrange : List.range numThreads =
      List.range (min data.length numThreads) ++
        List.range' (min data.length numThreads) (numThreads - min data.length numThreads) := by
    rw [List.range_eq_range', List.range_eq_range']
    have h := List.range'_append_1 0 (min data.length numThreads)
      (numThreads - min data.length numThreads)
    rw [Nat.zero_add] at h
    rw [h]
    congr 1
    omega
  have hrest : foldExcept (workerBody getStats data labels (startRowsOf data)) st
      (List.range' (min data.length numThreads) (numThreads - min data.length numThreads)) =
        Except.ok st := by
    apply foldExcept_skip
    intro k hk s2
    have h1 := (List.mem_range'_1.mp hk).1
    have h2 := (List.mem_range'_1.mp hk).2
    exact workerBody_skip getStats data labels _ s2 k hne hdata (by omega)
  refine ⟨st, ?_, hfull⟩
  unfold forwardPassParallel
  simp only []
  rw [hinit, bind_ok_eq, hrange, foldExcept_append, hfold, bind_ok_eq, hrest, map_ok_eq]

/-! ## The parallel pass: bias gradients, statistics and assembled buffers -/

theorem exampleSplit_ready :
    ParallelReady exampleParallelNet exampleSplit exampleSplitLabels := by
  refine ⟨exampleParallelNet_wellFormed, by decide, by decide, ?_, ?_, ?_, ?_, by decide, ?_⟩
  · intro k hk
    have hk2 : k < 2 := hk
    interval_cases k <;> decide
  · intro k hk
    have hk2 : k < 2 := hk
    interval_cases k <;> decide
  · intro k hk
    have hk2 : k < 2 := hk
    interval_cases k <;> decide
  · intro k hk
    have hk2 : k < 2 := hk
    interval_cases k <;> decide
  · intro k hk i hi
    have hk2 : k < 2 := hk
    have hi2 : i < 2 := hi
    interval_cases k <;> interval_cases i <;> decide

/-- C18: after `forwardPassParallel` on a non-empty split, the shared `deltaBiases` have one
vector per layer with one entry per column, and entry `c` of layer `i` is the sum, over the
sub-batches `k` that had a worker, of the sum of column `c` of `parallelDeltaWeights[k][i]`
divided by the row count of sub-batch `k`; the bias gradients that the network held before
the call do not enter. -/
theorem parallel_deltaBiases_sum (getStats : Matrix → List Nat → Stats) (numThreads : Nat)
    (net : Network) (data : List Matrix) (labels : List (List Nat))
    (hready : ParallelReady net data labels) :
    ∃ stats netP,
      forwardPassParallel getStats numThreads net data labels = Except.ok (stats, netP) ∧
        netP.deltaBiases.length = net.weights.length ∧
        ∀ i, i < net.weights.length →
          (netP.deltaBiases.getD i []).length = net.width (i + 1) ∧
          ∀ c, c < net.width (i + 1) →
            (netP.deltaBiases.getD i []).getD c 0 =
              ∑ k ∈ Finset.range (min data.length numThreads),
                (∑ j ∈ Finset.range
                    ((netP.parallelDeltaWeights.getD k []).getD i default).getNumRows,
                  ((netP.parallelDeltaWeights.getD k []).getD i default).getItem j c) /
                  ((data.getD k default).getNumRows : ℚ) := by
  obtain ⟨hwf, hne, hdata, hscratch, hcolsData, hshape, hlabels, hscratchA, hscratchB⟩ :=
    hready
  obtain ⟨st, hrun, hfull⟩ := parallelFull_run getStats numThreads net hwf data labels hne
    hdata hscratch hcolsData hshape hlabels hscratchA hscratchB
  obtain ⟨_, _, _, _, _, hpDW, _, hdBlen, hdBshape, hdB, _, _⟩ := hfull
  refine ⟨_, st.net, hrun, hdBlen, fun i hi => ⟨hdBshape i hi, fun c hc => ?_⟩⟩
  refine (hdB i c hi hc).trans ?_
  apply Finset.sum_congr rfl
  intro k hk
  unfold colMean
  rw [hpDW k (Finset.mem_range.mp hk) i (by rw [← hwf.2.1]; exact hi)]

theorem parallel_deltaBiases_sum_witness :
    ParallelReady exampleParallelNet exampleSplit exampleSplitLabels ∧
      ∃ stats netP,
        forwardPassParallel exampleStats 3 exampleParallelNet exampleSplit exampleSplitLabels =
            Except.ok (stats, netP) ∧
          netP.deltaBiases.length = exampleParallelNet.weights.length ∧
          ∀ i, i < exampleParallelNet.weights.length →
            (netP.deltaBiases.getD i []).length = exampleParallelNet.width (i + 1) ∧
            ∀ c, c < exampleParallelNet.width (i + 1) →
              (netP.deltaBiases.getD i []).getD c 0 =
                ∑ k ∈ Finset.range (min exampleSplit.length 3),
                  (∑ j ∈ Finset.range
                      ((netP.parallelDeltaWeights.getD k []).getD i default).getNumRows,
                    ((netP.parallelDeltaWeights.getD k []).getD i default).getItem j c) /
                    ((exampleSplit.getD k default).getNumRows : ℚ) :=
  ⟨exampleSplit_ready,
    parallel_deltaBiases_sum exampleStats 3 exampleParallelNet exampleSplit exampleSplitLabels
      exampleSplit_ready⟩

/-- The statistics that `forwardPassParallel` returns on a non-empty split: the sums, over
the sub-batches that had a worker, of the statistics of the final activation of the
sub-batch against its labels, divided by the worker count. -/
theorem forwardPassParallel_stats (getStats : Matrix → List Nat → Stats) (numThreads : Nat)
    (net : Network) (data : List Matrix) (labels : List (List Nat))
    (hready : ParallelReady net data labels) :
    ∃ stats netP,
      forwardPassParallel getStats numThreads net data labels = Except.ok (stats, netP) ∧
        stats.accuracy =
          (∑ k ∈ Finset.range (min data.length numThreads),
            (getStats (layerOutput net (data.getD k default) net.weights.length)
              (labels.getD k [])).accuracy) / (numThreads : ℚ) ∧
        stats.crossEntropy =
          (∑ k ∈ Finset.range (min data.length numThreads),
            (getStats (layerOutput net (data.getD k default) net.weights.length)
              (labels.getD k [])).crossEntropy) / (numThreads : ℚ) := by
  obtain ⟨hwf, hne, hdata, hscratch, hcolsData, hshape, hlabels, hscratchA, hscratchB⟩ :=
    hready
  obtain ⟨st, hrun, hfull⟩ := parallelFull_run getStats numThreads net hwf data labels hne
    hdata hscratch hcolsData hshape hlabels hscratchA hscratchB
  obtain ⟨_, _, _, _, _, _, _, _, _, _, hacc, hce⟩ := hfull
  refine ⟨_, st.net, hrun, ?_, ?_⟩
  · show st.acc / _ = _
    rw [hacc]
  · show st.ce / _ = _
    rw [hce]

/-- The loop of `predict` computes the activation of the last layer. -/
theorem predict_eq_layerOutput (net : Network) (data : Matrix)
    (hw : 1 ≤ net.weights.length) :
    predict net data = layerOutput net data net.weights.length := by
  have hloop : ∀ m, (List.range' 1 m).foldl
      (fun tmp i =>
        (net.layer (i + 1)).activationFunction
          ((tmp.matmul (net.weights.getD i default)).addBias (net.biases.getD i [])))
      (layerOutput net data 1) = layerOutput net data (m + 1) := by
    intro m
    induction m with
    | zero => rfl
    | succ m ih =>
      rw [List.range'_concat, List.foldl_append, ih]
      simp only [List.foldl_cons, List.foldl_nil]
      have e : 1 + 1 * m = m + 1 := by omega
      rw [e]
      rfl
  have h := hloop (net.weights.length - 1)
  rw [Nat.sub_add_cancel hw] at h
  exact h

/-- The loop of `predictParallel` over the first `m` workers, each of which has a
sub-batch: the accumulators grow by the statistics of the sub-batches. -/
theorem predictLoop_ok (getStats : Matrix → List Nat → Stats) (net : Network)
    (dataBatches : List Matrix) (labels : List (List Nat)) :
    ∀ m, m ≤ dataBatches.length →
      foldExcept (predictWorker getStats net dataBatches labels) (0, 0) (List.range m) =
        Except.ok
          (∑ k ∈ Finset.range m,
            (getStats (predict net (dataBatches.getD k default)) (labels.getD k [])).accuracy,
           ∑ k ∈ Finset.range m,
            (getStats (predict net (dataBatches.getD k default))
              (labels.getD k [])).crossEntropy) := by
  intro m
  induction m with
  | zero =>
    intro _
    simp [foldExcept]
  | succ m ih =>
    intro hm
    have hget : dataBatches[m]? = some (dataBatches.getD m default) := by
      rw [List.getD_eq_getElem?_getD, List.getElem?_eq_getElem (by omega)]
      rfl
    rw [List.range_succ, foldExcept_append, ih (by omega), bind_ok_eq]
    simp only [foldExcept, predictWorker, hget, Finset.sum_range_succ]

/-- When every worker has a sub-batch, `predictParallel` returns the sums of the statistics
of the sub-batches divided by the worker count. -/
theorem predictParallel_stats (getStats : Matrix → List Nat → Stats) (numThreads : Nat)
    (net : Network) (dataBatches : List Matrix) (labels : List (List Nat))
    (h : numThreads ≤ dataBatches.length) :
    predictParallel getStats numThreads net dataBatches labels =
      Except.ok
        ⟨(∑ k ∈ Finset.range numThreads,
            (getStats (predict net (dataBatches.getD k default))
              (labels.getD k [])).accuracy) / (numThreads : ℚ),
          (∑ k ∈ Finset.range numThreads,
            (getStats (predict net (dataBatches.getD k default))
              (labels.getD k [])).crossEntropy) / (numThreads : ℚ)⟩ := by
  unfold predictParallel
  rw [predictLoop_ok getStats net dataBatches labels numThreads h, map_ok_eq]

/-- A worker of `predictParallel` without a sub-batch makes the call fail, whatever the
accumulators hold. -/
theorem predictWorker_fails (getStats : Matrix → List Nat → Stats) (net : Network)
    (dataBatches : List Matrix) (labels : List (List Nat)) (st : ℚ × ℚ) (k : Nat)
    (hk : dataBatches.length ≤ k) :
    predictWorker getStats net dataBatches labels st k =
      Except.error NetworkError.StdException := by
  unfold predictWorker
  rw [List.getElem?_eq_none hk]

/-- C16: with two workers and a single sub-batch, `forwardPassParallel` returns the
statistics of the sub-batch divided by two, while `predictParallel`, whose loop has no test
for a worker without a sub-batch, reads past the end of the list and returns no statistics
at all. -/
theorem predictParallel_worker_without_subBatch :
    returnedStats (forwardPassParallel exampleRowStats 2 exampleParallelNet
        [⟨2, [[1, 2], [3, 4], [5, 6]]⟩] [[0, 1, 2]]) = some (3 / 2, 3 / 2) ∧
      predictParallel exampleRowStats 2 exampleParallelNet
        [⟨2, [[1, 2], [3, 4], [5, 6]]⟩] [[0, 1, 2]] =
        Except.error NetworkError.StdException := by
  constructor
  · decide!
  · rfl

theorem exampleRows_ready :
    ParallelReady exampleZeroParallelNet exampleRows exampleRowLabels := by
  have hsoft : RowWise (softMax expTaylor) :=
    ⟨fun r => r.map (fun x => expTaylor x / (r.map expTaylor).sum), fun r => by simp,
      fun _ => rfl⟩
  have hwf : exampleZeroParallelNet.WellFormed := by
    refine ⟨by decide, by decide, ?_, ?_, ?_, ?_, ?_, by decide⟩
    · intro i hi
      have hi2 : i < 1 := hi
      interval_cases i
      decide
    · intro i hi
      have hi2 : i < 1 := hi
      interval_cases i
      decide
    · intro i h1 h2
      have h3 : i ≤ 0 := h2
      omega
    · intro i h1 h2
      have h3 : i ≤ 1 := h2
      interval_cases i
      exact hsoft
    · intro i h1 h2
      have h3 : i ≤ 0 := h2
      omega
  refine ⟨hwf, by decide, by decide, ?_, ?_, ?_, ?_, by decide, ?_⟩
  · intro k hk
    have hk2 : k < 2 := hk
    interval_cases k <;> decide
  · intro k hk
    have hk2 : k < 2 := hk
    interval_cases k <;> decide
  · intro k hk
    have hk2 : k < 2 := hk
    interval_cases k <;> decide
  · intro k hk
    have hk2 : k < 2 := hk
    interval_cases k <;> decide
  · intro k hk i hi
    have hk2 : k < 2 := hk
    have hi2 : i < 1 := hi
    interval_cases k <;> interval_cases i <;> decide

/-- C11: on the softmax network with zero weights and the batch of two rows with label 0,
split into two sub-batches of one row for two workers, `forwardPassParallel` leaves the bias
gradients `(-4/3, 2/3, 2/3)`, the sum of the means of the two sub-batches, while `forwardPass`
followed by `backProp` on the whole batch leaves their mean `(-2/3, 1/3, 1/3)`. -/
theorem parallel_deltaBiases_differ_from_serial :
    ParallelReady exampleZeroParallelNet exampleRows exampleRowLabels ∧
      returnedBiases (forwardPassParallel exampleStats 2 exampleZeroParallelNet exampleRows
        exampleRowLabels) = some [[-4 / 3, 2 / 3, 2 / 3]] ∧
      (backProp (forwardPass exampleStats exampleZeroParallelNet
        (wholeBatch 2 exampleRows) exampleRowLabels.flatten).2
        exampleRowLabels.flatten).1 = Except.ok () ∧
      (backProp (forwardPass exampleStats exampleZeroParallelNet
        (wholeBatch 2 exampleRows) exampleRowLabels.flatten).2
        exampleRowLabels.flatten).2.deltaBiases = [[-2 / 3, 1 / 3, 1 / 3]] := by
  refine ⟨exampleRows_ready, by decide!, rfl, by decide!⟩

/-- The row ranges of the sub-batches follow each other: that of an earlier sub-batch ends
before that of a later one starts, and the last one ends with the batch. -/
theorem rowRanges_ordered (data : List Matrix) :
    (∀ k1 k2, k1 < k2 → k2 < data.length →
      (startRowsOf data).getD k1 0 + (data.getD k1 default).getNumRows ≤
        (startRowsOf data).getD k2 0) ∧
      ∀ k, k < data.length →
        (startRowsOf data).getD k 0 + (data.getD k default).getNumRows ≤ batchSizeOf data := by
  constructor
  · intro k1 k2 h12 h2
    rw [startRowsOf_getD data k1 (by omega), startRowsOf_getD data k2 h2,
      ← rowsBefore_succ data k1 (by omega)]
    exact rowsBefore_mono data (k1 + 1) k2 (by omega)
  · intro k hk
    rw [startRowsOf_getD data k hk, ← rowsBefore_succ data k hk, batchSizeOf_eq]
    exact rowsBefore_mono data (k + 1) data.length (by omega)

/-- Every row of the batch lies in the row range of some sub-batch. -/
theorem rowRanges_cover (data : List Matrix) (r : Nat) (hr : r < batchSizeOf data) :
    ∃ k, k < data.length ∧ (startRowsOf data).getD k 0 ≤ r ∧
      r < (startRowsOf data).getD k 0 + (data.getD k default).getNumRows := by
  have h : ∀ n, n ≤ data.length → r < rowsBefore data n →
      ∃ k, k < n ∧ rowsBefore data k ≤ r ∧ r < rowsBefore data (k + 1) := by
    intro n
    induction n with
    | zero =>
      intro _ h0
      simp [rowsBefore] at h0
    | succ n ih =>
      intro hn hlt
      by_cases c : r < rowsBefore data n
      · obtain ⟨k, hk, h1, h2⟩ := ih (by omega) c
        exact ⟨k, by omega, h1, h2⟩
      · exact ⟨n, by omega, by omega, hlt⟩
  rw [batchSizeOf_eq] at hr
  obtain ⟨k, hk, h1, h2⟩ := h data.length (Nat.le_refl _) hr
  refine ⟨k, hk, ?_, ?_⟩
  · rw [startRowsOf_getD data k hk]
    exact h1
  · rw [startRowsOf_getD data k hk, ← rowsBefore_succ data k hk]
    exact h2

theorem map_range_getD {β : Type} (f : Matrix → β) (l : List Matrix) :
    (List.range l.length).map (fun k => f (l.getD k default)) = l.map f := by
  apply List.ext_getElem
  · simp
  · intro i h1 h2
    simp only [List.getElem_map, List.getElem_range, List.getD_eq_getElem?_getD]
    rw [List.getElem?_eq_getElem (by simpa using h1)]
    rfl

/-- With one worker and the batch split into two sub-batches, the
call returns and the rows of the second sub-batch are still zero in the shared buffer
`activationResults[0]`, which therefore is not the whole mini-batch. -/
theorem parallel_buffers_miss_unprocessed_rows :
    (returnedActivations (forwardPassParallel exampleStats 1 exampleParallelNet exampleSplit
        exampleSplitLabels)).map (fun ar => ar.getD 0 default) =
        some ⟨2, [[1, 2], [3, 4], [5, 6], [0, 0]]⟩ ∧
      wholeBatch 2 exampleSplit = ⟨2, [[1, 2], [3, 4], [5, 6], [7, 8]]⟩ ∧
      (returnedActivations (forwardPassParallel exampleStats 1 exampleParallelNet exampleSplit
        exampleSplitLabels)).map (fun ar => ar.getD 0 default) ≠
        some (wholeBatch 2 exampleSplit) := by
  refine ⟨by decide!, by decide!, by decide!⟩

/-- Where there are at least as many workers as sub-batches, the shared buffers are
assembled in full: for a non-empty split into at most `numThreads` sub-batches of a
well-formed softmax-terminated network, the row ranges of the sub-batches follow each other
without overlap and cover the rows of the batch, `forwardPassParallel` returns, and every
shared buffer `activationResults[i]` and `deltaWeights[i]` consists of the rows of the
workers' `parallelActivationResults[k][i]` and `parallelDeltaWeights[k][i]`, over all
sub-batches `k` in order; `activationResults[0]` is the whole mini-batch. -/
theorem parallel_buffers_assembled (getStats : Matrix → List Nat → Stats) (numThreads : Nat)
    (net : Network) (data : List Matrix) (labels : List (List Nat))
    (hready : ParallelReady net data labels) (hthreads : data.length ≤ numThreads) :
    (∀ k1 k2, k1 < k2 → k2 < data.length →
      (startRowsOf data).getD k1 0 + (data.getD k1 default).getNumRows ≤
        (startRowsOf data).getD k2 0) ∧
      (∀ r, r < batchSizeOf data → ∃ k, k < data.length ∧ (startRowsOf data).getD k 0 ≤ r ∧
        r < (startRowsOf data).getD k 0 + (data.getD k default).getNumRows) ∧
      ∃ stats netP,
        forwardPassParallel getStats numThreads net data labels = Except.ok (stats, netP) ∧
          (∀ i, i ≤ net.weights.length →
            netP.activationResults.getD i default =
              ⟨net.width i, ((List.range data.length).map (fun k =>
                ((netP.parallelActivationResults.getD k []).getD i default).rows)).flatten⟩) ∧
          (∀ i, i < net.weights.length →
            netP.deltaWeights.getD i default =
              ⟨net.width (i + 1), ((List.range data.length).map (fun k =>
                ((netP.parallelDeltaWeights.getD k []).getD i default).rows)).flatten⟩) ∧
          netP.activationResults.getD 0 default = wholeBatch (net.width 0) data := by
  obtain ⟨hwf, hne, hdata, hscratch, hcolsData, hshape, hlabels, hscratchA, hscratchB⟩ :=
    hready
  obtain ⟨st, hrun, hfull⟩ := parallelFull_run getStats numThreads net hwf data labels hne
    hdata hscratch hcolsData hshape hlabels hscratchA hscratchB
  rw [Nat.min_eq_left hthreads] at hfull
  obtain ⟨hinv, _, hAR, _, hpAR, hpDW, _, _, _, _, _, _⟩ := hfull
  obtain ⟨_, _, _, _, _, hdW⟩ := hinv
  have hW := hwf.2.1
  have hARi : ∀ i, i ≤ net.weights.length →
      st.net.activationResults.getD i default =
        ⟨net.width i, ((List.range data.length).map (fun k =>
          (layerOutput net (data.getD k default) i).rows)).flatten⟩ := by
    intro i hi
    rw [hAR i hi]
    simp [assembledFrom]
  refine ⟨(rowRanges_ordered data).1, rowRanges_cover data, _, st.net, hrun, ?_, ?_, ?_⟩
  · intro i hi
    rw [hARi i hi]
    congr 2
    apply List.map_congr_left
    intro k hk
    rw [hpAR k (List.mem_range.mp hk), activationsOf_getD net _ i hi]
  · intro i hi
    rw [hdW i (by omega)]
    unfold assembled
    simp only [Nat.sub_self, List.replicate_zero, List.append_nil]
    congr 2
    apply List.map_congr_left
    intro k hk
    rw [hpDW k (List.mem_range.mp hk) i (by omega)]
  · rw [hARi 0 (Nat.zero_le _)]
    unfold wholeBatch
    congr 2
    exact map_range_getD (fun d => d.rows) data

theorem parallel_buffers_assembled_witness :
    (ParallelReady exampleParallelNet exampleSplit exampleSplitLabels ∧
        exampleSplit.length ≤ 3) ∧
      (∀ k1 k2, k1 < k2 → k2 < exampleSplit.length →
        (startRowsOf exampleSplit).getD k1 0 + (exampleSplit.getD k1 default).getNumRows ≤
          (startRowsOf exampleSplit).getD k2 0) ∧
      (∀ r, r < batchSizeOf exampleSplit → ∃ k, k < exampleSplit.length ∧
        (startRowsOf exampleSplit).getD k 0 ≤ r ∧
        r < (startRowsOf exampleSplit).getD k 0 + (exampleSplit.getD k default).getNumRows) ∧
      ∃ stats netP,
        forwardPassParallel exampleStats 3 exampleParallelNet exampleSplit exampleSplitLabels =
            Except.ok (stats, netP) ∧
          (∀ i, i ≤ exampleParallelNet.weights.length →
            netP.activationResults.getD i default =
              ⟨exampleParallelNet.width i, ((List.range exampleSplit.length).map (fun k =>
                ((netP.parallelActivationResults.getD k []).getD i default).rows)).flatten⟩) ∧
          (∀ i, i < exampleParallelNet.weights.length →
            netP.deltaWeights.getD i default =
              ⟨exampleParallelNet.width (i + 1), ((List.range exampleSplit.length).map (fun k =>
                ((netP.parallelDeltaWeights.getD k []).getD i default).rows)).flatten⟩) ∧
          netP.activationResults.getD 0 default =
            wholeBatch (exampleParallelNet.width 0) exampleSplit :=
  ⟨⟨exampleSplit_ready, by decide⟩,
    parallel_buffers_assembled exampleStats 3 exampleParallelNet exampleSplit
      exampleSplitLabels exampleSplit_ready (by decide)⟩

/-- C17: the claim fails on the code where a mini-batch has more sub-batches than there are
workers.  With two workers and a mini-batch of five rows cut into sub-batches of two, two
and one rows, `startRows` and `batchSize` cover all five rows and the shared buffers are
allocated for five rows, the call returns, and the row of the third sub-batch is still zero
in `activationResults[0]`, which therefore is not the whole mini-batch, and in the last
shared activation buffer; the serial `forwardPass` on the same five rows stores all of
them. -/
theorem forwardPassParallel_drops_extra_subBatches :
    startRowsOf exampleFiveRows = [0, 2, 4] ∧ batchSizeOf exampleFiveRows = 5 ∧
      (returnedActivations (forwardPassParallel exampleStats 2 exampleTwoWorkerNet
        exampleFiveRows exampleFiveRowLabels)).map (fun ar => ar.getD 0 default) =
        some ⟨2, [[1, 2], [3, 4], [5, 6], [7, 8], [0, 0]]⟩ ∧
      wholeBatch 2 exampleFiveRows = ⟨2, [[1, 2], [3, 4], [5, 6], [7, 8], [9, 10]]⟩ ∧
      (returnedActivations (forwardPassParallel exampleStats 2 exampleTwoWorkerNet
        exampleFiveRows exampleFiveRowLabels)).map (fun ar => ar.getD 0 default) ≠
        some (wholeBatch 2 exampleFiveRows) ∧
      (returnedActivations (forwardPassParallel exampleStats 2 exampleTwoWorkerNet
        exampleFiveRows exampleFiveRowLabels)).map
          (fun ar => ((ar.getD 2 default).rows.getD 4 [], (ar.getD 2 default).getNumRows)) =
        some ([0, 0, 0], 5) ∧
      (forwardPass exampleStats exampleTwoWorkerNet (wholeBatch 2 exampleFiveRows)
        exampleFiveRowLabels.flatten).2.activationResults.getD 0 default =
        wholeBatch 2 exampleFiveRows := by
  refine ⟨by decide!, by decide!, by decide!, by decide!, by decide!, by decide!, by decide!⟩

/-! ## The training loop: the epoch loop and its two breaks -/

/-- One turn of the epoch loop that takes no `break`. -/
theorem epochLoop_continue {σ : Type} (body : Nat → σ → Except (NetworkError × σ) (σ × ℚ))
    (earlyStopping : Nat) (maxTimeMs : Int) (elapsedMs : Nat → Int) (n i : Nat) (st st1 : σ)
    (best best1 : EarlyStop) (valCE : ℚ)
    (hbody : body i st = Except.ok (st1, valCE))
    (hcheck : checkStop earlyStopping maxTimeMs (elapsedMs i) valCE i best = (best1, none)) :
    epochLoop body earlyStopping maxTimeMs elapsedMs (n + 1) i st best =
      epochLoop body earlyStopping maxTimeMs elapsedMs n (i + 1) st1 best1 := by
  simp only [epochLoop, hbody, hcheck]

/-- One turn of the epoch loop that takes a `break`. -/
theorem epochLoop_break {σ : Type} (body : Nat → σ → Except (NetworkError × σ) (σ × ℚ))
    (earlyStopping : Nat) (maxTimeMs : Int) (elapsedMs : Nat → Int) (n i : Nat) (st st1 : σ)
    (best best1 : EarlyStop) (valCE : ℚ) (ex : Exit)
    (hbody : body i st = Except.ok (st1, valCE))
    (hcheck : checkStop earlyStopping maxTimeMs (elapsedMs i) valCE i best =
      (best1, some ex)) :
    epochLoop body earlyStopping maxTimeMs elapsedMs (n + 1) i st best =
      ⟨ex, i + 1, st1, best1⟩ := by
  simp only [epochLoop, hbody, hcheck]

/-- One turn of the epoch loop in which the body throws. -/
theorem epochLoop_throw {σ : Type} (body : Nat → σ → Except (NetworkError × σ) (σ × ℚ))
    (earlyStopping : Nat) (maxTimeMs : Int) (elapsedMs : Nat → Int) (n i : Nat) (st st1 : σ)
    (best : EarlyStop) (e : NetworkError)
    (hbody : body i st = Except.error (e, st1)) :
    epochLoop body earlyStopping maxTimeMs elapsedMs (n + 1) i st best =
      ⟨Exit.exception e, i, st1, best⟩ := by
  simp only [epochLoop, hbody]

/-- The checks at the end of an epoch without a time budget and with a patience that is not
zero: the best value is replaced by a smaller one, and the `break` is taken exactly when the
epoch is `earlyStopping` epochs after the recorded one. -/
theorem checkStop_patience (earlyStopping : Nat) (d : Int) (valCE : ℚ) (i : Nat)
    (best : EarlyStop) (hp : earlyStopping ≠ 0) :
    checkStop earlyStopping 0 d valCE i best =
      (if valCE < best.currentBestCE then ⟨valCE, i⟩ else best,
        if (i + 2 ^ 64 - (if valCE < best.currentBestCE then (⟨valCE, i⟩ : EarlyStop)
            else best).epochOfBestCE) % 2 ^ 64 = earlyStopping
        then some Exit.earlyStop else none) := by
  unfold checkStop
  simp only [hp, ne_eq, not_false_eq_true, true_and, not_true_eq_false, false_and, if_false]
  split <;> split <;> rfl

/-- The checks at the end of an epoch with patience zero and no time budget change nothing
and take no `break`. -/
theorem checkStop_disabled (d : Int) (valCE : ℚ) (i : Nat) (best : EarlyStop) :
    checkStop 0 0 d valCE i best = (best, none) := by
  simp [checkStop]

/-- A turn of the epoch loop, without time budget, in which the validation cross-entropy
does not improve on the best one and the epoch is not yet `earlyStopping` epochs after the
recorded one: the loop goes on with the same record. -/
theorem epochLoop_keep {σ : Type} (body : Nat → σ → Except (NetworkError × σ) (σ × ℚ))
    (earlyStopping : Nat) (elapsedMs : Nat → Int) (n i : Nat) (st st1 : σ)
    (best : EarlyStop) (valCE : ℚ) (hp : earlyStopping ≠ 0)
    (hbody : body i st = Except.ok (st1, valCE))
    (hno : ¬ valCE < best.currentBestCE)
    (hnb : (i + 2 ^ 64 - best.epochOfBestCE) % 2 ^ 64 ≠ earlyStopping) :
    epochLoop body earlyStopping 0 elapsedMs (n + 1) i st best =
      epochLoop body earlyStopping 0 elapsedMs n (i + 1) st1 best := by
  apply epochLoop_continue body earlyStopping 0 elapsedMs n i st st1 best best valCE hbody
  rw [checkStop_patience earlyStopping _ valCE i best hp]
  simp only [if_neg hno, if_neg hnb]

/-- A turn of the epoch loop, without time budget, in which the validation cross-entropy
improves on the best one: the epoch is recorded and the loop goes on. -/
theorem epochLoop_improve {σ : Type} (body : Nat → σ → Except (NetworkError × σ) (σ × ℚ))
    (earlyStopping : Nat) (elapsedMs : Nat → Int) (n i : Nat) (st st1 : σ)
    (best : EarlyStop) (valCE : ℚ) (hp : earlyStopping ≠ 0)
    (hbody : body i st = Except.ok (st1, valCE))
    (himp : valCE < best.currentBestCE) :
    epochLoop body earlyStopping 0 elapsedMs (n + 1) i st best =
      epochLoop body earlyStopping 0 elapsedMs n (i + 1) st1 ⟨valCE, i⟩ := by
  apply epochLoop_continue body earlyStopping 0 elapsedMs n i st st1 best ⟨valCE, i⟩ valCE
    hbody
  rw [checkStop_patience earlyStopping _ valCE i best hp]
  have hnb : ¬ (i + 2 ^ 64 - i) % 2 ^ 64 = earlyStopping := by omega
  simp only [if_pos himp, if_neg hnb]

/-- A turn of the epoch loop in which the validation cross-entropy does not improve on the
best one and the epoch is `earlyStopping` epochs after the recorded one: the loop ends. -/
theorem epochLoop_patience_over {σ : Type}
    (body : Nat → σ → Except (NetworkError × σ) (σ × ℚ))
    (earlyStopping : Nat) (elapsedMs : Nat → Int) (n i : Nat) (st st1 : σ)
    (best : EarlyStop) (valCE : ℚ) (hp : earlyStopping ≠ 0)
    (hbody : body i st = Except.ok (st1, valCE))
    (hno : ¬ valCE < best.currentBestCE)
    (hb : (i + 2 ^ 64 - best.epochOfBestCE) % 2 ^ 64 = earlyStopping) :
    epochLoop body earlyStopping 0 elapsedMs (n + 1) i st best =
      ⟨Exit.earlyStop, i + 1, st1, best⟩ := by
  apply epochLoop_break body earlyStopping 0 elapsedMs n i st st1 best best valCE _ hbody
  rw [checkStop_patience earlyStopping _ valCE i best hp]
  simp only [if_neg hno, if_pos hb]

/-- From an epoch `m` that improves on the best validation cross-entropy and is followed by
two epochs that are not below it, the loop with patience 2 runs those two epochs and
stops. -/
theorem epochLoop_after_minimum {σ : Type}
    (body : Nat → σ → Except (NetworkError × σ) (σ × ℚ)) (elapsedMs : Nat → Int)
    (n m : Nat) (ss : Nat → σ) (cs : Nat → ℚ) (best : EarlyStop)
    (hm : m + 2 < 2 ^ 64)
    (hchain : ∀ i, m ≤ i → i < m + 3 → body i (ss i) = Except.ok (ss (i + 1), cs i))
    (himp : cs m < best.currentBestCE)
    (h1 : cs m ≤ cs (m + 1)) (h2 : cs m ≤ cs (m + 2)) :
    epochLoop body 2 0 elapsedMs (n + 3) m (ss m) best =
      ⟨Exit.earlyStop, m + 3, ss (m + 3), ⟨cs m, m⟩⟩ := by
  rw [epochLoop_improve body 2 elapsedMs (n + 2) m (ss m) (ss (m + 1)) best (cs m) (by decide)
    (hchain m (Nat.le_refl _) (by omega)) himp]
  rw [epochLoop_keep body 2 elapsedMs (n + 1) (m + 1) (ss (m + 1)) (ss (m + 1 + 1)) ⟨cs m, m⟩
    (cs (m + 1)) (by decide) (hchain (m + 1) (by omega) (by omega)) (not_lt.mpr h1)
    (by show (m + 1 + 2 ^ 64 - m) % 2 ^ 64 ≠ 2; omega)]
  rw [epochLoop_patience_over body 2 elapsedMs n (m + 1 + 1) (ss (m + 1 + 1))
    (ss (m + 1 + 1 + 1)) ⟨cs m, m⟩ (cs (m + 1 + 1)) (by decide)
    (hchain (m + 1 + 1) (by omega) (by omega)) (not_lt.mpr h2)
    (by show (m + 1 + 1 + 2 ^ 64 - m) % 2 ^ 64 = 2; omega)]

theorem EarlyStop.record_currentBestCE (best : EarlyStop) (valCE : ℚ) (i : Nat) :
    (best.record valCE i).currentBestCE = min best.currentBestCE valCE := by
  unfold EarlyStop.record
  split
  · rename_i h
    exact (min_eq_right (le_of_lt h)).symm
  · rename_i h
    exact (min_eq_left (not_lt.mp h)).symm

theorem EarlyStop.record_epochOfBestCE (best : EarlyStop) (valCE : ℚ) (i : Nat) :
    (best.record valCE i).epochOfBestCE =
      if valCE < best.currentBestCE then i else best.epochOfBestCE := by
  unfold EarlyStop.record
  split <;> rfl

/-- A turn of the epoch loop, without time budget, that takes no `break`: either the
validation cross-entropy improves on the best one, or the epoch is not yet `earlyStopping`
epochs after the recorded one. -/
theorem epochLoop_turn {σ : Type} (body : Nat → σ → Except (NetworkError × σ) (σ × ℚ))
    (earlyStopping : Nat) (elapsedMs : Nat → Int) (n i : Nat) (st st1 : σ)
    (best : EarlyStop) (valCE : ℚ) (hp : earlyStopping ≠ 0)
    (hbody : body i st = Except.ok (st1, valCE))
    (hnb : ¬ valCE < best.currentBestCE →
      (i + 2 ^ 64 - best.epochOfBestCE) % 2 ^ 64 ≠ earlyStopping) :
    epochLoop body earlyStopping 0 elapsedMs (n + 1) i st best =
      epochLoop body earlyStopping 0 elapsedMs n (i + 1) st1 (best.record valCE i) := by
  unfold EarlyStop.record
  by_cases c : valCE < best.currentBestCE
  · rw [if_pos c]
    exact epochLoop_improve body earlyStopping elapsedMs n i st st1 best valCE hp hbody c
  · rw [if_neg c]
    exact epochLoop_keep body earlyStopping elapsedMs n i st st1 best valCE hp hbody c (hnb c)

/-- C13, as stated, fails: with patience 2 and no time budget, `fit` stops after its third
epoch (loop index 2) on the validation cross-entropies 20000, 20000, 15000, 20000, ...,
whose minimum is at the third epoch but not below the initial best value 10000, and also on
5, 6, 7, 1, 8, 9, whose minimum is at loop index 3, an epoch that is never run because no
epoch improved on the first one for two epochs. -/
theorem early_stop_before_epoch_five :
    ((fit (exampleCollaborators [20000, 20000, 15000, 20000, 20000, 20000]) exampleFitNet
        exampleFitSplit 10 1 (1 / 10) 0 0 ⟨0⟩ 2 0).exit = Exit.earlyStop ∧
      (fit (exampleCollaborators [20000, 20000, 15000, 20000, 20000, 20000]) exampleFitNet
        exampleFitSplit 10 1 (1 / 10) 0 0 ⟨0⟩ 2 0).epochs = 3) ∧
      (fit (exampleCollaborators [5, 6, 7, 1, 8, 9]) exampleFitNet
        exampleFitSplit 10 1 (1 / 10) 0 0 ⟨0⟩ 2 0).exit = Exit.earlyStop ∧
      (fit (exampleCollaborators [5, 6, 7, 1, 8, 9]) exampleFitNet
        exampleFitSplit 10 1 (1 / 10) 0 0 ⟨0⟩ 2 0).epochs = 3 := by
  refine ⟨⟨by decide!, by decide!⟩, by decide!, by decide!⟩

/-- C13, amended: take the epoch loop of `fit` or of `parallelFit` (`epochLoop` on their
epoch bodies) with patience 2, no time budget and at least `m + 3` configured epochs, whose
epochs `i < m + 3` run without exception from the states `ss i` and yield the validation
cross-entropies `cs i`.  Let the minimum be at loop index `m`: below the initial best value
10000, below all earlier values and not above the next two.  For `m = 2` (the third epoch),
and for `m = 3` when in addition epoch 1 or epoch 2 improves on the best value before it, the
loop stops by early stopping with loop index `m + 2` as the last epoch executed, having
recorded the minimum and its epoch. -/
theorem early_stop_two_epochs_after_minimum {σ : Type}
    (body : Nat → σ → Except (NetworkError × σ) (σ × ℚ)) (elapsedMs : Nat → Int)
    (numEpochs m : Nat) (ss : Nat → σ) (cs : Nat → ℚ)
    (hm : m = 2 ∨
      (m = 3 ∧ (cs 1 < min 10000 (cs 0) ∨ cs 2 < min (min 10000 (cs 0)) (cs 1))))
    (hepochs : m + 3 ≤ numEpochs)
    (hchain : ∀ i, i < m + 3 → body i (ss i) = Except.ok (ss (i + 1), cs i))
    (hsentinel : cs m < 10000)
    (hbefore : ∀ k, k < m → cs m < cs k)
    (hafter1 : cs m ≤ cs (m + 1)) (hafter2 : cs m ≤ cs (m + 2)) :
    epochLoop body 2 0 elapsedMs numEpochs 0 (ss 0) ⟨10000, 0⟩ =
      ⟨Exit.earlyStop, m + 3, ss (m + 3), ⟨cs m, m⟩⟩ := by
  obtain ⟨n, hn⟩ : ∃ n, numEpochs = n + (m + 3) := ⟨numEpochs - (m + 3), by omega⟩
  -- the first two epochs cannot be two epochs after the recorded one
  have hturn0 : ∀ k, epochLoop body 2 0 elapsedMs (k + 1) 0 (ss 0) ⟨10000, 0⟩ =
      epochLoop body 2 0 elapsedMs k 1 (ss 1) ((⟨10000, 0⟩ : EarlyStop).record (cs 0) 0) :=
    fun k => epochLoop_turn body 2 elapsedMs k 0 (ss 0) (ss 1) ⟨10000, 0⟩ (cs 0) (by decide)
      (hchain 0 (by omega)) (fun _ => by decide)
  have he0 : ((⟨10000, 0⟩ : EarlyStop).record (cs 0) 0).epochOfBestCE = 0 := by
    rw [EarlyStop.record_epochOfBestCE]
    split <;> rfl
  have hc0 : ((⟨10000, 0⟩ : EarlyStop).record (cs 0) 0).currentBestCE = min 10000 (cs 0) :=
    EarlyStop.record_currentBestCE _ _ _
  have hturn1 : ∀ k, epochLoop body 2 0 elapsedMs (k + 1) 1 (ss 1)
        ((⟨10000, 0⟩ : EarlyStop).record (cs 0) 0) =
      epochLoop body 2 0 elapsedMs k 2 (ss 2)
        (((⟨10000, 0⟩ : EarlyStop).record (cs 0) 0).record (cs 1) 1) :=
    fun k => epochLoop_turn body 2 elapsedMs k 1 (ss 1) (ss 2) _ (cs 1) (by decide)
      (hchain 1 (by omega)) (fun _ => by rw [he0]; decide)
  have hc1 : (((⟨10000, 0⟩ : EarlyStop).record (cs 0) 0).record (cs 1) 1).currentBestCE =
      min (min 10000 (cs 0)) (cs 1) := by
    rw [EarlyStop.record_currentBestCE, hc0]
  rcases hm with hm2 | ⟨hm3, himprove⟩
  · subst hm2
    rw [hn, show n + (2 + 3) = n + 3 + 1 + 1 from rfl, hturn0, hturn1]
    have himp : cs 2 <
        (((⟨10000, 0⟩ : EarlyStop).record (cs 0) 0).record (cs 1) 1).currentBestCE := by
      rw [hc1]
      exact lt_min (lt_min hsentinel (hbefore 0 (by decide))) (hbefore 1 (by decide))
    exact epochLoop_after_minimum body elapsedMs n 2 ss cs _ (by decide)
      (fun i _ hi => hchain i hi) himp hafter1 hafter2
  · subst hm3
    have he1 : ¬ cs 2 < min (min 10000 (cs 0)) (cs 1) →
        (((⟨10000, 0⟩ : EarlyStop).record (cs 0) 0).record (cs 1) 1).epochOfBestCE = 1 := by
      intro hno
      rw [EarlyStop.record_epochOfBestCE, hc0]
      rcases himprove with h | h
      · rw [if_pos h]
      · exact absurd h hno
    have hturn2 : ∀ k, epochLoop body 2 0 elapsedMs (k + 1) 2 (ss 2)
          (((⟨10000, 0⟩ : EarlyStop).record (cs 0) 0).record (cs 1) 1) =
        epochLoop body 2 0 elapsedMs k 3 (ss 3)
          ((((⟨10000, 0⟩ : EarlyStop).record (cs 0) 0).record (cs 1) 1).record (cs 2) 2) :=
      fun k => epochLoop_turn body 2 elapsedMs k 2 (ss 2) (ss 3) _ (cs 2) (by decide)
        (hchain 2 (by omega)) (fun hno => by
          rw [hc1] at hno
          rw [he1 hno]
          decide)
    rw [hn, show n + (3 + 3) = n + 3 + 1 + 1 + 1 from rfl, hturn0, hturn1, hturn2]
    have himp : cs 3 <
        ((((⟨10000, 0⟩ : EarlyStop).record (cs 0) 0).record (cs 1) 1).record
          (cs 2) 2).currentBestCE := by
      rw [EarlyStop.record_currentBestCE, hc1]
      have h01 := lt_min (lt_min hsentinel (hbefore 0 (by decide))) (hbefore 1 (by decide))
      exact lt_min h01 (hbefore 2 (by decide))
    exact epochLoop_after_minimum body elapsedMs n 3 ss cs _ (by decide)
      (fun i _ hi => hchain i hi) himp hafter1 hafter2

theorem exampleEpoch_chain (i : Nat) (hi : i < 6) :
    exampleEpoch i (exampleFitStates i) =
      Except.ok (exampleFitStates (i + 1), exampleFitCEs i) := by
  interval_cases i <;> rfl

theorem early_stop_two_epochs_after_minimum_witness :
    ((2 = 2 ∨ (2 = 3 ∧ (exampleFitCEs 1 < min 10000 (exampleFitCEs 0) ∨
          exampleFitCEs 2 < min (min 10000 (exampleFitCEs 0)) (exampleFitCEs 1)))) ∧
        2 + 3 ≤ 10 ∧
        (∀ i, i < 2 + 3 → exampleEpoch i (exampleFitStates i) =
          Except.ok (exampleFitStates (i + 1), exampleFitCEs i)) ∧
        exampleFitCEs 2 < 10000 ∧ (∀ k, k < 2 → exampleFitCEs 2 < exampleFitCEs k) ∧
        exampleFitCEs 2 ≤ exampleFitCEs (2 + 1) ∧ exampleFitCEs 2 ≤ exampleFitCEs (2 + 2)) ∧
      epochLoop exampleEpoch 2 0 (fun _ => 0) 10 0 (exampleFitStates 0) ⟨10000, 0⟩ =
        ⟨Exit.earlyStop, 2 + 3, exampleFitStates (2 + 3),
          ⟨exampleFitCEs 2, 2⟩⟩ :=
  ⟨⟨Or.inl rfl, by decide, fun i hi => exampleEpoch_chain i (by omega), by decide!,
      fun k hk => by interval_cases k <;> decide!, by decide!, by decide!⟩,
    early_stop_two_epochs_after_minimum exampleEpoch (fun _ => 0) 10 2 exampleFitStates
      exampleFitCEs (Or.inl rfl) (by decide) (fun i hi => exampleEpoch_chain i (by omega))
      (by decide!) (fun k hk => by interval_cases k <;> decide!) (by decide!) (by decide!)⟩

theorem exampleFitCEs_values : (List.range 5).map exampleFitCEs = [4, 1, 0, 1, 4] := by
  decide!

/-! ## The training loop: the rate precondition -/

theorem fit_eq_epochLoop (c : Collaborators) (net : Network) (split : TrainValSplit)
    (numEpochs batchSize : Nat) (eta lambda : ℚ) (verboseLevel : Nat) (sched : LRScheduler)
    (earlyStopping : Nat) (maxTimeMs : Int) (heta : ¬ eta < 0) :
    fit c net split numEpochs batchSize eta lambda verboseLevel sched earlyStopping
        maxTimeMs =
      epochLoop
        (fitEpoch c split (c.generateBatches split.trainData batchSize).length batchSize
          lambda verboseLevel)
        earlyStopping maxTimeMs c.elapsedMs numEpochs 0
        ⟨net, { sched with eta := eta }, split.trainData, split.trainLabels, eta, 0, 0, 0,
          [Event.setEta eta]⟩ ⟨10000, 0⟩ := by
  unfold fit
  rw [if_neg heta]

theorem parallelFit_eq_epochLoop (c : Collaborators) (numThreads : Nat) (net : Network)
    (split : TrainValSplit) (numEpochs batchSize : Nat) (eta lambda : ℚ) (verboseLevel : Nat)
    (sched : LRScheduler) (earlyStopping : Nat) (maxTimeMs : Int) (heta : ¬ eta < 0)
    (hthreads : numThreads ≠ 0) :
    parallelFit c numThreads net split numEpochs batchSize eta lambda verboseLevel sched
        earlyStopping maxTimeMs =
      epochLoop
        (parallelFitEpoch c numThreads
          (c.generateBatches split.validationData
            (split.validationData.getNumRows / numThreads))
          (c.generateVectorBatches split.validationLabels
            (split.validationLabels.length / numThreads))
          (c.generateBatches split.trainData batchSize).length batchSize lambda verboseLevel)
        earlyStopping maxTimeMs c.elapsedMs numEpochs 0
        ⟨net, { sched with eta := eta }, split.trainData, split.trainLabels, eta, 0, 0, 0,
          [Event.setEta eta]⟩ ⟨10000, 0⟩ := by
  unfold parallelFit
  rw [if_neg heta, if_neg hthreads]

/-- With no worker and a rate that is not negative, `parallelFit` has no defined result:
it divides by zero before any call is made. -/
theorem parallelFit_no_worker (c : Collaborators) (net : Network) (split : TrainValSplit)
    (numEpochs batchSize : Nat) (eta lambda : ℚ) (verboseLevel : Nat) (sched : LRScheduler)
    (earlyStopping : Nat) (maxTimeMs : Int) (heta : ¬ eta < 0) :
    parallelFit c 0 net split numEpochs batchSize eta lambda verboseLevel sched
        earlyStopping maxTimeMs =
      ⟨Exit.undefined, 0,
        ⟨net, sched, split.trainData, split.trainLabels, eta, 0, 0, 0, []⟩, ⟨10000, 0⟩⟩ := by
  unfold parallelFit
  rw [if_neg heta, if_pos rfl]

/-- The checks at the end of an epoch end the loop only by one of the two `break`s. -/
theorem checkStop_exit (earlyStopping : Nat) (maxTimeMs d : Int) (valCE : ℚ) (i : Nat)
    (best best1 : EarlyStop) (ex : Exit)
    (h : checkStop earlyStopping maxTimeMs d valCE i best = (best1, some ex)) :
    ex = Exit.earlyStop ∨ ex = Exit.timeBudget := by
  unfold checkStop at h
  dsimp only at h
  split_ifs at h
  all_goals first
    | (left; exact (Option.some.inj (Prod.mk.inj h).2).symm)
    | (right; exact (Option.some.inj (Prod.mk.inj h).2).symm)
    | exact absurd (Prod.mk.inj h).2 (by simp)

/-- An exception that ends the epoch loop was thrown by the epoch body. -/
theorem epochLoop_exception {σ : Type} (body : Nat → σ → Except (NetworkError × σ) (σ × ℚ))
    (earlyStopping : Nat) (maxTimeMs : Int) (elapsedMs : Nat → Int) (P : NetworkError → Prop)
    (hbody : ∀ i st e st1, body i st = Except.error (e, st1) → P e) :
    ∀ n i st best e,
      (epochLoop body earlyStopping maxTimeMs elapsedMs n i st best).exit =
        Exit.exception e → P e := by
  intro n
  induction n with
  | zero =>
    intro i st best e h
    simp [epochLoop] at h
  | succ n ih =>
    intro i st best e h
    cases hb : body i st with
    | error es =>
      obtain ⟨e1, st1⟩ := es
      rw [epochLoop_throw body earlyStopping maxTimeMs elapsedMs n i st st1 best e1 hb] at h
      simp only [Exit.exception.injEq] at h
      rw [← h]
      exact hbody i st e1 st1 hb
    | ok r =>
      obtain ⟨st1, valCE⟩ := r
      cases hc : checkStop earlyStopping maxTimeMs (elapsedMs i) valCE i best with
      | mk best1 o =>
        cases o with
        | none =>
          rw [epochLoop_continue body earlyStopping maxTimeMs elapsedMs n i st st1 best best1
            valCE hb hc] at h
          exact ih (i + 1) st1 best1 e h
        | some ex =>
          rw [epochLoop_break body earlyStopping maxTimeMs elapsedMs n i st st1 best best1
            valCE ex hb hc] at h
          simp only [] at h
          rcases checkStop_exit earlyStopping maxTimeMs _ valCE i best best1 ex hc with h1 | h1
          · rw [h1] at h
            simp at h
          · rw [h1] at h
            simp at h

/-- An exception that ends a loop with `foldStop` was thrown by its body. -/
theorem foldStop_exception {σ α : Type} (f : σ → α → Except (NetworkError × σ) σ)
    (P : NetworkError → Prop) (hf : ∀ s a e s1, f s a = Except.error (e, s1) → P e) :
    ∀ (l : List α) (s : σ) e s1, foldStop f s l = Except.error (e, s1) → P e := by
  intro l
  induction l with
  | nil =>
    intro s e s1 h
    simp [foldStop] at h
  | cons a l ih =>
    intro s e s1 h
    cases hb : f s a with
    | error es =>
      simp only [foldStop, hb] at h
      obtain ⟨e1, s2⟩ := es
      have h2 := Except.error.inj h
      have h3 := (Prod.mk.inj h2).1
      rw [← h3]
      exact hf s a e1 s2 hb
    | ok s2 =>
      simp only [foldStop, hb] at h
      exact ih s2 e s1 h

/-- An exception of a loop with `foldExcept` was thrown by its body. -/
theorem foldExcept_exception {σ α : Type} (f : σ → α → Except NetworkError σ)
    (P : NetworkError → Prop) (hf : ∀ s a e, f s a = Except.error e → P e) :
    ∀ (l : List α) (s : σ) e, foldExcept f s l = Except.error e → P e := by
  intro l
  induction l with
  | nil =>
    intro s e h
    simp [foldExcept] at h
  | cons a l ih =>
    intro s e h
    cases hb : f s a with
    | error e1 =>
      simp only [foldExcept, hb] at h
      rw [← Except.error.inj h]
      exact hf s a e1 hb
    | ok s2 =>
      simp only [foldExcept, hb] at h
      exact ih s2 e h

theorem bind_exception {α β : Type} (x : Except NetworkError α)
    (f : α → Except NetworkError β) (P : NetworkError → Prop)
    (hx : ∀ e, x = Except.error e → P e) (hf : ∀ a e, f a = Except.error e → P e) :
    ∀ e, x.bind f = Except.error e → P e := by
  intro e h
  cases x with
  | error e1 =>
    have he : e1 = e := Except.error.inj h
    rw [← he]
    exact hx e1 rfl
  | ok a =>
    exact hf a e h

theorem map_exception {α β : Type} (x : Except NetworkError α) (f : α → β)
    (P : NetworkError → Prop) (hx : ∀ e, x = Except.error e → P e) :
    ∀ e, x.map f = Except.error e → P e := by
  intro e h
  cases x with
  | error e1 =>
    have he : e1 = e := Except.error.inj h
    rw [← he]
    exact hx e1 rfl
  | ok a =>
    simp [Except.map] at h

theorem copyPart_exception (res part : Matrix) (startRow : Nat) :
    ∀ e, copyPart res part startRow = Except.error e →
      e ≠ NetworkError.NegativeEtaException := by
  intro e h
  unfold copyPart at h
  split at h
  · rw [← Except.error.inj h]
    decide
  · cases h

theorem copyPartAt_exception (buf : List Matrix) (i : Nat) (part : Matrix) (startRow : Nat) :
    ∀ e, copyPartAt buf i part startRow = Except.error e →
      e ≠ NetworkError.NegativeEtaException :=
  map_exception _ _ _ (copyPart_exception _ _ _)

theorem workerForward_exception (net : Network) (dataK : Matrix) (startRow : Nat)
    (ar adr : List Matrix) :
    ∀ e, workerForward net dataK startRow ar adr = Except.error e →
      e ≠ NetworkError.NegativeEtaException := by
  unfold workerForward
  apply bind_exception
  · unfold workerForwardInit
    dsimp only
    apply bind_exception _ _ _ (copyPartAt_exception _ _ _ _)
    intro a
    apply bind_exception _ _ _ (copyPartAt_exception _ _ _ _)
    intro b e h
    split at h
    · cases h
    · exact map_exception _ _ _ (copyPartAt_exception _ _ _ _) e h
  · intro fwd0
    apply foldExcept_exception
    intro st i
    unfold workerForwardBody
    dsimp only
    apply bind_exception _ _ _ (copyPartAt_exception _ _ _ _)
    intro b e h
    split at h
    · cases h
    · exact map_exception _ _ _ (copyPartAt_exception _ _ _ _) e h

theorem workerGradients_exception (net : Network) (pAR pADR : List Matrix)
    (labelsK : List Nat) (startRow : Nat) (pDW0 deltaWeights : List Matrix) :
    ∀ e, workerGradients net pAR pADR labelsK startRow pDW0 deltaWeights = Except.error e →
      e ≠ NetworkError.NegativeEtaException := by
  intro e h
  unfold workerGradients at h
  dsimp only at h
  split at h
  · rw [← Except.error.inj h]
    decide
  · revert e
    apply bind_exception _ _ _ (copyPartAt_exception _ _ _ _)
    intro dW
    apply foldExcept_exception
    intro st i
    unfold workerBackBody
    dsimp only
    exact map_exception _ _ _ (copyPartAt_exception _ _ _ _)

theorem workerBody_exception (getStats : Matrix → List Nat → Stats) (data : List Matrix)
    (labels : List (List Nat)) (startRows : List Nat) (st : ParallelState) (k : Nat) :
    ∀ e, workerBody getStats data labels startRows st k = Except.error e →
      e ≠ NetworkError.NegativeEtaException := by
  intro e h
  unfold workerBody at h
  split at h
  · cases h
  · revert e
    dsimp only
    apply bind_exception _ _ _ (workerForward_exception _ _ _ _ _)
    intro fwd
    exact map_exception _ _ _ (workerGradients_exception _ _ _ _ _ _ _)

/-- The exception that `forwardPassParallel` throws is never `NegativeEtaException`. -/
theorem forwardPassParallel_exception (getStats : Matrix → List Nat → Stats)
    (numThreads : Nat) (net : Network) (data : List Matrix) (labels : List (List Nat)) :
    ∀ e, forwardPassParallel getStats numThreads net data labels = Except.error e →
      e ≠ NetworkError.NegativeEtaException := by
  unfold forwardPassParallel
  dsimp only
  apply bind_exception
  · unfold parallelInit
    dsimp only
    apply map_exception
    apply foldExcept_exception
    intro s w e h
    unfold allocBody at h
    dsimp only at h
    split at h
    · rw [← Except.error.inj h]
      decide
    · cases h
  · intro net1
    apply map_exception
    apply foldExcept_exception
    intro st k
    exact workerBody_exception getStats data labels _ st k

/-- The failure of `predictParallel` is never `NegativeEtaException`. -/
theorem predictParallel_exception (getStats : Matrix → List Nat → Stats) (numThreads : Nat)
    (net : Network) (dataBatches : List Matrix) (labels : List (List Nat)) :
    ∀ e, predictParallel getStats numThreads net dataBatches labels = Except.error e →
      e ≠ NetworkError.NegativeEtaException := by
  unfold predictParallel
  apply map_exception
  apply foldExcept_exception
  intro st k e h
  unfold predictWorker at h
  split at h
  · rw [← Except.error.inj h]
    decide
  · cases h

/-- The exception that `backProp` throws is `WrongOutputActivationFunction`. -/
theorem backProp_exception (net : Network) (labels : List Nat) :
    ∀ e, (backProp net labels).1 = Except.error e →
      e = NetworkError.WrongOutputActivationFunction := by
  intro e h
  unfold backProp at h
  dsimp only at h
  split at h
  · exact (Except.error.inj h).symm
  · cases h

/-- The exception that the call of `backProp` in the batch loop throws is
`WrongOutputActivationFunction`. -/
theorem TrainState.backward_exception (trainBatches_y : List (List Nat)) (i j : Nat)
    (st : TrainState) (e : NetworkError) (st1 : TrainState)
    (h : st.backward trainBatches_y i j = Except.error (e, st1)) :
    e = NetworkError.WrongOutputActivationFunction := by
  unfold TrainState.backward at h
  dsimp only at h
  split at h
  · rename_i e4 hback
    have h4 : e4 = e := (Prod.mk.inj (Except.error.inj h)).1
    rw [← h4]
    exact backProp_exception _ _ e4 hback
  · cases h

/-- The exception that the call of `forwardPassParallel` in the batch loop throws is never
`NegativeEtaException`. -/
theorem TrainState.forwardParallel_exception (c : Collaborators) (numThreads : Nat)
    (parallelBatches_X : List (List Matrix)) (parallelBatches_y : List (List (List Nat)))
    (i j : Nat) (st : TrainState) (e : NetworkError) (st1 : TrainState)
    (h : st.forwardParallel c numThreads parallelBatches_X parallelBatches_y i j =
      Except.error (e, st1)) :
    e ≠ NetworkError.NegativeEtaException := by
  unfold TrainState.forwardParallel at h
  dsimp only at h
  split at h
  · rename_i e4 hfwd
    have h4 : e4 = e := (Prod.mk.inj (Except.error.inj h)).1
    rw [← h4]
    exact forwardPassParallel_exception _ _ _ _ _ e4 hfwd
  · cases h

/-- The exception that an epoch of `fit` throws is never `NegativeEtaException`. -/
theorem fitEpoch_exception (c : Collaborators) (split : TrainValSplit)
    (numBatches batchSize : Nat) (lambda : ℚ) (verboseLevel : Nat) (i : Nat) (st : TrainState)
    (e : NetworkError) (st1 : TrainState)
    (h : fitEpoch c split numBatches batchSize lambda verboseLevel i st =
      Except.error (e, st1)) :
    e ≠ NetworkError.NegativeEtaException := by
  unfold fitEpoch at h
  dsimp only at h
  cases hf : foldStop (fitBatch c
      (c.generateBatches (c.randomShuffle i st.shuffledTrain_X st.shuffledTrain_y).1 batchSize)
      (c.generateVectorBatches (c.randomShuffle i st.shuffledTrain_X st.shuffledTrain_y).2
        batchSize) lambda batchSize i)
      { st with
        shuffledTrain_X := (c.randomShuffle i st.shuffledTrain_X st.shuffledTrain_y).1
        shuffledTrain_y := (c.randomShuffle i st.shuffledTrain_X st.shuffledTrain_y).2
        trace := st.trace ++ [Event.randomShuffle i] } (List.range numBatches) with
  | ok st2 =>
    rw [hf] at h
    cases h
  | error es =>
    rw [hf] at h
    obtain ⟨e2, st2⟩ := es
    have h2 : e2 = e := (Prod.mk.inj (Except.error.inj h)).1
    rw [← h2]
    refine foldStop_exception _ (fun e => e ≠ NetworkError.NegativeEtaException) ?_ _ _ e2 st2 hf
    intro s j e3 s3 hb
    unfold fitBatch at hb
    dsimp only at hb
    split at hb
    · rename_i es4 hback
      obtain ⟨e4, s4⟩ := es4
      have h4 : e4 = e3 := (Prod.mk.inj (Except.error.inj hb)).1
      rw [← h4, TrainState.backward_exception _ _ _ _ e4 s4 hback]
      decide
    · cases hb

/-- The exception that an epoch of `parallelFit` throws is never `NegativeEtaException`. -/
theorem parallelFitEpoch_exception (c : Collaborators) (numThreads : Nat)
    (validationBatches_X : List Matrix) (validationBatches_y : List (List Nat))
    (numBatches batchSize : Nat) (lambda : ℚ) (verboseLevel : Nat) (i : Nat) (st : TrainState)
    (e : NetworkError) (st1 : TrainState)
    (h : parallelFitEpoch c numThreads validationBatches_X validationBatches_y numBatches
      batchSize lambda verboseLevel i st = Except.error (e, st1)) :
    e ≠ NetworkError.NegativeEtaException := by
  unfold parallelFitEpoch at h
  dsimp only at h
  split at h
  · rename_i es hf
    obtain ⟨e2, st2⟩ := es
    have h2 : e2 = e := (Prod.mk.inj (Except.error.inj h)).1
    rw [← h2]
    refine foldStop_exception _ (fun e => e ≠ NetworkError.NegativeEtaException) ?_ _ _ e2 st2 hf
    intro s j e3 s3 hb
    unfold parallelFitBatch at hb
    dsimp only at hb
    split at hb
    · rename_i es4 hfwd
      obtain ⟨e4, s4⟩ := es4
      have h4 : e4 = e3 := (Prod.mk.inj (Except.error.inj hb)).1
      rw [← h4]
      exact TrainState.forwardParallel_exception _ _ _ _ _ _ _ e4 s4 hfwd
    · cases hb
  · split at h
    · rename_i st2 hf e4 hpred
      have h4 : e4 = e := (Prod.mk.inj (Except.error.inj h)).1
      rw [← h4]
      exact predictParallel_exception _ _ _ _ _ e4 hpred
    · cases h

/-- C12: `fit` and `parallelFit` end with `NegativeEtaException` exactly when `eta < 0`, and
then no epoch has run: no call has been made (no `setEta`, no shuffle, forward, backward,
decay or update), and the network, with its weights and biases, and the scheduler are as
they were. -/
theorem fit_negative_eta (c : Collaborators) (numThreads : Nat) (net : Network)
    (split : TrainValSplit) (numEpochs batchSize : Nat) (eta lambda : ℚ) (verboseLevel : Nat)
    (sched : LRScheduler) (earlyStopping : Nat) (maxTimeMs : Int) :
    ((fit c net split numEpochs batchSize eta lambda verboseLevel sched earlyStopping
        maxTimeMs).exit = Exit.exception NetworkError.NegativeEtaException ↔ eta < 0) ∧
      ((parallelFit c numThreads net split numEpochs batchSize eta lambda verboseLevel sched
        earlyStopping maxTimeMs).exit = Exit.exception NetworkError.NegativeEtaException ↔
          eta < 0) ∧
      (eta < 0 →
        ((fit c net split numEpochs batchSize eta lambda verboseLevel sched earlyStopping
            maxTimeMs).epochs = 0 ∧
          (fit c net split numEpochs batchSize eta lambda verboseLevel sched earlyStopping
            maxTimeMs).state.trace = [] ∧
          (fit c net split numEpochs batchSize eta lambda verboseLevel sched earlyStopping
            maxTimeMs).state.net = net ∧
          (fit c net split numEpochs batchSize eta lambda verboseLevel sched earlyStopping
            maxTimeMs).state.sched = sched) ∧
        (parallelFit c numThreads net split numEpochs batchSize eta lambda verboseLevel sched
            earlyStopping maxTimeMs).epochs = 0 ∧
          (parallelFit c numThreads net split numEpochs batchSize eta lambda verboseLevel
            sched earlyStopping maxTimeMs).state.trace = [] ∧
          (parallelFit c numThreads net split numEpochs batchSize eta lambda verboseLevel
            sched earlyStopping maxTimeMs).state.net = net ∧
          (parallelFit c numThreads net split numEpochs batchSize eta lambda verboseLevel
            sched earlyStopping maxTimeMs).state.sched = sched) := by
  refine ⟨⟨fun h => ?_, fun h => ?_⟩, ⟨fun h => ?_, fun h => ?_⟩, fun h => ?_⟩
  · by_contra hno
    rw [fit_eq_epochLoop c net split numEpochs batchSize eta lambda verboseLevel sched
      earlyStopping maxTimeMs hno] at h
    exact epochLoop_exception _ earlyStopping maxTimeMs c.elapsedMs
      (fun e => e ≠ NetworkError.NegativeEtaException)
      (fun i st e st1 hb => fitEpoch_exception c split _ batchSize lambda verboseLevel i st e
        st1 hb) numEpochs 0 _ _ _ h rfl
  · unfold fit
    rw [if_pos h]
  · by_contra hno
    by_cases hthreads : numThreads = 0
    · subst hthreads
      rw [parallelFit_no_worker c net split numEpochs batchSize eta lambda verboseLevel sched
        earlyStopping maxTimeMs hno] at h
      cases h
    rw [parallelFit_eq_epochLoop c numThreads net split numEpochs batchSize eta lambda
      verboseLevel sched earlyStopping maxTimeMs hno hthreads] at h
    exact epochLoop_exception _ earlyStopping maxTimeMs c.elapsedMs
      (fun e => e ≠ NetworkError.NegativeEtaException)
      (fun i st e st1 hb => parallelFitEpoch_exception c numThreads _ _ _ batchSize lambda
        verboseLevel i st e st1 hb) numEpochs 0 _ _ _ h rfl
  · unfold parallelFit
    rw [if_pos h]
  · unfold fit parallelFit
    rw [if_pos h, if_pos h]
    exact ⟨⟨rfl, rfl, rfl, rfl⟩, rfl, rfl, rfl, rfl⟩

theorem fit_negative_eta_witness :
    ((-1 : ℚ) < 0 ∧ ¬ ((1 / 10 : ℚ) < 0)) ∧
      (fit (exampleCollaborators exampleCEs) exampleFitNet exampleFitSplit 10 1 (-1) 0 0 ⟨0⟩
        2 0).exit = Exit.exception NetworkError.NegativeEtaException ∧
      (fit (exampleCollaborators exampleCEs) exampleFitNet exampleFitSplit 10 1 (-1) 0 0 ⟨0⟩
        2 0).state.trace = [] ∧
      (fit (exampleCollaborators exampleCEs) exampleFitNet exampleFitSplit 10 1 (-1) 0 0 ⟨0⟩
        2 0).state.net = exampleFitNet ∧
      (fit (exampleCollaborators exampleCEs) exampleFitNet exampleFitSplit 10 1 (1 / 10) 0 0
        ⟨0⟩ 2 0).exit ≠ Exit.exception NetworkError.NegativeEtaException ∧
      (parallelFit (exampleCollaborators exampleCEs) 1 exampleFitNet exampleFitSplit 10 1
        (1 / 10) 0 0 ⟨0⟩ 2 0).exit ≠ Exit.exception NetworkError.NegativeEtaException :=
  ⟨⟨by decide, by decide!⟩,
    (fit_negative_eta (exampleCollaborators exampleCEs) 1 exampleFitNet exampleFitSplit 10 1
      (-1) 0 0 ⟨0⟩ 2 0).1.mpr (by decide),
    ((fit_negative_eta (exampleCollaborators exampleCEs) 1 exampleFitNet exampleFitSplit 10 1
      (-1) 0 0 ⟨0⟩ 2 0).2.2 (by decide)).1.2.1,
    ((fit_negative_eta (exampleCollaborators exampleCEs) 1 exampleFitNet exampleFitSplit 10 1
      (-1) 0 0 ⟨0⟩ 2 0).2.2 (by decide)).1.2.2.1,
    fun h => absurd ((fit_negative_eta (exampleCollaborators exampleCEs) 1 exampleFitNet
      exampleFitSplit 10 1 (1 / 10) 0 0 ⟨0⟩ 2 0).1.mp h) (by decide!),
    fun h => absurd ((fit_negative_eta (exampleCollaborators exampleCEs) 1 exampleFitNet
      exampleFitSplit 10 1 (1 / 10) 0 0 ⟨0⟩ 2 0).2.1.mp h) (by decide!)⟩

/-! ## The training loop: the calls of a run -/

theorem foldStop_append {σ α : Type} (f : σ → α → Except (NetworkError × σ) σ) :
    ∀ (l1 l2 : List α) (s : σ),
      foldStop f s (l1 ++ l2) =
        match foldStop f s l1 with
        | Except.error e => Except.error e
        | Except.ok s2 => foldStop f s2 l2 := by
  intro l1
  induction l1 with
  | nil => intro l2 s; rfl
  | cons a l1 ih =>
    intro l2 s
    simp only [List.cons_append, foldStop]
    cases f s a with
    | error e => rfl
    | ok s2 => exact ih l2 s2

/-- The batches of an epoch, when none throws: every batch adds its calls to the record,
querying the scheduler with the counter, and advances the counter by the batch size; the
scheduler stays the one, `s0`, that the epoch started with. -/
theorem foldStop_trace (f : TrainState → Nat → Except (NetworkError × TrainState) TrainState)
    (batchEvents : Nat → Nat → List Event) (batchSize : Nat) (s0 : LRScheduler)
    (hf : ∀ st j st1, st.sched = s0 → f st j = Except.ok st1 →
      st1.trace = st.trace ++ batchEvents j st.t ∧ st1.t = (st.t + batchSize) % 2 ^ 64 ∧
        st1.sched = s0)
    (st : TrainState) (T : Nat) (hT : st.t = T % 2 ^ 64) (hs : st.sched = s0) :
    ∀ m st1, foldStop f st (List.range m) = Except.ok st1 →
      st1.trace = st.trace ++
          ((List.range m).map
            (fun j => batchEvents j ((T + j * batchSize) % 2 ^ 64))).flatten ∧
        st1.t = (T + m * batchSize) % 2 ^ 64 ∧ st1.sched = s0 := by
  intro m
  induction m with
  | zero =>
    intro st1 h
    simp only [List.range_zero, foldStop] at h
    rw [← Except.ok.inj h]
    simp [hT, hs]
  | succ m ih =>
    intro st1 h
    rw [List.range_succ, foldStop_append] at h
    cases hm : foldStop f st (List.range m) with
    | error e =>
      rw [hm] at h
      cases h
    | ok s2 =>
      rw [hm] at h
      obtain ⟨ih1, ih2, ih3⟩ := ih s2 hm
      simp only [foldStop] at h
      cases hb : f s2 m with
      | error e =>
        rw [hb] at h
        cases h
      | ok s3 =>
        rw [hb] at h
        simp only [] at h
        rw [← Except.ok.inj h]
        obtain ⟨h1, h2, h3⟩ := hf s2 m s3 ih3 hb
        refine ⟨?_, ?_, h3⟩
        · rw [h1, ih1, ih2, List.range_succ, List.map_append, List.flatten_append,
            List.map_cons, List.map_nil, List.flatten_cons, List.flatten_nil, List.append_nil,
            List.append_assoc]
        · rw [h2, ih2, Nat.mod_add_mod]
          congr 1
          ring

/-- The call of `backProp` in the batch loop, when it does not throw, leaves the state with
the network that `backProp` leaves. -/
theorem TrainState.backward_ok (trainBatches_y : List (List Nat)) (i j : Nat)
    (st st1 : TrainState) (h : st.backward trainBatches_y i j = Except.ok st1) :
    st1 = { st with
      net := (backProp st.net (trainBatches_y.getD j [])).2
      trace := st.trace ++ [Event.backProp i j] } := by
  unfold TrainState.backward at h
  dsimp only at h
  split at h
  · cases h
  · exact (Except.ok.inj h).symm

/-- The call of `forwardPassParallel` in the batch loop, when it does not throw, leaves the
state with the network that `forwardPassParallel` leaves. -/
theorem TrainState.forwardParallel_ok (c : Collaborators) (numThreads : Nat)
    (parallelBatches_X : List (List Matrix)) (parallelBatches_y : List (List (List Nat)))
    (i j : Nat) (st st1 : TrainState)
    (h : st.forwardParallel c numThreads parallelBatches_X parallelBatches_y i j =
      Except.ok st1) :
    ∃ stats net1,
      forwardPassParallel c.getStats numThreads st.net (parallelBatches_X.getD j [])
          (parallelBatches_y.getD j []) = Except.ok (stats, net1) ∧
        st1 = { st with
          net := net1
          accSum := st.accSum + stats.accuracy
          ceSum := st.ceSum + stats.crossEntropy
          trace := st.trace ++ [Event.forwardPassParallel i j] } := by
  unfold TrainState.forwardParallel at h
  dsimp only at h
  split at h
  · cases h
  · rename_i stats net1 hfwd
    exact ⟨stats, net1, hfwd, (Except.ok.inj h).symm⟩

/-- A batch of `fit` that does not throw: the rate is the answer of the scheduler to the
counter, the network is the result of the forward pass, the backward pass, the decay and the
update, applied in this order with that rate, the counter has advanced by the batch size,
and the calls recorded are those of the specification in its order. -/
theorem fitBatch_effect (c : Collaborators) (trainBatches_X : List Matrix)
    (trainBatches_y : List (List Nat)) (lambda : ℚ) (batchSize i : Nat) (st : TrainState)
    (j : Nat) (st1 : TrainState)
    (h : fitBatch c trainBatches_X trainBatches_y lambda batchSize i st j = Except.ok st1) :
    st1.eta = c.exponential st.sched st.t ∧
      st1.net =
        updateWeights c
          (weightDecay
            (backProp
              (forwardPass c.getStats st.net (trainBatches_X.getD j default)
                (trainBatches_y.getD j [])).2
              (trainBatches_y.getD j [])).2
            (c.exponential st.sched st.t) lambda batchSize (i + 1))
          batchSize (c.exponential st.sched st.t) ∧
      st1.t = (st.t + batchSize) % 2 ^ 64 ∧ st1.sched = st.sched ∧
      st1.trace =
        st.trace ++ serialBatchEvents (c.exponential st.sched) lambda batchSize i j st.t := by
  unfold fitBatch at h
  dsimp only at h
  split at h
  · cases h
  · rename_i st3 hback
    rw [← Except.ok.inj h, TrainState.backward_ok _ _ _ _ _ hback]
    refine ⟨rfl, rfl, rfl, rfl, ?_⟩
    simp [TrainState.advance, TrainState.update, TrainState.decay, TrainState.forward,
      TrainState.schedule, serialBatchEvents]

/-- A batch of `parallelFit` that does not throw: the rate is the answer of the scheduler to
the counter, the network is the result of the fused forward and backward pass, the decay and
the update, applied in this order with that rate, the counter has advanced by the batch
size, and the calls recorded are those of the specification in its order. -/
theorem parallelFitBatch_effect (c : Collaborators) (numThreads : Nat)
    (parallelBatches_X : List (List Matrix)) (parallelBatches_y : List (List (List Nat)))
    (lambda : ℚ) (batchSize i : Nat) (st : TrainState) (j : Nat) (st1 : TrainState)
    (h : parallelFitBatch c numThreads parallelBatches_X parallelBatches_y lambda batchSize i
      st j = Except.ok st1) :
    (∃ stats net1,
      forwardPassParallel c.getStats numThreads st.net (parallelBatches_X.getD j [])
          (parallelBatches_y.getD j []) = Except.ok (stats, net1) ∧
        st1.net =
          updateWeights c (weightDecayParallel net1 lambda) batchSize
            (c.exponential st.sched st.t)) ∧
      st1.eta = c.exponential st.sched st.t ∧
      st1.t = (st.t + batchSize) % 2 ^ 64 ∧ st1.sched = st.sched ∧
      st1.trace =
        st.trace ++ parallelBatchEvents (c.exponential st.sched) lambda batchSize i j st.t := by
  unfold parallelFitBatch at h
  dsimp only at h
  split at h
  · cases h
  · rename_i st2 hfwd
    obtain ⟨stats, net1, hrun, hst2⟩ := TrainState.forwardParallel_ok _ _ _ _ _ _ _ _ hfwd
    rw [← Except.ok.inj h, hst2]
    refine ⟨⟨stats, net1, hrun, rfl⟩, rfl, rfl, rfl, ?_⟩
    simp [TrainState.advance, TrainState.update, TrainState.decayParallel,
      TrainState.schedule, parallelBatchEvents]

/-- An epoch of `fit` that does not throw makes the calls of `epochEvents` and advances the
counter by `numBatches * batchSize`; the scheduler stays `s0`. -/
theorem fitEpoch_trace (c : Collaborators) (split : TrainValSplit)
    (numBatches batchSize : Nat) (lambda : ℚ) (verboseLevel : Nat) (i : Nat)
    (st st1 : TrainState) (valCE : ℚ) (s0 : LRScheduler)
    (h : fitEpoch c split numBatches batchSize lambda verboseLevel i st =
      Except.ok (st1, valCE))
    (ht : st.t = (i * (numBatches * batchSize)) % 2 ^ 64) (hs : st.sched = s0) :
    st1.trace = st.trace ++
        epochEvents (serialBatchEvents (c.exponential s0) lambda batchSize) Event.predict
          numBatches batchSize i ∧
      st1.t = ((i + 1) * (numBatches * batchSize)) % 2 ^ 64 ∧ st1.sched = s0 := by
  unfold fitEpoch at h
  dsimp only at h
  cases hf : foldStop (fitBatch c
      (c.generateBatches (c.randomShuffle i st.shuffledTrain_X st.shuffledTrain_y).1 batchSize)
      (c.generateVectorBatches (c.randomShuffle i st.shuffledTrain_X st.shuffledTrain_y).2
        batchSize) lambda batchSize i)
      { st with
        shuffledTrain_X := (c.randomShuffle i st.shuffledTrain_X st.shuffledTrain_y).1
        shuffledTrain_y := (c.randomShuffle i st.shuffledTrain_X st.shuffledTrain_y).2
        trace := st.trace ++ [Event.randomShuffle i] } (List.range numBatches) with
  | error es =>
    rw [hf] at h
    cases h
  | ok st2 =>
    rw [hf] at h
    obtain ⟨h1, h2, hs2⟩ := foldStop_trace (fitBatch c _ _ lambda batchSize i)
      (serialBatchEvents (c.exponential s0) lambda batchSize i) batchSize s0
      (fun s j s1 hs0 hb => by
        obtain ⟨_, _, e3, e4, e5⟩ := fitBatch_effect c _ _ lambda batchSize i s j s1 hb
        rw [hs0] at e4 e5
        exact ⟨e5, e3, e4⟩) _
      (i * (numBatches * batchSize)) (by exact ht) (by exact hs) numBatches st2 hf
    have h3 := (Prod.mk.inj (Except.ok.inj h)).1
    have htrace : st1.trace = st2.trace ++ [Event.predict i] := by
      rw [← h3]
      split <;> rfl
    have htime : st1.t = st2.t := by
      rw [← h3]
      split <;> rfl
    have hsched : st1.sched = st2.sched := by
      rw [← h3]
      split <;> rfl
    refine ⟨?_, ?_, hsched.trans hs2⟩
    · have hmap : (List.range numBatches).map
          (fun j => serialBatchEvents (c.exponential s0) lambda batchSize i j
            ((i * (numBatches * batchSize) + j * batchSize) % 2 ^ 64)) =
        (List.range numBatches).map
          (fun j => serialBatchEvents (c.exponential s0) lambda batchSize i j
            (((i * numBatches + j) * batchSize) % 2 ^ 64)) := by
        apply List.map_congr_left
        intro j _
        congr 2
        ring
      rw [htrace, h1, hmap]
      unfold epochEvents
      simp only [List.append_assoc, List.singleton_append, List.cons_append, List.nil_append]
    · rw [htime, h2]
      congr 1
      ring

/-- An epoch of `parallelFit` that does not throw makes the calls of `epochEvents` and
advances the counter by `numBatches * batchSize`; the scheduler stays `s0`. -/
theorem parallelFitEpoch_trace (c : Collaborators) (numThreads : Nat)
    (validationBatches_X : List Matrix) (validationBatches_y : List (List Nat))
    (numBatches batchSize : Nat) (lambda : ℚ) (verboseLevel : Nat) (i : Nat)
    (st st1 : TrainState) (valCE : ℚ) (s0 : LRScheduler)
    (h : parallelFitEpoch c numThreads validationBatches_X validationBatches_y numBatches
      batchSize lambda verboseLevel i st = Except.ok (st1, valCE))
    (ht : st.t = (i * (numBatches * batchSize)) % 2 ^ 64) (hs : st.sched = s0) :
    st1.trace = st.trace ++
        epochEvents (parallelBatchEvents (c.exponential s0) lambda batchSize)
          Event.predictParallel numBatches batchSize i ∧
      st1.t = ((i + 1) * (numBatches * batchSize)) % 2 ^ 64 ∧ st1.sched = s0 := by
  unfold parallelFitEpoch at h
  dsimp only at h
  split at h
  · cases h
  · rename_i st2 hf
    split at h
    · cases h
    · obtain ⟨h1, h2, hs2⟩ := foldStop_trace
        (parallelFitBatch c numThreads _ _ lambda batchSize i)
        (parallelBatchEvents (c.exponential s0) lambda batchSize i) batchSize s0
        (fun s j s1 hs0 hb => by
          obtain ⟨_, _, e3, e4, e5⟩ :=
            parallelFitBatch_effect c numThreads _ _ lambda batchSize i s j s1 hb
          rw [hs0] at e4 e5
          exact ⟨e5, e3, e4⟩)
        _ (i * (numBatches * batchSize)) (by exact ht) (by exact hs) numBatches st2 hf
      have h3 := (Prod.mk.inj (Except.ok.inj h)).1
      have htrace : st1.trace = st2.trace ++ [Event.predictParallel i] := by
        rw [← h3]
        split <;> rfl
      have htime : st1.t = st2.t := by
        rw [← h3]
        split <;> rfl
      have hsched : st1.sched = st2.sched := by
        rw [← h3]
        split <;> rfl
      refine ⟨?_, ?_, hsched.trans hs2⟩
      · have hmap : (List.range numBatches).map
            (fun j => parallelBatchEvents (c.exponential s0) lambda batchSize i j
              ((i * (numBatches * batchSize) + j * batchSize) % 2 ^ 64)) =
          (List.range numBatches).map
            (fun j => parallelBatchEvents (c.exponential s0) lambda batchSize i j
              (((i * numBatches + j) * batchSize) % 2 ^ 64)) := by
          apply List.map_congr_left
          intro j _
          congr 2
          ring
        rw [htrace, h1, hmap]
        unfold epochEvents
        simp only [List.append_assoc, List.singleton_append, List.cons_append, List.nil_append]
      · rw [htime, h2]
        congr 1
        ring

/-- The record of calls of an epoch loop that does not end by an exception: the calls of
the epochs executed, in order; the counter has advanced by `K` per epoch and the scheduler
stays `s0`. -/
theorem epochLoop_trace
    (body : Nat → TrainState → Except (NetworkError × TrainState) (TrainState × ℚ))
    (earlyStopping : Nat) (maxTimeMs : Int) (elapsedMs : Nat → Int)
    (evs : Nat → List Event) (K : Nat) (s0 : LRScheduler)
    (hbody : ∀ i st st1 valCE, body i st = Except.ok (st1, valCE) →
      st.t = (i * K) % 2 ^ 64 → st.sched = s0 →
      st1.trace = st.trace ++ evs i ∧ st1.t = ((i + 1) * K) % 2 ^ 64 ∧ st1.sched = s0) :
    ∀ n i st best, st.t = (i * K) % 2 ^ 64 → st.sched = s0 →
      (∀ e, (epochLoop body earlyStopping maxTimeMs elapsedMs n i st best).exit ≠
        Exit.exception e) →
      i ≤ (epochLoop body earlyStopping maxTimeMs elapsedMs n i st best).epochs ∧
      (epochLoop body earlyStopping maxTimeMs elapsedMs n i st best).state.trace =
        st.trace ++ ((List.range'
          i ((epochLoop body earlyStopping maxTimeMs elapsedMs n i st best).epochs - i)).map
            evs).flatten ∧
      (epochLoop body earlyStopping maxTimeMs elapsedMs n i st best).state.t =
        ((epochLoop body earlyStopping maxTimeMs elapsedMs n i st best).epochs * K) %
          2 ^ 64 := by
  intro n
  induction n with
  | zero =>
    intro i st best ht _ _
    simp [epochLoop, ht]
  | succ n ih =>
    intro i st best ht hs hno
    cases hb : body i st with
    | error es =>
      obtain ⟨e1, st1⟩ := es
      rw [epochLoop_throw body earlyStopping maxTimeMs elapsedMs n i st st1 best e1 hb] at hno
      exact absurd rfl (hno e1)
    | ok r =>
      obtain ⟨st1, valCE⟩ := r
      obtain ⟨h1, h2, hs1⟩ := hbody i st st1 valCE hb ht hs
      cases hc : checkStop earlyStopping maxTimeMs (elapsedMs i) valCE i best with
      | mk best1 o =>
        cases o with
        | none =>
          rw [epochLoop_continue body earlyStopping maxTimeMs elapsedMs n i st st1 best best1
            valCE hb hc] at hno ⊢
          obtain ⟨ih1, ih2, ih3⟩ := ih (i + 1) st1 best1 h2 hs1 hno
          refine ⟨by omega, ?_, ih3⟩
          rw [ih2, h1, List.append_assoc]
          congr 1
          have hr : (epochLoop body earlyStopping maxTimeMs elapsedMs n (i + 1) st1
              best1).epochs - i =
              ((epochLoop body earlyStopping maxTimeMs elapsedMs n (i + 1) st1
                best1).epochs - (i + 1)) + 1 := by omega
          rw [hr, List.range'_succ, List.map_cons, List.flatten_cons]
        | some ex =>
          rw [epochLoop_break body earlyStopping maxTimeMs elapsedMs n i st st1 best best1
            valCE ex hb hc]
          refine ⟨by simp, ?_, h2⟩
          simp [h1, List.range'_succ]

/-! ## The training loop: runs without exception and without break -/

theorem weightDecay_networkConfig (net : Network) (eta lambda : ℚ) (batchSize epoch : Nat) :
    (weightDecay net eta lambda batchSize epoch).networkConfig = net.networkConfig := by
  unfold weightDecay
  split <;> rfl

/-- A batch of `fit` on a network whose last layer carries the softmax tag does not throw
and leaves the tag in place. -/
theorem fitBatch_ok (c : Collaborators) (trainBatches_X : List Matrix)
    (trainBatches_y : List (List Nat)) (lambda : ℚ) (batchSize i : Nat) (st : TrainState)
    (j : Nat) (hsoft : st.net.SoftmaxLast) :
    ∃ st1, fitBatch c trainBatches_X trainBatches_y lambda batchSize i st j = Except.ok st1 ∧
      st1.net.SoftmaxLast := by
  rcases backProp_cases
    (forwardPass c.getStats st.net (trainBatches_X.getD j default)
      (trainBatches_y.getD j [])).2 (trainBatches_y.getD j []) with ⟨_, hb⟩ | ⟨hne, _⟩
  · unfold fitBatch TrainState.backward TrainState.forward TrainState.schedule
    dsimp only
    rw [hb]
    refine ⟨_, rfl, ?_⟩
    unfold Network.SoftmaxLast Network.layer TrainState.advance TrainState.update
      TrainState.decay updateWeights
    dsimp only
    rw [weightDecay_networkConfig]
    exact hsoft
  · exact absurd hsoft hne

theorem foldStop_ok {σ α : Type} (f : σ → α → Except (NetworkError × σ) σ) (Inv : σ → Prop)
    (hf : ∀ s a, Inv s → ∃ s1, f s a = Except.ok s1 ∧ Inv s1) :
    ∀ (l : List α) (s : σ), Inv s → ∃ s1, foldStop f s l = Except.ok s1 ∧ Inv s1 := by
  intro l
  induction l with
  | nil => intro s hs; exact ⟨s, rfl, hs⟩
  | cons a l ih =>
    intro s hs
    obtain ⟨s1, h1, hs1⟩ := hf s a hs
    obtain ⟨s2, h2, hs2⟩ := ih s1 hs1
    refine ⟨s2, ?_, hs2⟩
    simp only [foldStop, h1]
    exact h2

/-- An epoch of `fit` on a network whose last layer carries the softmax tag does not throw
and leaves the tag in place. -/
theorem fitEpoch_ok (c : Collaborators) (split : TrainValSplit) (numBatches batchSize : Nat)
    (lambda : ℚ) (verboseLevel : Nat) (i : Nat) (st : TrainState)
    (hsoft : st.net.SoftmaxLast) :
    ∃ st1 valCE, fitEpoch c split numBatches batchSize lambda verboseLevel i st =
        Except.ok (st1, valCE) ∧ st1.net.SoftmaxLast := by
  obtain ⟨st2, h2, hs2⟩ := foldStop_ok
    (fitBatch c
      (c.generateBatches (c.randomShuffle i st.shuffledTrain_X st.shuffledTrain_y).1 batchSize)
      (c.generateVectorBatches (c.randomShuffle i st.shuffledTrain_X st.shuffledTrain_y).2
        batchSize) lambda batchSize i)
    (fun s => s.net.SoftmaxLast)
    (fun s j hs => fitBatch_ok c _ _ lambda batchSize i s j hs)
    (List.range numBatches)
    { st with
      shuffledTrain_X := (c.randomShuffle i st.shuffledTrain_X st.shuffledTrain_y).1
      shuffledTrain_y := (c.randomShuffle i st.shuffledTrain_X st.shuffledTrain_y).2
      trace := st.trace ++ [Event.randomShuffle i] } hsoft
  unfold fitEpoch
  dsimp only
  rw [h2]
  refine ⟨_, _, rfl, ?_⟩
  split <;> exact hs2

/-- An epoch loop whose body never throws from the states of an invariant does not end by
an exception. -/
theorem epochLoop_no_exception {σ : Type}
    (body : Nat → σ → Except (NetworkError × σ) (σ × ℚ))
    (earlyStopping : Nat) (maxTimeMs : Int) (elapsedMs : Nat → Int) (Inv : σ → Prop)
    (hbody : ∀ i st, Inv st → ∃ st1 valCE, body i st = Except.ok (st1, valCE) ∧ Inv st1) :
    ∀ n i st best, Inv st →
      ∀ e, (epochLoop body earlyStopping maxTimeMs elapsedMs n i st best).exit ≠
        Exit.exception e := by
  intro n
  induction n with
  | zero =>
    intro i st best _ e
    simp [epochLoop]
  | succ n ih =>
    intro i st best hs e
    obtain ⟨st1, valCE, hb, hs1⟩ := hbody i st hs
    cases hc : checkStop earlyStopping maxTimeMs (elapsedMs i) valCE i best with
    | mk best1 o =>
      cases o with
      | none =>
        rw [epochLoop_continue body earlyStopping maxTimeMs elapsedMs n i st st1 best best1
          valCE hb hc]
        exact ih (i + 1) st1 best1 hs1 e
      | some ex =>
        rw [epochLoop_break body earlyStopping maxTimeMs elapsedMs n i st st1 best best1
          valCE ex hb hc]
        rcases checkStop_exit earlyStopping maxTimeMs _ valCE i best best1 ex hc with h1 | h1
        · rw [h1]
          simp
        · rw [h1]
          simp

/-- With patience zero and no time budget the epoch loop takes no `break`: it runs all its
epochs, or the body throws and fewer epochs have run. -/
theorem epochLoop_disabled {σ : Type} (body : Nat → σ → Except (NetworkError × σ) (σ × ℚ))
    (elapsedMs : Nat → Int) :
    ∀ n i st best,
      ((epochLoop body 0 0 elapsedMs n i st best).exit = Exit.completed ∧
        (epochLoop body 0 0 elapsedMs n i st best).epochs = i + n) ∨
      ∃ e, (epochLoop body 0 0 elapsedMs n i st best).exit = Exit.exception e ∧
        (epochLoop body 0 0 elapsedMs n i st best).epochs < i + n := by
  intro n
  induction n with
  | zero =>
    intro i st best
    left
    exact ⟨rfl, rfl⟩
  | succ n ih =>
    intro i st best
    cases hb : body i st with
    | error es =>
      obtain ⟨e1, st1⟩ := es
      right
      rw [epochLoop_throw body 0 0 elapsedMs n i st st1 best e1 hb]
      exact ⟨e1, rfl, by simp⟩
    | ok r =>
      obtain ⟨st1, valCE⟩ := r
      rw [epochLoop_continue body 0 0 elapsedMs n i st st1 best best valCE hb
        (checkStop_disabled _ valCE i best)]
      rcases ih (i + 1) st1 best with ⟨h1, h2⟩ | ⟨e, h1, h2⟩
      · left
        exact ⟨h1, by rw [h2]; omega⟩
      · right
        exact ⟨e, h1, by omega⟩

/-- With patience zero and no time budget, an epoch loop whose epochs return, from the
states `ss k` they start in and with the validation cross-entropies `cs k`, runs all its
epochs and ends in the state after the last. -/
theorem epochLoop_chain {σ : Type} (body : Nat → σ → Except (NetworkError × σ) (σ × ℚ))
    (elapsedMs : Nat → Int) (ss : Nat → σ) (cs : Nat → ℚ) :
    ∀ n i best,
      (∀ k, i ≤ k → k < i + n → body k (ss k) = Except.ok (ss (k + 1), cs k)) →
      (epochLoop body 0 0 elapsedMs n i (ss i) best).exit = Exit.completed ∧
        (epochLoop body 0 0 elapsedMs n i (ss i) best).epochs = i + n ∧
        (epochLoop body 0 0 elapsedMs n i (ss i) best).state = ss (i + n) := by
  intro n
  induction n with
  | zero =>
    intro i best _
    exact ⟨rfl, rfl, rfl⟩
  | succ n ih =>
    intro i best h
    rw [epochLoop_continue body 0 0 elapsedMs n i (ss i) (ss (i + 1)) best best (cs i)
      (h i (Nat.le_refl i) (by omega)) (checkStop_disabled _ (cs i) i best)]
    obtain ⟨h1, h2, h3⟩ := ih (i + 1) best (fun k hk1 hk2 => h k (by omega) (by omega))
    have e : i + 1 + n = i + (n + 1) := by omega
    rw [e] at h2 h3
    exact ⟨h1, h2, h3⟩

/-- C20: with patience 0 and no time budget no `break` is taken.  `fit` with a rate that is
not negative, on a network whose last layer carries the softmax tag, runs exactly
`numEpochs` epochs, whatever the validation cross-entropies are.  `parallelFit` with a rate
that is not negative and at least one worker runs exactly `numEpochs` epochs whenever its
epochs return, whatever the validation cross-entropies `cs i` they return are, and then ends
in the state after the last epoch; in every case it either runs exactly `numEpochs` epochs
or is ended by the exception of an epoch before that, never by a `break`. -/
theorem fit_without_breaks_runs_all_epochs (c : Collaborators) (numThreads : Nat)
    (net : Network) (split : TrainValSplit) (numEpochs batchSize : Nat) (eta lambda : ℚ)
    (verboseLevel : Nat) (sched : LRScheduler)
    (heta : 0 ≤ eta) (hthreads : 0 < numThreads) :
    (net.SoftmaxLast →
      (fit c net split numEpochs batchSize eta lambda verboseLevel sched 0 0).exit =
          Exit.completed ∧
        (fit c net split numEpochs batchSize eta lambda verboseLevel sched 0 0).epochs =
          numEpochs) ∧
    (∀ (ss : Nat → TrainState) (cs : Nat → ℚ),
      ss 0 = ⟨net, { sched with eta := eta }, split.trainData, split.trainLabels, eta, 0, 0,
        0, [Event.setEta eta]⟩ →
      (∀ i, i < numEpochs →
        parallelFitEpoch c numThreads
          (c.generateBatches split.validationData
            (split.validationData.getNumRows / numThreads))
          (c.generateVectorBatches split.validationLabels
            (split.validationLabels.length / numThreads))
          (c.generateBatches split.trainData batchSize).length batchSize lambda verboseLevel
          i (ss i) = Except.ok (ss (i + 1), cs i)) →
      (parallelFit c numThreads net split numEpochs batchSize eta lambda verboseLevel sched
          0 0).exit = Exit.completed ∧
        (parallelFit c numThreads net split numEpochs batchSize eta lambda verboseLevel sched
          0 0).epochs = numEpochs ∧
        (parallelFit c numThreads net split numEpochs batchSize eta lambda verboseLevel sched
          0 0).state = ss numEpochs) ∧
    (((parallelFit c numThreads net split numEpochs batchSize eta lambda verboseLevel sched
          0 0).exit = Exit.completed ∧
        (parallelFit c numThreads net split numEpochs batchSize eta lambda verboseLevel sched
          0 0).epochs = numEpochs) ∨
      ∃ e, (parallelFit c numThreads net split numEpochs batchSize eta lambda verboseLevel
          sched 0 0).exit = Exit.exception e ∧
        (parallelFit c numThreads net split numEpochs batchSize eta lambda verboseLevel
          sched 0 0).epochs < numEpochs) := by
  have hno : ¬ eta < 0 := not_lt.mpr heta
  have hthreads0 : numThreads ≠ 0 := Nat.pos_iff_ne_zero.mp hthreads
  refine ⟨fun hsoft => ?_, fun ss cs h0 hchain => ?_, ?_⟩
  · rw [fit_eq_epochLoop c net split numEpochs batchSize eta lambda verboseLevel sched 0 0 hno]
    rcases epochLoop_disabled
      (fitEpoch c split (c.generateBatches split.trainData batchSize).length batchSize lambda
        verboseLevel) c.elapsedMs numEpochs 0
      ⟨net, { sched with eta := eta }, split.trainData, split.trainLabels, eta, 0, 0, 0,
        [Event.setEta eta]⟩ ⟨10000, 0⟩ with ⟨h1, h2⟩ | ⟨e, h, _⟩
    · exact ⟨h1, by rw [h2]; omega⟩
    · exact absurd h (epochLoop_no_exception _ 0 0 c.elapsedMs (fun s => s.net.SoftmaxLast)
        (fun i st hs => fitEpoch_ok c split _ batchSize lambda verboseLevel i st hs)
        numEpochs 0 _ _ hsoft e)
  · rw [parallelFit_eq_epochLoop c numThreads net split numEpochs batchSize eta lambda
      verboseLevel sched 0 0 hno hthreads0, ← h0]
    obtain ⟨h1, h2, h3⟩ := epochLoop_chain
      (parallelFitEpoch c numThreads
        (c.generateBatches split.validationData
          (split.validationData.getNumRows / numThreads))
        (c.generateVectorBatches split.validationLabels
          (split.validationLabels.length / numThreads))
        (c.generateBatches split.trainData batchSize).length batchSize lambda verboseLevel)
      c.elapsedMs ss cs numEpochs 0 ⟨10000, 0⟩ (fun k _ hk => hchain k (by omega))
    rw [Nat.zero_add] at h2 h3
    exact ⟨h1, h2, h3⟩
  · rw [parallelFit_eq_epochLoop c numThreads net split numEpochs batchSize eta lambda
      verboseLevel sched 0 0 hno hthreads0]
    rcases epochLoop_disabled
      (parallelFitEpoch c numThreads
        (c.generateBatches split.validationData
          (split.validationData.getNumRows / numThreads))
        (c.generateVectorBatches split.validationLabels
          (split.validationLabels.length / numThreads))
        (c.generateBatches split.trainData batchSize).length batchSize lambda verboseLevel)
      c.elapsedMs numEpochs 0
      ⟨net, { sched with eta := eta }, split.trainData, split.trainLabels, eta, 0, 0, 0,
        [Event.setEta eta]⟩ ⟨10000, 0⟩ with ⟨h1, h2⟩ | ⟨e, h1, h2⟩
    · left
      exact ⟨h1, by rw [h2]; omega⟩
    · right
      exact ⟨e, h1, by omega⟩

/-- On the example the seven epochs of `parallelFit` with one worker return. -/
theorem exampleParallelEpoch_chain (i : Nat) (hi : i < 7) :
    exampleParallelEpoch i (exampleParallelStates i) =
      Except.ok (exampleParallelStates (i + 1), exampleParallelCEs i) := by
  interval_cases i <;> rfl

theorem fit_without_breaks_runs_all_epochs_witness :
    ((0 : ℚ) ≤ 1 / 10 ∧ 0 < 1 ∧ exampleFitNet.SoftmaxLast ∧
        (∀ i, i < 7 → exampleParallelEpoch i (exampleParallelStates i) =
          Except.ok (exampleParallelStates (i + 1), exampleParallelCEs i))) ∧
      ((fit (exampleCollaborators exampleCEs) exampleFitNet exampleFitSplit 7 1 (1 / 10) 0 0
          ⟨0⟩ 0 0).exit = Exit.completed ∧
        (fit (exampleCollaborators exampleCEs) exampleFitNet exampleFitSplit 7 1 (1 / 10) 0 0
          ⟨0⟩ 0 0).epochs = 7) ∧
      ((parallelFit (exampleCollaborators exampleCEs) 1 exampleFitNet exampleFitSplit 7 1
            (1 / 10) 0 0 ⟨0⟩ 0 0).exit = Exit.completed ∧
        (parallelFit (exampleCollaborators exampleCEs) 1 exampleFitNet exampleFitSplit 7 1
            (1 / 10) 0 0 ⟨0⟩ 0 0).epochs = 7 ∧
        (parallelFit (exampleCollaborators exampleCEs) 1 exampleFitNet exampleFitSplit 7 1
            (1 / 10) 0 0 ⟨0⟩ 0 0).state = exampleParallelStates 7) :=
  ⟨⟨by decide!, by decide, rfl, fun i hi => exampleParallelEpoch_chain i hi⟩,
    (fit_without_breaks_runs_all_epochs (exampleCollaborators exampleCEs) 1 exampleFitNet
      exampleFitSplit 7 1 (1 / 10) 0 0 ⟨0⟩ (by decide!) (by decide)).1 rfl,
    (fit_without_breaks_runs_all_epochs (exampleCollaborators exampleCEs) 1 exampleFitNet
      exampleFitSplit 7 1 (1 / 10) 0 0 ⟨0⟩ (by decide!) (by decide)).2.1
      exampleParallelStates exampleParallelCEs rfl
      (fun i hi => exampleParallelEpoch_chain i hi)⟩

/-- On the example the validation cross-entropies of the seven epochs of `parallelFit` with
one worker fall to their minimum and rise again: the run goes on all the same. -/
theorem exampleParallelCEs_values :
    (List.range 7).map exampleParallelCEs = [4, 1, 0, 1, 4, 9, 16] := by
  decide!

/-- The hypotheses of the statement about `parallelFit` are needed.  On the example with two
workers the one validation row makes one sub-batch, the second worker of `predictParallel`
has none, and the run ends by an exception in its first epoch; with no worker the run has no
defined result. -/
theorem exampleParallelFit_two_workers :
    (parallelFit (exampleCollaborators exampleCEs) 2 exampleFitNet exampleFitSplit 7 1
        (1 / 10) 0 0 ⟨0⟩ 0 0).exit = Exit.exception NetworkError.StdException ∧
      (parallelFit (exampleCollaborators exampleCEs) 2 exampleFitNet exampleFitSplit 7 1
        (1 / 10) 0 0 ⟨0⟩ 0 0).epochs = 0 ∧
      (parallelFit (exampleCollaborators exampleCEs) 0 exampleFitNet exampleFitSplit 7 1
        (1 / 10) 0 0 ⟨0⟩ 0 0).exit = Exit.undefined ∧
      (parallelFit (exampleCollaborators exampleCEs) 0 exampleFitNet exampleFitSplit 7 1
        (1 / 10) 0 0 ⟨0⟩ 0 0).epochs = 0 := by
  refine ⟨by decide!, by decide!, by decide!, by decide!⟩

/-- C19: the scheduler is queried once per batch, with a counter that starts at 0, grows by
`batchSize` with every batch and is not reset between epochs, and the statements of a batch
run in the order schedule, forward, backward, decay, update.  For a run: in `fit` with a
rate that is not negative on a network whose last layer carries the softmax tag, and in
`parallelFit` with at least one worker when no exception ends it, the calls made are
`setEta` followed, for every epoch `i` executed, by the shuffle, the calls of the batches
`j = 0 .. numBatches - 1` and the validation; the calls of a batch are, in this order,
`exponential((i * numBatches + j) * batchSize)` (the counter a `size_t`), the forward pass,
the backward pass, `weightDecay` and `updateWeights`, both with the rate just answered (in
`parallelFit`: the query, the fused forward and backward pass, `weightDecayParallel` and
`updateWeights`).  For a batch: when the batch body returns, the rate is the answer of the
scheduler to the counter, the network is the one obtained from the network before the
batch by the forward pass, then the backward pass, then the decay, then the update, the last
two with that rate, and the counter has grown by `batchSize`. -/
theorem fit_schedule_and_order (c : Collaborators) (numThreads : Nat) (net : Network)
    (split : TrainValSplit) (numEpochs batchSize : Nat) (eta lambda : ℚ) (verboseLevel : Nat)
    (sched : LRScheduler) (earlyStopping : Nat) (maxTimeMs : Int)
    (heta : 0 ≤ eta) (hthreads : 0 < numThreads) :
    (net.SoftmaxLast →
      (fit c net split numEpochs batchSize eta lambda verboseLevel sched earlyStopping
        maxTimeMs).state.trace =
        runEvents (serialBatchEvents (c.exponential { sched with eta := eta }) lambda batchSize)
          Event.predict (c.generateBatches split.trainData batchSize).length batchSize eta
          (fit c net split numEpochs batchSize eta lambda verboseLevel sched earlyStopping
            maxTimeMs).epochs ∧
      (fit c net split numEpochs batchSize eta lambda verboseLevel sched earlyStopping
        maxTimeMs).state.t =
        ((fit c net split numEpochs batchSize eta lambda verboseLevel sched earlyStopping
          maxTimeMs).epochs *
          ((c.generateBatches split.trainData batchSize).length * batchSize)) % 2 ^ 64) ∧
    ((∀ e, (parallelFit c numThreads net split numEpochs batchSize eta lambda verboseLevel
        sched earlyStopping maxTimeMs).exit ≠ Exit.exception e) →
      (parallelFit c numThreads net split numEpochs batchSize eta lambda verboseLevel sched
        earlyStopping maxTimeMs).state.trace =
        runEvents
          (parallelBatchEvents (c.exponential { sched with eta := eta }) lambda batchSize)
          Event.predictParallel (c.generateBatches split.trainData batchSize).length batchSize
          eta
          (parallelFit c numThreads net split numEpochs batchSize eta lambda verboseLevel
            sched earlyStopping maxTimeMs).epochs ∧
      (parallelFit c numThreads net split numEpochs batchSize eta lambda verboseLevel sched
        earlyStopping maxTimeMs).state.t =
        ((parallelFit c numThreads net split numEpochs batchSize eta lambda verboseLevel
          sched earlyStopping maxTimeMs).epochs *
          ((c.generateBatches split.trainData batchSize).length * batchSize)) % 2 ^ 64) ∧
    (∀ (trainBatches_X : List Matrix) (trainBatches_y : List (List Nat)) (i j : Nat)
        (st st1 : TrainState),
      fitBatch c trainBatches_X trainBatches_y lambda batchSize i st j = Except.ok st1 →
      st1.eta = c.exponential st.sched st.t ∧
        st1.net =
          updateWeights c
            (weightDecay
              (backProp
                (forwardPass c.getStats st.net (trainBatches_X.getD j default)
                  (trainBatches_y.getD j [])).2
                (trainBatches_y.getD j [])).2
              (c.exponential st.sched st.t) lambda batchSize (i + 1))
            batchSize (c.exponential st.sched st.t) ∧
        st1.t = (st.t + batchSize) % 2 ^ 64 ∧
        st1.trace =
          st.trace ++ serialBatchEvents (c.exponential st.sched) lambda batchSize i j st.t) ∧
    (∀ (parallelBatches_X : List (List Matrix)) (parallelBatches_y : List (List (List Nat)))
        (i j : Nat) (st st1 : TrainState),
      parallelFitBatch c numThreads parallelBatches_X parallelBatches_y lambda batchSize i st
        j = Except.ok st1 →
      (∃ stats net1,
        forwardPassParallel c.getStats numThreads st.net (parallelBatches_X.getD j [])
            (parallelBatches_y.getD j []) = Except.ok (stats, net1) ∧
          st1.net =
            updateWeights c (weightDecayParallel net1 lambda) batchSize
              (c.exponential st.sched st.t)) ∧
        st1.eta = c.exponential st.sched st.t ∧
        st1.t = (st.t + batchSize) % 2 ^ 64 ∧
        st1.trace =
          st.trace ++
            parallelBatchEvents (c.exponential st.sched) lambda batchSize i j st.t) := by
  have hno : ¬ eta < 0 := not_lt.mpr heta
  have hthreads0 : numThreads ≠ 0 := Nat.pos_iff_ne_zero.mp hthreads
  refine ⟨fun hsoft => ?_, fun hex => ?_, ?_, ?_⟩
  · rw [fit_eq_epochLoop c net split numEpochs batchSize eta lambda verboseLevel sched
      earlyStopping maxTimeMs hno]
    obtain ⟨_, h2, h3⟩ := epochLoop_trace
      (fitEpoch c split (c.generateBatches split.trainData batchSize).length batchSize lambda
        verboseLevel) earlyStopping maxTimeMs c.elapsedMs
      (epochEvents (serialBatchEvents (c.exponential { sched with eta := eta }) lambda
        batchSize) Event.predict
        (c.generateBatches split.trainData batchSize).length batchSize)
      ((c.generateBatches split.trainData batchSize).length * batchSize)
      { sched with eta := eta }
      (fun i st st1 valCE hb ht hs => fitEpoch_trace c split _ batchSize lambda verboseLevel
        i st st1 valCE _ hb ht hs)
      numEpochs 0
      ⟨net, { sched with eta := eta }, split.trainData, split.trainLabels, eta, 0, 0, 0,
        [Event.setEta eta]⟩ ⟨10000, 0⟩ (by simp) rfl
      (epochLoop_no_exception _ earlyStopping maxTimeMs c.elapsedMs
        (fun s => s.net.SoftmaxLast)
        (fun i st hs => fitEpoch_ok c split _ batchSize lambda verboseLevel i st hs)
        numEpochs 0 _ _ hsoft)
    refine ⟨?_, h3⟩
    rw [h2]
    unfold runEvents
    rw [Nat.sub_zero, ← List.range_eq_range']
    rfl
  · rw [parallelFit_eq_epochLoop c numThreads net split numEpochs batchSize eta lambda
      verboseLevel sched earlyStopping maxTimeMs hno hthreads0] at hex ⊢
    obtain ⟨_, h2, h3⟩ := epochLoop_trace
      (parallelFitEpoch c numThreads
        (c.generateBatches split.validationData
          (split.validationData.getNumRows / numThreads))
        (c.generateVectorBatches split.validationLabels
          (split.validationLabels.length / numThreads))
        (c.generateBatches split.trainData batchSize).length batchSize lambda verboseLevel)
      earlyStopping maxTimeMs c.elapsedMs
      (epochEvents (parallelBatchEvents (c.exponential { sched with eta := eta }) lambda
        batchSize) Event.predictParallel
        (c.generateBatches split.trainData batchSize).length batchSize)
      ((c.generateBatches split.trainData batchSize).length * batchSize)
      { sched with eta := eta }
      (fun i st st1 valCE hb ht hs => parallelFitEpoch_trace c numThreads _ _ _ batchSize
        lambda verboseLevel i st st1 valCE _ hb ht hs)
      numEpochs 0
      ⟨net, { sched with eta := eta }, split.trainData, split.trainLabels, eta, 0, 0, 0,
        [Event.setEta eta]⟩ ⟨10000, 0⟩ (by simp) rfl hex
    refine ⟨?_, h3⟩
    rw [h2]
    unfold runEvents
    rw [Nat.sub_zero, ← List.range_eq_range']
    rfl
  · intro trainBatches_X trainBatches_y i j st st1 h
    obtain ⟨e1, e2, e3, _, e5⟩ :=
      fitBatch_effect c trainBatches_X trainBatches_y lambda batchSize i st j st1 h
    exact ⟨e1, e2, e3, e5⟩
  · intro parallelBatches_X parallelBatches_y i j st st1 h
    obtain ⟨e1, e2, e3, _, e5⟩ :=
      parallelFitBatch_effect c numThreads parallelBatches_X parallelBatches_y lambda
        batchSize i st j st1 h
    exact ⟨e1, e2, e3, e5⟩

/-- On the example the run of `parallelFit` of two epochs is not ended by an exception. -/
theorem exampleParallelFit_exit :
    (parallelFit exampleScheduleCollaborators 1 exampleFitNet exampleFitSplit 2 3 (1 / 10)
      (1 / 2) 0 ⟨0⟩ 2 0).exit = Exit.completed := by
  decide!

/-- On the example, with one batch per epoch, batch size 3, the initial rate `1 / 10` and
the scheduler that answers `eta / (t + 1)`, the calls of two epochs of `fit` in the order of
the specification: the scheduler is queried with 0 and with 3, and decay and update are
called with its answers `1 / 10` and `1 / 40`. -/
theorem runEvents_example :
    runEvents
        (serialBatchEvents (exampleScheduleCollaborators.exponential ⟨1 / 10⟩) (1 / 2) 3)
        Event.predict 1 3 (1 / 10) 2 =
      [Event.setEta (1 / 10),
        Event.randomShuffle 0, Event.exponential 0, Event.forwardPass 0 0,
        Event.backProp 0 0, Event.weightDecay (1 / 10) (1 / 2) 3 1,
        Event.updateWeights 3 (1 / 10), Event.predict 0,
        Event.randomShuffle 1, Event.exponential 3, Event.forwardPass 1 0,
        Event.backProp 1 0, Event.weightDecay (1 / 40) (1 / 2) 3 2,
        Event.updateWeights 3 (1 / 40), Event.predict 1] := by
  decide!

theorem fit_schedule_and_order_witness :
    ((0 : ℚ) ≤ 1 / 10 ∧ 0 < 1 ∧ exampleFitNet.SoftmaxLast ∧
        (∀ e, (parallelFit exampleScheduleCollaborators 1 exampleFitNet exampleFitSplit 2 3
          (1 / 10) (1 / 2) 0 ⟨0⟩ 2 0).exit ≠ Exit.exception e) ∧
        fitBatch exampleScheduleCollaborators [⟨1, [[0]]⟩] [[0]] (1 / 2) 3 1
          exampleBatchState 0 = Except.ok exampleBatchResult ∧
        parallelFitBatch exampleScheduleCollaborators 1 [[⟨1, [[0]]⟩]] [[[0]]] (1 / 2) 3 1
          exampleBatchState 0 = Except.ok exampleParallelBatchResult) ∧
      (fit exampleScheduleCollaborators exampleFitNet exampleFitSplit 2 3 (1 / 10) (1 / 2) 0
          ⟨0⟩ 2 0).state.trace =
        [Event.setEta (1 / 10),
          Event.randomShuffle 0, Event.exponential 0, Event.forwardPass 0 0,
          Event.backProp 0 0, Event.weightDecay (1 / 10) (1 / 2) 3 1,
          Event.updateWeights 3 (1 / 10), Event.predict 0,
          Event.randomShuffle 1, Event.exponential 3, Event.forwardPass 1 0,
          Event.backProp 1 0, Event.weightDecay (1 / 40) (1 / 2) 3 2,
          Event.updateWeights 3 (1 / 40), Event.predict 1] ∧
      (parallelFit exampleScheduleCollaborators 1 exampleFitNet exampleFitSplit 2 3 (1 / 10)
          (1 / 2) 0 ⟨0⟩ 2 0).state.trace =
        [Event.setEta (1 / 10),
          Event.randomShuffle 0, Event.exponential 0, Event.forwardPassParallel 0 0,
          Event.weightDecayParallel (1 / 2), Event.updateWeights 3 (1 / 10),
          Event.predictParallel 0,
          Event.randomShuffle 1, Event.exponential 3, Event.forwardPassParallel 1 0,
          Event.weightDecayParallel (1 / 2), Event.updateWeights 3 (1 / 40),
          Event.predictParallel 1] ∧
      (exampleBatchResult.eta = 1 / 40 ∧
        exampleBatchResult.net =
          updateWeights exampleScheduleCollaborators
            (weightDecay
              (backProp
                (forwardPass exampleScheduleCollaborators.getStats exampleFitNet ⟨1, [[0]]⟩
                  [0]).2 [0]).2 (1 / 40) (1 / 2) 3 2) 3 (1 / 40) ∧
        exampleBatchResult.t = 6) ∧
      exampleParallelBatchResult.eta = 1 / 40 ∧ exampleParallelBatchResult.t = 6 :=
  ⟨⟨by decide!, by decide, rfl,
      (fun e h => by rw [exampleParallelFit_exit] at h; cases h), rfl, rfl⟩,
    ((fit_schedule_and_order exampleScheduleCollaborators 1 exampleFitNet exampleFitSplit
      2 3 (1 / 10) (1 / 2) 0 ⟨0⟩ 2 0 (by decide!) (by decide)).1 rfl).1.trans (by decide!),
    ((fit_schedule_and_order exampleScheduleCollaborators 1 exampleFitNet exampleFitSplit
      2 3 (1 / 10) (1 / 2) 0 ⟨0⟩ 2 0 (by decide!) (by decide)).2.1
      (fun e h => by rw [exampleParallelFit_exit] at h; cases h)).1.trans (by decide!),
    ⟨((fit_schedule_and_order exampleScheduleCollaborators 1 exampleFitNet exampleFitSplit
        2 3 (1 / 10) (1 / 2) 0 ⟨0⟩ 2 0 (by decide!) (by decide)).2.2.1 [⟨1, [[0]]⟩] [[0]] 1 0
        exampleBatchState exampleBatchResult rfl).1.trans (by decide!),
      (((fit_schedule_and_order exampleScheduleCollaborators 1 exampleFitNet exampleFitSplit
        2 3 (1 / 10) (1 / 2) 0 ⟨0⟩ 2 0 (by decide!) (by decide)).2.2.1 [⟨1, [[0]]⟩] [[0]] 1 0
        exampleBatchState exampleBatchResult rfl).2.1.trans (by
          have e : exampleScheduleCollaborators.exponential exampleBatchState.sched
              exampleBatchState.t = 1 / 40 := by decide!
          rw [e]
          rfl)),
      ((fit_schedule_and_order exampleScheduleCollaborators 1 exampleFitNet exampleFitSplit
        2 3 (1 / 10) (1 / 2) 0 ⟨0⟩ 2 0 (by decide!) (by decide)).2.2.1 [⟨1, [[0]]⟩] [[0]] 1 0
        exampleBatchState exampleBatchResult rfl).2.2.1.trans (by decide)⟩,
    ((fit_schedule_and_order exampleScheduleCollaborators 1 exampleFitNet exampleFitSplit
      2 3 (1 / 10) (1 / 2) 0 ⟨0⟩ 2 0 (by decide!) (by decide)).2.2.2 [[⟨1, [[0]]⟩]] [[[0]]]
      1 0 exampleBatchState exampleParallelBatchResult rfl).2.1.trans (by decide!),
    ((fit_schedule_and_order exampleScheduleCollaborators 1 exampleFitNet exampleFitSplit
      2 3 (1 / 10) (1 / 2) 0 ⟨0⟩ 2 0 (by decide!) (by decide)).2.2.2 [[⟨1, [[0]]⟩]] [[[0]]]
      1 0 exampleBatchState exampleParallelBatchResult rfl).2.2.1.trans (by decide)⟩

/-! ## Prediction agrees with the forward pass -/

/-- The loop of `predict` leaves the network state as it was and computes what the loop of
the pure `predict` computes. -/
theorem predictLoop_state (net : Network) :
    ∀ (l : List Nat) (tmp : Matrix),
      l.foldl predictBody (tmp, net) =
        (l.foldl
          (fun tmp i =>
            (net.layer (i + 1)).activationFunction
              ((tmp.matmul (net.weights.getD i default)).addBias (net.biases.getD i [])))
          tmp, net) := by
  intro l
  induction l with
  | nil => intro tmp; rfl
  | cons i l ih =>
    intro tmp
    simp only [List.foldl_cons]
    exact ih _

theorem predictCall_eq (net : Network) (data : Matrix) :
    predictCall net data = (predict net data, net) := by
  unfold predictCall predict
  exact predictLoop_state net _ _

/-- C21: for a network with `L ≥ 2` layer descriptors and `L - 1` weight matrices, every
input batch and any labels, `predict(data)` returns exactly the matrix that
`forwardPass(data, labels)` stores as `activationResults[L-1]`, its last entry, which is also
the matrix whose statistics `forwardPass` returns; the call of `predict` leaves the network
state as it was. -/
theorem predict_eq_forwardPass_last (getStats : Matrix → List Nat → Stats) (net : Network)
    (data : Matrix) (labels : List Nat)
    (hL : 2 ≤ net.networkConfig.layersConfig.length)
    (hW : net.weights.length = net.networkConfig.layersConfig.length - 1) :
    (forwardPass getStats net data labels).2.activationResults[
        net.networkConfig.layersConfig.length - 1]? = some (predict net data) ∧
      (forwardPass getStats net data labels).2.activationResults.getLast? =
        some (predict net data) ∧
      (forwardPass getStats net data labels).1 = getStats (predict net data) labels ∧
      (predictCall net data).1 = predict net data ∧
      (predictCall net data).2 = net := by
  have hw : 1 ≤ net.weights.length := by omega
  have hAR := forwardPass_activationResults getStats net data labels hw
  have hp := predict_eq_layerOutput net data hw
  refine ⟨?_, ?_, ?_, ?_, ?_⟩
  · rw [hAR, hp, ← hW]
    rw [List.getElem?_map, List.getElem?_range (by omega)]
    rfl
  · rw [hAR, hp]
    rw [List.range_succ, List.map_append, List.map_cons, List.map_nil,
      List.getLast?_append, List.getLast?_singleton]
    rfl
  · show getStats (forwardRun net data).tmp labels = _
    rw [forwardRun_eq net data hw, hp]
  · rw [predictCall_eq]
  · rw [predictCall_eq]

theorem predict_eq_forwardPass_last_witness :
    (2 ≤ exampleNet.networkConfig.layersConfig.length ∧
        exampleNet.weights.length = exampleNet.networkConfig.layersConfig.length - 1) ∧
      (forwardPass exampleStats exampleNet exampleBatch exampleLabels).2.activationResults[
          exampleNet.networkConfig.layersConfig.length - 1]? =
        some (predict exampleNet exampleBatch) ∧
      (forwardPass exampleStats exampleNet exampleBatch exampleLabels).2.activationResults.getLast? =
        some (predict exampleNet exampleBatch) ∧
      (forwardPass exampleStats exampleNet exampleBatch exampleLabels).1 =
        exampleStats (predict exampleNet exampleBatch) exampleLabels ∧
      (predictCall exampleNet exampleBatch).1 = predict exampleNet exampleBatch ∧
      (predictCall exampleNet exampleBatch).2 = exampleNet :=
  ⟨⟨by decide, by decide⟩,
    predict_eq_forwardPass_last exampleStats exampleNet exampleBatch exampleLabels (by decide)
      (by decide)⟩

/-! ## The training loop: the early-stopping invariant -/

/-- The loop with a history returns what `epochLoop` returns. -/
theorem epochLoopLog_fst {σ : Type} (body : Nat → σ → Except (NetworkError × σ) (σ × ℚ))
    (earlyStopping : Nat) (maxTimeMs : Int) (elapsedMs : Nat → Int) :
    ∀ n i st best log,
      (epochLoopLog body earlyStopping maxTimeMs elapsedMs n i st best log).1 =
        epochLoop body earlyStopping maxTimeMs elapsedMs n i st best := by
  intro n
  induction n with
  | zero => intro i st best log; rfl
  | succ n ih =>
    intro i st best log
    simp only [epochLoopLog, epochLoop]
    cases body i st with
    | error es => rfl
    | ok r =>
      obtain ⟨st1, valCE⟩ := r
      simp only []
      cases hc : checkStop earlyStopping maxTimeMs (elapsedMs i) valCE i best with
      | mk best1 o =>
        cases o with
        | none => exact ih (i + 1) st1 best1 _
        | some ex => rfl

/-- The checks at the end of an epoch with a patience that is not zero: the record is
updated, the early stopping is tested first and the time budget second. -/
theorem checkStop_spec (earlyStopping : Nat) (maxTimeMs d : Int) (valCE : ℚ) (i : Nat)
    (best : EarlyStop) (hp : earlyStopping ≠ 0) :
    checkStop earlyStopping maxTimeMs d valCE i best =
      (best.record valCE i,
        if (i + 2 ^ 64 - (best.record valCE i).epochOfBestCE) % 2 ^ 64 = earlyStopping then
          some Exit.earlyStop
        else if maxTimeMs ≠ 0 ∧ maxTimeMs ≤ d then some Exit.timeBudget else none) := by
  unfold checkStop EarlyStop.record
  simp only [hp, ne_eq, not_false_eq_true, true_and]
  split_ifs <;> rfl

theorem foldl_min_concat (l : List ℚ) (a x : ℚ) :
    (l ++ [x]).foldl min a = min (l.foldl min a) x := by
  rw [List.foldl_append]
  rfl

/-- The invariant of the records already in the history is kept when a record is added. -/
theorem earlyStopInvariant_append (p : Nat) (log : List EpochRecord) (r : EpochRecord)
    (k : Nat) (r0 : EpochRecord) (hk : k < log.length)
    (h : EarlyStopInvariant p log k r0) : EarlyStopInvariant p (log ++ [r]) k r0 := by
  unfold EarlyStopInvariant at h ⊢
  rw [List.take_append_of_le_length (by omega)]
  exact h

/-- The early-stopping invariant holds for every record of the history of the epoch loop,
from any turn of the loop at which it holds for the records so far. -/
theorem epochLoopLog_invariant {σ : Type}
    (body : Nat → σ → Except (NetworkError × σ) (σ × ℚ))
    (p : Nat) (maxTimeMs : Int) (elapsedMs : Nat → Int) (hp : p ≠ 0) :
    ∀ n i st best log, i + n ≤ 2 ^ 64 → log.length = i →
      best.epochOfBestCE ≤ i → i - best.epochOfBestCE ≤ p →
      best.currentBestCE = (log.map (fun x => x.valCE)).foldl min 10000 →
      (∀ k r, log[k]? = some r → EarlyStopInvariant p log k r) →
      (epochLoopLog body p maxTimeMs elapsedMs n i st best log).2.length =
          (epochLoopLog body p maxTimeMs elapsedMs n i st best log).1.epochs ∧
        ∀ k r, (epochLoopLog body p maxTimeMs elapsedMs n i st best log).2[k]? = some r →
          EarlyStopInvariant p (epochLoopLog body p maxTimeMs elapsedMs n i st best log).2
            k r := by
  intro n
  induction n with
  | zero =>
    intro i st best log _ hlen _ _ _ hlog
    exact ⟨hlen, hlog⟩
  | succ n ih =>
    intro i st best log hbound hlen he hpat hcur hlog
    cases hb : body i st with
    | error es =>
      obtain ⟨e1, st1⟩ := es
      simp only [epochLoopLog, hb]
      exact ⟨hlen, hlog⟩
    | ok res =>
      obtain ⟨st1, valCE⟩ := res
      have hspec := checkStop_spec p maxTimeMs (elapsedMs i) valCE i best hp
      have he1 : (best.record valCE i).epochOfBestCE ≤ i := by
        rw [EarlyStop.record_epochOfBestCE]
        split
        · exact Nat.le_refl i
        · exact he
      have hpat1 : i - (best.record valCE i).epochOfBestCE ≤ p := by
        rw [EarlyStop.record_epochOfBestCE]
        split
        · omega
        · exact hpat
      have hwrap : (i + 2 ^ 64 - (best.record valCE i).epochOfBestCE) % 2 ^ 64 =
          i - (best.record valCE i).epochOfBestCE := by omega
      have hcur1 : (best.record valCE i).currentBestCE =
          ((log ++ [(⟨i, valCE, best.record valCE i⟩ : EpochRecord)]).map
            (fun x => x.valCE)).foldl min 10000 := by
        rw [EarlyStop.record_currentBestCE, hcur, List.map_append, List.map_cons, List.map_nil,
          foldl_min_concat]
      have hlen1 : (log ++ [(⟨i, valCE, best.record valCE i⟩ : EpochRecord)]).length =
          i + 1 := by
        rw [List.length_append, hlen]
        rfl
      have hlog1 : ∀ k r, (log ++ [(⟨i, valCE, best.record valCE i⟩ : EpochRecord)])[k]? =
          some r →
          EarlyStopInvariant p (log ++ [⟨i, valCE, best.record valCE i⟩]) k r := by
        intro k r hk
        by_cases c : k < log.length
        · rw [List.getElem?_append_left c] at hk
          exact earlyStopInvariant_append p log _ k r c (hlog k r hk)
        · have hk2 : k < (log ++ [(⟨i, valCE, best.record valCE i⟩ : EpochRecord)]).length := by
            by_contra hc
            rw [List.getElem?_eq_none (Nat.le_of_not_lt hc)] at hk
            cases hk
          have hki : k = i := by omega
          rw [List.getElem?_append_right (Nat.le_of_not_lt c), hki, hlen, Nat.sub_self] at hk
          have hr : (⟨i, valCE, best.record valCE i⟩ : EpochRecord) = r :=
            Option.some.inj hk
          rw [← hr, hki]
          refine ⟨rfl, he1, hwrap, hpat1, ?_⟩
          rw [List.take_of_length_le (by omega)]
          exact hcur1
      by_cases c1 : (i + 2 ^ 64 - (best.record valCE i).epochOfBestCE) % 2 ^ 64 = p
      · rw [if_pos c1] at hspec
        simp only [epochLoopLog, hb, hspec]
        exact ⟨hlen1, hlog1⟩
      · rw [if_neg c1] at hspec
        by_cases c2 : maxTimeMs ≠ 0 ∧ maxTimeMs ≤ elapsedMs i
        · rw [if_pos c2] at hspec
          simp only [epochLoopLog, hb, hspec]
          exact ⟨hlen1, hlog1⟩
        · rw [if_neg c2] at hspec
          simp only [epochLoopLog, hb, hspec]
          exact ih (i + 1) st1 (best.record valCE i) _ (by omega) hlen1 (by omega)
            (by omega) hcur1 hlog1

/-- C22: take the epoch loop of `fit` or of `parallelFit` (`epochLoop` on their epoch
bodies, here with its history) with patience `p > 0`.  The history has one record for every
epoch executed and, for the record of every epoch `k`: `epochOfBestCE ≤ k`, the `size_t`
difference `k - epochOfBestCE` does not wrap and is at most `p`, and `currentBestCE` is the
minimum of 10000 and the validation cross-entropies of the epochs `0 .. k`. -/
theorem early_stop_invariant {σ : Type}
    (body : Nat → σ → Except (NetworkError × σ) (σ × ℚ))
    (p numEpochs : Nat) (maxTimeMs : Int) (elapsedMs : Nat → Int) (st0 : σ)
    (hp : 0 < p) (hepochs : numEpochs < 2 ^ 64) :
    (epochLoopLog body p maxTimeMs elapsedMs numEpochs 0 st0 ⟨10000, 0⟩ []).1 =
        epochLoop body p maxTimeMs elapsedMs numEpochs 0 st0 ⟨10000, 0⟩ ∧
      (epochLoopLog body p maxTimeMs elapsedMs numEpochs 0 st0 ⟨10000, 0⟩ []).2.length =
        (epochLoop body p maxTimeMs elapsedMs numEpochs 0 st0 ⟨10000, 0⟩).epochs ∧
      ∀ k r,
        (epochLoopLog body p maxTimeMs elapsedMs numEpochs 0 st0 ⟨10000, 0⟩ []).2[k]? =
          some r →
        r.epoch = k ∧ r.best.epochOfBestCE ≤ k ∧
          (k + 2 ^ 64 - r.best.epochOfBestCE) % 2 ^ 64 = k - r.best.epochOfBestCE ∧
          k - r.best.epochOfBestCE ≤ p ∧
          r.best.currentBestCE =
            ((((epochLoopLog body p maxTimeMs elapsedMs numEpochs 0 st0 ⟨10000, 0⟩ []).2.take
              (k + 1)).map (fun x => x.valCE)).foldl min 10000) := by
  have hfst := epochLoopLog_fst body p maxTimeMs elapsedMs numEpochs 0 st0 ⟨10000, 0⟩ []
  obtain ⟨h1, h2⟩ := epochLoopLog_invariant body p maxTimeMs elapsedMs (by omega) numEpochs 0
    st0 ⟨10000, 0⟩ [] (by omega) rfl (Nat.le_refl 0) (Nat.zero_le p) rfl
    (fun k r hk => by simp at hk)
  refine ⟨hfst, ?_, fun k r hk => h2 k r hk⟩
  rw [h1, hfst]

/-- On the example, with patience 2, the history of the epoch loop of `fit`: the loop index,
the validation cross-entropy, `currentBestCE` and `epochOfBestCE` of the five epochs
executed. -/
theorem exampleHistory :
    (epochLoopLog exampleEpoch 2 0 (fun _ => 0) 10 0 (exampleFitStates 0) ⟨10000, 0⟩ []).2 =
      [⟨0, 4, ⟨4, 0⟩⟩, ⟨1, 1, ⟨1, 1⟩⟩, ⟨2, 0, ⟨0, 2⟩⟩, ⟨3, 1, ⟨0, 2⟩⟩, ⟨4, 4, ⟨0, 2⟩⟩] := by
  decide!

theorem early_stop_invariant_witness :
    (0 < 2 ∧ 10 < 2 ^ 64) ∧
      (epochLoopLog exampleEpoch 2 0 (fun _ => 0) 10 0 (exampleFitStates 0) ⟨10000, 0⟩ []).1 =
        epochLoop exampleEpoch 2 0 (fun _ => 0) 10 0 (exampleFitStates 0) ⟨10000, 0⟩ ∧
      (epochLoopLog exampleEpoch 2 0 (fun _ => 0) 10 0 (exampleFitStates 0) ⟨10000, 0⟩
          []).2.length =
        (epochLoop exampleEpoch 2 0 (fun _ => 0) 10 0 (exampleFitStates 0) ⟨10000, 0⟩).epochs ∧
      ∀ k r,
        (epochLoopLog exampleEpoch 2 0 (fun _ => 0) 10 0 (exampleFitStates 0) ⟨10000, 0⟩
          []).2[k]? = some r →
        r.epoch = k ∧ r.best.epochOfBestCE ≤ k ∧
          (k + 2 ^ 64 - r.best.epochOfBestCE) % 2 ^ 64 = k - r.best.epochOfBestCE ∧
          k - r.best.epochOfBestCE ≤ 2 ∧
          r.best.currentBestCE =
            ((((epochLoopLog exampleEpoch 2 0 (fun _ => 0) 10 0 (exampleFitStates 0)
              ⟨10000, 0⟩ []).2.take (k + 1)).map (fun x => x.valCE)).foldl min 10000) :=
  ⟨⟨by decide, by decide⟩,
    early_stop_invariant exampleEpoch 2 10 0 (fun _ => 0) (exampleFitStates 0) (by decide)
      (by decide)⟩

end FFNN
